import Mathlib

/-!
Verification of the RIFTTypeMorph schema-driven hydration, serialisation and
mutation engine.

This file gives a shallow embedding, in Lean 4, of the core of the library:

* `parseClass`        — schema discovery over an inheritance chain
                        (src/core/schemaDiscovery.ts);
* `createInstance`    — the recursive hydrator with its fail-fast and
                        error-collecting modes and its option flags
                        (src/core/createInstance.ts, the variant carrying the
                        full option set `collectErrors` / `bypassConstructor` /
                        `errorForExtraProps` / `errorForNullRequired` /
                        `dontReplaceNullWithIfEmpty`);
* `serialiseInstance` — the inverse serialiser with custom hook, `@Include`
                        keys, `@Ignore` keys and expando handling
                        (src/core/serialiseInstance.ts);
* `duplicateInstance` and `cloneWith` — the mutator layer
                        (src/core/copyInstance.ts);
* `validateInstance`  — the collecting-mode convenience wrapper
                        (src/core/validateInstance.ts).

Modelling conventions, chosen once and used throughout:

* Raw wire data is `JVal` (null / string / int / bool / array / object);
  JavaScript objects are association lists in insertion order, matching
  `Object.keys` enumeration order.  A key that is absent models the
  JavaScript `undefined` at that key; the explicit null sentinel is
  `JVal.vnull`.  JavaScript numbers are modelled as `Int` — none of the
  verified claims depends on float arithmetic.
* Runtime values are `IVal`; class instances are `IVal.iinst cls fields`
  where `cls` names a `ClassDef` in an environment `Env` (the JavaScript
  constructor reached through `instance.constructor`).  `Date` objects are
  `IVal.idate ms`.
* Class-side behaviour that JavaScript reaches through live functions
  (custom `serialise` / `deserialise` hooks, `@Include` methods, value
  coercions, constructor bodies, `ifEmpty` factories) is modelled as pure
  Lean functions stored in `ClassDef` / `TSField`; a thrown JavaScript
  exception is `Except.error msg`.
* Thrown `RIFTError`s are `Except.error (e : RError)`; an error keeps its
  message and its context path separately (the source prefixes the rendered
  path onto `Error.message`; `renderRErr` reproduces that rendering).
* Recursion through the class table (a field hydrating another class, an
  `ifEmpty` factory producing fresh data) is not structurally decreasing in
  JavaScript either, so the hydrator and the serialiser take a fuel
  parameter; fuel exhaustion is the distinguished error `fuelMsg`, which no
  JavaScript execution produces, and theorems supply enough fuel.
-/

namespace RIFT

/-- Raw plain data (the JSON-like values the engine hydrates from and
serialises to).  Objects are insertion-ordered association lists. -/
inductive JVal where
  | vnull : JVal
  | vstr : String → JVal
  | vint : Int → JVal
  | vbool : Bool → JVal
  | varr : List JVal → JVal
  | vobj : List (String × JVal) → JVal
deriving Repr

/-- Runtime values: everything `JVal` can be, plus `Date` objects and class
instances.  An instance keeps the name of its class and its own enumerable
fields in insertion order. -/
inductive IVal where
  | inull : IVal
  | istr : String → IVal
  | iint : Int → IVal
  | ibool : Bool → IVal
  | idate : Int → IVal
  | iarr : List IVal → IVal
  | iobj : List (String × IVal) → IVal
  | iinst : String → List (String × IVal) → IVal
deriving Repr

mutual

/-- Boolean equality on raw values. -/
def JVal.beq : JVal → JVal → Bool
  | .vnull, .vnull => true
  | .vstr a, .vstr b => a == b
  | .vint a, .vint b => a == b
  | .vbool a, .vbool b => a == b
  | .varr xs, .varr ys => JVal.beqList xs ys
  | .vobj xs, .vobj ys => JVal.beqObj xs ys
  | _, _ => false

/-- Boolean equality on raw arrays. -/
def JVal.beqList : List JVal → List JVal → Bool
  | [], [] => true
  | x :: xs, y :: ys => JVal.beq x y && JVal.beqList xs ys
  | _, _ => false

/-- Boolean equality on raw objects. -/
def JVal.beqObj : List (String × JVal) → List (String × JVal) → Bool
  | [], [] => true
  | (k, v) :: xs, (k2, v2) :: ys => k == k2 && JVal.beq v v2 && JVal.beqObj xs ys
  | _, _ => false

end

mutual

/-- `JVal.beq` decides equality. -/
theorem jvalBeqIff : ∀ a b : JVal, JVal.beq a b = true ↔ a = b
  | .vnull, .vnull => by simp [JVal.beq]
  | .vstr a, .vstr b => by simp [JVal.beq]
  | .vint a, .vint b => by simp [JVal.beq]
  | .vbool a, .vbool b => by simp [JVal.beq]
  | .varr xs, .varr ys => by simp [JVal.beq, jvalBeqListIff xs ys]
  | .vobj xs, .vobj ys => by simp [JVal.beq, jvalBeqObjIff xs ys]
  | .vnull, .vstr _ => by simp [JVal.beq]
  | .vnull, .vint _ => by simp [JVal.beq]
  | .vnull, .vbool _ => by simp [JVal.beq]
  | .vnull, .varr _ => by simp [JVal.beq]
  | .vnull, .vobj _ => by simp [JVal.beq]
  | .vstr _, .vnull => by simp [JVal.beq]
  | .vstr _, .vint _ => by simp [JVal.beq]
  | .vstr _, .vbool _ => by simp [JVal.beq]
  | .vstr _, .varr _ => by simp [JVal.beq]
  | .vstr _, .vobj _ => by simp [JVal.beq]
  | .vint _, .vnull => by simp [JVal.beq]
  | .vint _, .vstr _ => by simp [JVal.beq]
  | .vint _, .vbool _ => by simp [JVal.beq]
  | .vint _, .varr _ => by simp [JVal.beq]
  | .vint _, .vobj _ => by simp [JVal.beq]
  | .vbool _, .vnull => by simp [JVal.beq]
  | .vbool _, .vstr _ => by simp [JVal.beq]
  | .vbool _, .vint _ => by simp [JVal.beq]
  | .vbool _, .varr _ => by simp [JVal.beq]
  | .vbool _, .vobj _ => by simp [JVal.beq]
  | .varr _, .vnull => by simp [JVal.beq]
  | .varr _, .vstr _ => by simp [JVal.beq]
  | .varr _, .vint _ => by simp [JVal.beq]
  | .varr _, .vbool _ => by simp [JVal.beq]
  | .varr _, .vobj _ => by simp [JVal.beq]
  | .vobj _, .vnull => by simp [JVal.beq]
  | .vobj _, .vstr _ => by simp [JVal.beq]
  | .vobj _, .vint _ => by simp [JVal.beq]
  | .vobj _, .vbool _ => by simp [JVal.beq]
  | .vobj _, .varr _ => by simp [JVal.beq]

/-- `JVal.beqList` decides equality. -/
theorem jvalBeqListIff : ∀ xs ys : List JVal, JVal.beqList xs ys = true ↔ xs = ys
  | [], [] => by simp [JVal.beqList]
  | x :: xs, y :: ys => by
      simp [JVal.beqList, jvalBeqIff x y, jvalBeqListIff xs ys]
  | [], _ :: _ => by simp [JVal.beqList]
  | _ :: _, [] => by simp [JVal.beqList]

/-- `JVal.beqObj` decides equality. -/
theorem jvalBeqObjIff : ∀ xs ys : List (String × JVal), JVal.beqObj xs ys = true ↔ xs = ys
  | [], [] => by simp [JVal.beqObj]
  | (k, v) :: xs, (k2, v2) :: ys => by
      simp [JVal.beqObj, jvalBeqIff v v2, jvalBeqObjIff xs ys, Prod.ext_iff]
  | [], _ :: _ => by simp [JVal.beqObj]
  | _ :: _, [] => by simp [JVal.beqObj]

end

instance : DecidableEq JVal := fun a b => decidable_of_iff _ (jvalBeqIff a b)

mutual

/-- Boolean equality on runtime values. -/
def IVal.beq : IVal → IVal → Bool
  | .inull, .inull => true
  | .istr a, .istr b => a == b
  | .iint a, .iint b => a == b
  | .ibool a, .ibool b => a == b
  | .idate a, .idate b => a == b
  | .iarr xs, .iarr ys => IVal.beqList xs ys
  | .iobj xs, .iobj ys => IVal.beqObj xs ys
  | .iinst c xs, .iinst c2 ys => c == c2 && IVal.beqObj xs ys
  | _, _ => false

/-- Boolean equality on runtime arrays. -/
def IVal.beqList : List IVal → List IVal → Bool
  | [], [] => true
  | x :: xs, y :: ys => IVal.beq x y && IVal.beqList xs ys
  | _, _ => false

/-- Boolean equality on runtime objects. -/
def IVal.beqObj : List (String × IVal) → List (String × IVal) → Bool
  | [], [] => true
  | (k, v) :: xs, (k2, v2) :: ys => k == k2 && IVal.beq v v2 && IVal.beqObj xs ys
  | _, _ => false

end

mutual

/-- `IVal.beq` decides equality. -/
theorem ivalBeqIff : ∀ a b : IVal, IVal.beq a b = true ↔ a = b
  | .inull, .inull => by simp [IVal.beq]
  | .istr a, .istr b => by simp [IVal.beq]
  | .iint a, .iint b => by simp [IVal.beq]
  | .ibool a, .ibool b => by simp [IVal.beq]
  | .idate a, .idate b => by simp [IVal.beq]
  | .iarr xs, .iarr ys => by simp [IVal.beq, ivalBeqListIff xs ys]
  | .iobj xs, .iobj ys => by simp [IVal.beq, ivalBeqObjIff xs ys]
  | .iinst c xs, .iinst c2 ys => by simp [IVal.beq, ivalBeqObjIff xs ys]
  | .inull, .istr _ => by simp [IVal.beq]
  | .inull, .iint _ => by simp [IVal.beq]
  | .inull, .ibool _ => by simp [IVal.beq]
  | .inull, .idate _ => by simp [IVal.beq]
  | .inull, .iarr _ => by simp [IVal.beq]
  | .inull, .iobj _ => by simp [IVal.beq]
  | .inull, .iinst _ _ => by simp [IVal.beq]
  | .istr _, .inull => by simp [IVal.beq]
  | .istr _, .iint _ => by simp [IVal.beq]
  | .istr _, .ibool _ => by simp [IVal.beq]
  | .istr _, .idate _ => by simp [IVal.beq]
  | .istr _, .iarr _ => by simp [IVal.beq]
  | .istr _, .iobj _ => by simp [IVal.beq]
  | .istr _, .iinst _ _ => by simp [IVal.beq]
  | .iint _, .inull => by simp [IVal.beq]
  | .iint _, .istr _ => by simp [IVal.beq]
  | .iint _, .ibool _ => by simp [IVal.beq]
  | .iint _, .idate _ => by simp [IVal.beq]
  | .iint _, .iarr _ => by simp [IVal.beq]
  | .iint _, .iobj _ => by simp [IVal.beq]
  | .iint _, .iinst _ _ => by simp [IVal.beq]
  | .ibool _, .inull => by simp [IVal.beq]
  | .ibool _, .istr _ => by simp [IVal.beq]
  | .ibool _, .iint _ => by simp [IVal.beq]
  | .ibool _, .idate _ => by simp [IVal.beq]
  | .ibool _, .iarr _ => by simp [IVal.beq]
  | .ibool _, .iobj _ => by simp [IVal.beq]
  | .ibool _, .iinst _ _ => by simp [IVal.beq]
  | .idate _, .inull => by simp [IVal.beq]
  | .idate _, .istr _ => by simp [IVal.beq]
  | .idate _, .iint _ => by simp [IVal.beq]
  | .idate _, .ibool _ => by simp [IVal.beq]
  | .idate _, .iarr _ => by simp [IVal.beq]
  | .idate _, .iobj _ => by simp [IVal.beq]
  | .idate _, .iinst _ _ => by simp [IVal.beq]
  | .iarr _, .inull => by simp [IVal.beq]
  | .iarr _, .istr _ => by simp [IVal.beq]
  | .iarr _, .iint _ => by simp [IVal.beq]
  | .iarr _, .ibool _ => by simp [IVal.beq]
  | .iarr _, .idate _ => by simp [IVal.beq]
  | .iarr _, .iobj _ => by simp [IVal.beq]
  | .iarr _, .iinst _ _ => by simp [IVal.beq]
  | .iobj _, .inull => by simp [IVal.beq]
  | .iobj _, .istr _ => by simp [IVal.beq]
  | .iobj _, .iint _ => by simp [IVal.beq]
  | .iobj _, .ibool _ => by simp [IVal.beq]
  | .iobj _, .idate _ => by simp [IVal.beq]
  | .iobj _, .iarr _ => by simp [IVal.beq]
  | .iobj _, .iinst _ _ => by simp [IVal.beq]
  | .iinst _ _, .inull => by simp [IVal.beq]
  | .iinst _ _, .istr _ => by simp [IVal.beq]
  | .iinst _ _, .iint _ => by simp [IVal.beq]
  | .iinst _ _, .ibool _ => by simp [IVal.beq]
  | .iinst _ _, .idate _ => by simp [IVal.beq]
  | .iinst _ _, .iarr _ => by simp [IVal.beq]
  | .iinst _ _, .iobj _ => by simp [IVal.beq]

/-- `IVal.beqList` decides equality. -/
theorem ivalBeqListIff : ∀ xs ys : List IVal, IVal.beqList xs ys = true ↔ xs = ys
  | [], [] => by simp [IVal.beqList]
  | x :: xs, y :: ys => by
      simp [IVal.beqList, ivalBeqIff x y, ivalBeqListIff xs ys]
  | [], _ :: _ => by simp [IVal.beqList]
  | _ :: _, [] => by simp [IVal.beqList]

/-- `IVal.beqObj` decides equality. -/
theorem ivalBeqObjIff : ∀ xs ys : List (String × IVal), IVal.beqObj xs ys = true ↔ xs = ys
  | [], [] => by simp [IVal.beqObj]
  | (k, v) :: xs, (k2, v2) :: ys => by
      simp [IVal.beqObj, ivalBeqIff v v2, ivalBeqObjIff xs ys, Prod.ext_iff]
  | [], _ :: _ => by simp [IVal.beqObj]
  | _ :: _, [] => by simp [IVal.beqObj]

end

instance : DecidableEq IVal := fun a b => decidable_of_iff _ (ivalBeqIff a b)

/-- The closed set of field kinds (src/core/TSType.ts). -/
inductive TSType where
  | Value : TSType
  | Object : TSType
  | Array : TSType
  | Expando : TSType
deriving Repr, DecidableEq

/-- Rendering of a `TSType` for the "Unknown field type" message. -/
def TSType.name : TSType → String
  | .Value => "Value"
  | .Object => "Object"
  | .Array => "Array"
  | .Expando => "Expando"

/-- An instantiator: either a class constructor (a function with a
prototype, referenced here by class name) or a plain factory / transform
function. -/
inductive Instantiator where
  | cls : String → Instantiator
  | fn : (JVal → Except String IVal) → Instantiator

/-- Field descriptor (src/core/TSField.ts, including the `ifEmpty` slot its
callers in createInstance.ts and the decorators rely on). -/
structure TSField where
  fieldType : TSType
  instantiator : Option Instantiator
  required : Bool
  ifEmpty : Option (Unit → Except String JVal)
  alwaysInstantiate : Bool

/-- The `TSField` constructor: for `Expando` kind, `required`,
`instantiator` and `alwaysInstantiate` are forced to neutral values
(src/core/TSField.ts). -/
def mkTSField (fieldType : TSType) (createNew : Option Instantiator := none)
    (required : Bool := true) (ifEmpty : Option (Unit → Except String JVal) := none)
    (alwaysInstantiate : Bool := false) : TSField :=
  { fieldType := fieldType
    required := if fieldType = TSType.Expando then false else required
    instantiator := if fieldType = TSType.Expando then none else createNew
    ifEmpty := ifEmpty
    alwaysInstantiate := if fieldType = TSType.Expando then false else alwaysInstantiate }

/-- One level of a prototype chain: the `__schemaFields` record, the
`__includedMethods` set and the `__ignoredFields` set installed (or not)
on that prototype by the decorators. -/
structure Level where
  schemaFields : List (String × TSField)
  includedMethods : List String
  ignoredFields : Option (List String)

/-- A class: its prototype chain (most derived level first) plus everything
JavaScript reaches through the constructor function itself. -/
structure ClassDef where
  /-- Prototype chain metadata, most-derived level first. -/
  levels : List Level
  /-- Enumerable `TSField`-valued properties sitting directly on the
  prototype (legacy style schemas assigned onto the prototype). -/
  protoEnum : List (String × TSField)
  /-- `TSField`-valued own properties installed by running `new C()`
  (legacy style schemas declared as instance field initialisers). -/
  legacyOwn : List (String × TSField)
  /-- `Constructor.length` — declared parameter count. -/
  ctorArity : Nat
  /-- Effect of `new C()`: the data-valued own fields it installs, or the
  exception it throws. -/
  ctorRun : Except String (List (String × IVal))
  /-- Whether `@BypassConstructor()` was registered for the class
  (src/decorators/rehydrateOptions.ts `shouldBypassConstructor`). -/
  bypassFlag : Bool
  /-- Static `serialise(obj)` hook, if any. -/
  serialiseHook : Option (IVal → Except String IVal)
  /-- Static `deserialise(data)` hook, if any. -/
  deserialiseHook : Option (JVal → Except String IVal)
  /-- `new C(raw)` used as a constructor-style value coercion on `Value`
  fields (for example `Date`). -/
  newWithArg : JVal → Except String IVal
  /-- Methods and getters reachable for `@Include` serialisation, keyed by
  name; calling one is applying it to the instance. -/
  methods : List (String × (IVal → Except String IVal))

/-- The class table: class name to definition.  JavaScript holds classes as
live values; the embedding routes every `instance.constructor` /
instantiator reference through this table. -/
def Env : Type := List (String × ClassDef)

/-- One segment of a context path: `.key` or `[index]`. -/
inductive Seg where
  | key : String → Seg
  | idx : Nat → Seg
deriving Repr, DecidableEq

/-- A context path: the root label handed to the entry point (for example
"root", "cloneWith", "duplicate") plus the segments appended while
recursing.  The source keeps these as strings like `root.children[2].id`;
the structured form renders to exactly that string. -/
structure Path where
  root : String
  segs : List Seg
deriving Repr, DecidableEq

/-- Rendering of one segment. -/
def Seg.render : Seg → String
  | .key k => "." ++ k
  | .idx i => "[" ++ toString i ++ "]"

/-- Rendering of a path to the dotted/bracketed string the source carries. -/
def Path.render (p : Path) : String :=
  p.root ++ String.join (p.segs.map Seg.render)

/-- Child path for a field key. -/
def Path.child (p : Path) (k : String) : Path :=
  { p with segs := p.segs ++ [Seg.key k] }

/-- Child path for an array index. -/
def Path.at (p : Path) (i : Nat) : Path :=
  { p with segs := p.segs ++ [Seg.idx i] }

/-- The default root path (the default `outerType` "root", and the default
context of a `RIFTError` built without one). -/
def rootPath : Path := { root := "root", segs := [] }

/-- A thrown `RIFTError` (src/utils/errors.ts): message plus context path. -/
structure RError where
  msg : String
  ctx : Path
deriving Repr, DecidableEq

/-- The `Error.message` a `RIFTError` exposes: the rendered context in
brackets, then the raw message (src/utils/errors.ts). -/
def renderRErr (e : RError) : String :=
  "[" ++ e.ctx.render ++ "] " ++ e.msg

/-- The distinguished fuel-exhaustion marker.  No JavaScript execution
produces it; theorems provide enough fuel for it never to arise. -/
def fuelMsg : String := "model: out of fuel"

/-- Association-list lookup with string keys (`data[key]`, insertion
order irrelevant for lookup). -/
def alookup {α : Type} : List (String × α) → String → Option α
  | [], _ => none
  | (k, v) :: rest, key => if k = key then some v else alookup rest key

/-- JavaScript property assignment `o[k] = v` on an insertion-ordered
object: an existing key keeps its position, a new key is appended. -/
def objSet {α : Type} : List (String × α) → String → α → List (String × α)
  | [], key, v => [(key, v)]
  | (k, w) :: rest, key, v =>
      if k = key then (k, v) :: rest else (k, w) :: objSet rest key v

/-- JavaScript `delete o[k]`. -/
def objDelete {α : Type} : List (String × α) → String → List (String × α)
  | [], _ => []
  | (k, w) :: rest, key => if k = key then rest else (k, w) :: objDelete rest key

/-- Reading `data[key]` off a raw value.  On a non-object this models the
(absent) result for the schema keys the engine actually reads; exotic
JavaScript behaviours such as indexing into strings are outside the model
and unused by every verified claim. -/
def jGet : JVal → String → Option JVal
  | .vobj kvs, key => alookup kvs key
  | _, _ => none

/-- `Object.keys(data ?? ...)` on raw data (non-objects enumerate to
nothing; string index enumeration is outside the model and unused). -/
def jKeys : JVal → List String
  | .vobj kvs => kvs.map Prod.fst
  | _ => []

mutual

/-- Embedding of raw data into runtime values (a raw value assigned
verbatim onto an instance field). -/
def jvalToIVal : JVal → IVal
  | .vnull => .inull
  | .vstr s => .istr s
  | .vint n => .iint n
  | .vbool b => .ibool b
  | .varr xs => .iarr (jvalListToIVal xs)
  | .vobj kvs => .iobj (jvalObjToIVal kvs)

/-- Embedding of a raw array, elementwise. -/
def jvalListToIVal : List JVal → List IVal
  | [] => []
  | x :: xs => jvalToIVal x :: jvalListToIVal xs

/-- Embedding of a raw object, entrywise. -/
def jvalObjToIVal : List (String × JVal) → List (String × IVal)
  | [] => []
  | (k, v) :: rest => (k, jvalToIVal v) :: jvalObjToIVal rest

end

/-- Append a string to a list if not already present (insertion into a
JavaScript `Set`, preserving iteration order). -/
def setInsert (l : List String) (s : String) : List String :=
  if s ∈ l then l else l ++ [s]

/-- Fold `setInsert` over many keys. -/
def setInsertAll (l : List String) (ks : List String) : List String :=
  ks.foldl setInsert l

/-- Resolved schema for a type (src/core/schemaDiscovery.ts
`ParsedSchema`). -/
structure ParsedSchema where
  fields : List (String × TSField)
  expandoKey : Option String
  includedKeys : List String

/-- The configuration error raised for a second, distinct expando field. -/
def multipleExpandoErr : RError :=
  { msg := "Multiple expando properties were defined! There can be only one."
    ctx := rootPath }

/-- State of the `parseClass` walk: the fields seen so far and the expando
key seen so far. -/
structure ParseState where
  fields : List (String × TSField)
  expandoKey : Option String

/-- One step of the decorator walk of `parseClass`: processing a single
`__schemaFields` entry.  A key already in `fields` is skipped (child
overrides parent); an expando declaration conflicts when a *different*
expando key was already chosen. -/
def parseStepDeco (st : ParseState) (e : String × TSField) :
    Except RError ParseState :=
  if (alookup st.fields e.1).isSome then .ok st
  else if e.2.fieldType = TSType.Expando then
    match st.expandoKey with
    | some k => if k ≠ e.1 then .error multipleExpandoErr else .ok { st with expandoKey := some e.1 }
    | none => .ok { st with expandoKey := some e.1 }
  else .ok { st with fields := objSet st.fields e.1 e.2 }

/-- The decorator walk over a list of entries. -/
def parseWalkDeco : ParseState → List (String × TSField) → Except RError ParseState
  | st, [] => .ok st
  | st, e :: rest => do parseWalkDeco (← parseStepDeco st e) rest

/-- One step of the legacy walk of `parseClass` (a `TSField`-valued
enumerable property found on the prototype or directly on the instance).
Its duplicate check is stricter than the decorator walk: any second
expando declaration, even with the same key, throws. -/
def parseStepLegacy (st : ParseState) (e : String × TSField) :
    Except RError ParseState :=
  if (alookup st.fields e.1).isSome then .ok st
  else if e.2.fieldType = TSType.Expando then
    match st.expandoKey with
    | some _ => .error multipleExpandoErr
    | none => .ok { st with expandoKey := some e.1 }
  else .ok { st with fields := objSet st.fields e.1 e.2 }

/-- The legacy walk over a list of entries. -/
def parseWalkLegacy : ParseState → List (String × TSField) → Except RError ParseState
  | st, [] => .ok st
  | st, e :: rest => do parseWalkLegacy (← parseStepLegacy st e) rest

/-- Schema discovery (src/core/schemaDiscovery.ts `parseClass`): collect
`@Include` keys from every level, walk the decorator metadata most-derived
level first with child-overrides-parent shadowing, then fall back to
legacy `TSField`-valued enumerable properties on the direct prototype and
on the instance itself.  `ownTS` is the list of `TSField`-valued own
properties of the instance being parsed (empty for a bypass-constructed or
already-hydrated instance). -/
def parseClass (levels : List Level) (protoEnum ownTS : List (String × TSField)) :
    Except RError ParsedSchema := do
  let includedKeys := levels.foldl (fun acc lvl => setInsertAll acc lvl.includedMethods) []
  let st0 : ParseState := { fields := [], expandoKey := none }
  let st1 ← levels.foldlM (fun st lvl => parseWalkDeco st lvl.schemaFields) st0
  let st2 ← parseWalkLegacy st1 protoEnum
  let st3 ← parseWalkLegacy st2 ownTS
  .ok { fields := st3.fields, expandoKey := st3.expandoKey, includedKeys := includedKeys }

/-- The `__ignoredFields` set the serialiser sees: prototype-chain property
lookup finds the nearest level on which the decorator installed the set
(src/core/serialiseInstance.ts reads `proto?.__ignoredFields`). -/
def ignoredOf (levels : List Level) : List String :=
  match levels.find? (fun lvl => lvl.ignoredFields.isSome) with
  | some lvl => lvl.ignoredFields.getD []
  | none => []

/-- Environment lookup. -/
def envFind (env : Env) (name : String) : Option ClassDef :=
  alookup env name

/-- Schema discovery applied to a runtime value, as both the hydrator and
the serialiser do via `parseClass(instance)`: a class instance parses its
class; any other object has an empty prototype chain and (values being
data, not `TSField`s) discovers an empty schema.  `ownTS` carries the
`TSField`-valued own properties, when the caller knows the instance was
just built by a legacy constructor. -/
def parseClassOf (env : Env) (inst : IVal) (ownTS : List (String × TSField)) :
    Except RError ParsedSchema :=
  match inst with
  | .iinst cls _ =>
      match envFind env cls with
      | some cd => parseClass cd.levels cd.protoEnum ownTS
      | none => parseClass [] [] ownTS
  | _ => parseClass [] [] ownTS

/-- Options accepted by `createInstance` (the `CreateInstanceOptions` of the
full-option variant).  `bypassConstructor` is three-valued: the source
distinguishes the key being absent (`undefined`) from an explicit `true` or
`false`. -/
structure HOptions where
  collectErrors : Bool
  bypassConstructor : Option Bool
  errorForExtraProps : Bool
  errorForNullRequired : Bool
  dontReplaceNullWithIfEmpty : Bool

/-- The empty options object (every flag absent). -/
def defaultHOptions : HOptions :=
  { collectErrors := false
    bypassConstructor := none
    errorForExtraProps := false
    errorForNullRequired := false
    dontReplaceNullWithIfEmpty := false }

/-- Result of the hydrator: in fail-fast mode a thrown `RIFTError` is
`Except.error` and an `ok` carries no collected errors; in collecting mode
every outcome is `ok (instance, errors)` except for `parseClass` failures,
which the source throws without routing through `fail` even when
collecting.  A JavaScript `null` instance is `IVal.inull`. -/
abbrev HRes := Except RError (IVal × List RError)

/-- The `fail(err)` helper of `createInstance` followed by an immediate
return: collecting mode records the error and returns the given instance,
fail-fast mode throws. -/
def failRet (collect : Bool) (e : RError) (inst : IVal) (errs : List RError) : HRes :=
  if collect then .ok (inst, errs ++ [e]) else .error e

/-- Shared handling of null/undefined `data` at the top of
`createInstance`: a required (or absent) field descriptor makes it an
error, otherwise the call returns a null instance silently. -/
def nullDataResult (collect : Bool) (field : Option TSField) (outer : Path) : HRes :=
  if (match field with | some f => f.required | none => true) then
    failRet collect { msg := "Field value was null but marked as required", ctx := outer } .inull []
  else .ok (.inull, [])

/-- Is the runtime value a JavaScript `object` (the `typeof` check on the
instantiator result)? -/
def isObjLike : IVal → Bool
  | .iarr _ => true
  | .iobj _ => true
  | .iinst _ _ => true
  | .idate _ => true
  | _ => false

/-- `typeof` rendering for the invalid-instantiator-result message. -/
def typeofName : IVal → String
  | .istr _ => "string"
  | .iint _ => "number"
  | .ibool _ => "boolean"
  | .inull => "object"
  | _ => "object"

/-- Property assignment `instance[key] = v` on a runtime value.  Writes on
hosts that are not plain objects or instances do not occur in any verified
execution and leave the value unchanged. -/
def isetField : IVal → String → IVal → IVal
  | .iinst c fs, k, v => .iinst c (objSet fs k v)
  | .iobj fs, k, v => .iobj (objSet fs k v)
  | other, _, _ => other

/-- The error message for a constructor that needs arguments. -/
def ctorArityMsg (name : String) : String :=
  "Constructor for " ++ name ++
    " requires arguments and cannot be safely called during hydration. " ++
    "Consider using @BypassConstructor() or options.bypassConstructor to avoid invoking the constructor."

mutual

/-- The hydrator (`createInstance` of src/core/createInstance.ts, the
variant with the full option set).  `data = none` is JavaScript
`undefined`, `data = some JVal.vnull` the null sentinel.  The instantiator
inference helper (`inferInstantiatorFromField`) only reads
`field.instantiator`, which was already copied into `instantiator` when
present, so by the time the resolution step runs it always yields null and
a missing instantiator is a plain failure. -/
def createInstance (env : Env) (fuel : Nat) (data : Option JVal)
    (instantiator0 : Option Instantiator) (field : Option TSField)
    (outer : Path) (opts : HOptions) : HRes :=
  match fuel with
  | 0 => .error { msg := fuelMsg, ctx := outer }
  | n + 1 =>
    let collect := opts.collectErrors
    -- Guard: value fields cannot be hydrated via createInstance.
    if (match field with | some f => f.fieldType == TSType.Value | none => false) then
      failRet collect { msg := "createInstance called on a value type", ctx := outer } .inull []
    else
      -- Field-level instantiator override.
      let instantiator := match field with
        | some f => match f.instantiator with
          | some i => some i
          | none => instantiator0
        | none => instantiator0
      match instantiator with
      | none => failRet collect { msg := "Missing instantiator", ctx := outer } .inull []
      | some inst0 =>
        -- Top-level null/undefined guard.
        match data with
        | none => nullDataResult collect field outer
        | some JVal.vnull => nullDataResult collect field outer
        | some d =>
          match inst0 with
          | .cls name =>
            match envFind env name with
            | none => .error { msg := "model: unknown class " ++ name, ctx := outer }
            | some cd =>
              match cd.deserialiseHook with
              | some hook =>
                -- A static deserialise(obj) is authoritative: its result is
                -- returned immediately, skipping the schema walk.
                match hook d with
                | .ok v => .ok (v, [])
                | .error e =>
                    failRet collect
                      { msg := "Error during deserialise(): " ++ e, ctx := outer } .inull []
              | none =>
                if (opts.bypassConstructor.isNone && cd.bypassFlag) ||
                    opts.bypassConstructor = some true then
                  hydrateInto env n d (.iinst name []) [] outer opts
                else if cd.ctorArity > 0 then
                  failRet collect { msg := ctorArityMsg name, ctx := outer } .inull []
                else
                  match cd.ctorRun with
                  | .ok own => hydrateInto env n d (.iinst name own) cd.legacyOwn outer opts
                  | .error e =>
                      failRet collect
                        { msg := "Error during construction of " ++ name ++ ": " ++ e
                          ctx := outer } .inull []
          | .fn f =>
            match f d with
            | .ok v => hydrateInto env n d v [] outer opts
            | .error e =>
                failRet collect
                  { msg := "Error during instantiation: " ++ e, ctx := outer } .inull []
termination_by (fuel, 0, 0)

/-- Continuation of `createInstance` once an instance exists: result
guards, schema discovery, the declared-field walk, then extra-property /
expando handling.  `ownTS` carries the `TSField`-valued own properties a
legacy constructor installed (empty under constructor bypass). -/
def hydrateInto (env : Env) (fuel : Nat) (d : JVal) (inst : IVal)
    (ownTS : List (String × TSField)) (outer : Path) (opts : HOptions) : HRes :=
  let collect := opts.collectErrors
  -- Guard: instantiator result validity.
  if inst = .inull then
    failRet collect { msg := "Instantiator returned null/undefined", ctx := outer } .inull []
  else if ¬ isObjLike inst then
    failRet collect
      { msg := "Invalid instantiator result type: " ++ typeofName inst, ctx := outer } .inull []
  else
    -- Schema walk.  parseClass throws directly, bypassing fail(), so its
    -- error propagates even in collecting mode.
    match parseClassOf env inst ownTS with
    | .error e => .error e
    | .ok ps =>
      match walkFields env fuel ps.fields d inst outer opts [] with
      | .error e => .error e
      | .ok (inst1, errs) =>
        -- Extra props / expando.
        let consumed := ps.fields.map Prod.fst
        let extraEntries :=
          match d with
          | .vobj kvs =>
              kvs.filter (fun kv => ¬ kv.1 ∈ consumed ∧ ¬ kv.1 ∈ ps.includedKeys)
          | _ => []
        match ps.expandoKey with
        | some ek =>
            .ok (isetField inst1 ek
              (.iobj (extraEntries.map (fun kv => (kv.1, jvalToIVal kv.2)))), errs)
        | none =>
          if opts.errorForExtraProps ∧ extraEntries ≠ [] then
            failRet collect
              { msg := "Unexpected properties: " ++
                  String.intercalate ", " (extraEntries.map Prod.fst)
                ctx := outer } inst1 errs
          else .ok (inst1, errs)
termination_by (fuel, 4, 0)

/-- The declared-field walk of `createInstance`: process each resolved
field in schema order; each field step yields the value assigned under the
field name (`instance[key] = ...`), if any, plus the errors it pushed, and
the walk threads the evolving instance and the collected error list. -/
def walkFields (env : Env) (fuel : Nat) (entries : List (String × TSField))
    (d : JVal) (inst : IVal) (outer : Path) (opts : HOptions)
    (errs : List RError) : Except RError (IVal × List RError) :=
  match entries with
  | [] => .ok (inst, errs)
  | (key, fld) :: rest =>
    match hydrateField env fuel key fld d outer opts with
    | .error e => .error e
    | .ok (va, tail) =>
        walkFields env fuel rest d
          (match va with
           | some v => isetField inst key v
           | none => inst) outer opts (errs ++ tail)
termination_by (fuel, 3, entries.length)

/-- Processing of one declared field, in the order the source fixes:
unified empty handling (undefined, and null unless preserved), explicit
null escalation, then the `Array` / `Object` / `Value` type dispatch.  The
result is the value the source assigns to `instance[key]` (none exactly on
the unknown-field-type path, which assigns nothing) together with the
errors the step pushes; a fail-fast throw is `Except.error`. -/
def hydrateField (env : Env) (fuel : Nat) (key : String) (fld : TSField)
    (d : JVal) (outer : Path) (opts : HOptions) :
    Except RError (Option IVal × List RError) :=
  let collect := opts.collectErrors
  let rawValue := jGet d key
  let nested := outer.child key
  -- Unified empty handling (undefined + optional null).
  if rawValue = none ∨ (rawValue = some JVal.vnull ∧ ¬ opts.dontReplaceNullWithIfEmpty) then
    match fld.ifEmpty with
    | some fac =>
      -- The try block covers both the factory call and, for Object/Array
      -- fields, the recursive hydration of its result: a fail-fast throw
      -- from the recursion is wrapped into the ifEmpty message.
      match fac () with
      | .error e =>
          if collect then
            .ok (some .inull,
              [{ msg := "Error during ifEmpty instantiation for field: " ++ key ++ ": " ++ e
                 ctx := nested }])
          else
            .error { msg := "Error during ifEmpty instantiation for field: " ++ key ++ ": " ++ e
                     ctx := nested }
      | .ok j =>
        if fld.fieldType = TSType.Value then
          .ok (some (jvalToIVal j), [])
        else
          match createInstance env fuel (some j) none (some fld) nested opts with
          | .error e =>
              if collect then
                .ok (some .inull,
                  [{ msg := "Error during ifEmpty instantiation for field: " ++ key ++ ": " ++
                       renderRErr e
                     ctx := nested }])
              else
                .error { msg := "Error during ifEmpty instantiation for field: " ++ key ++ ": " ++
                           renderRErr e
                         ctx := nested }
          | .ok (v, es) => .ok (some v, es)
    | none =>
      if fld.required then
        if collect then
          .ok (some .inull, [{ msg := "Missing required property: " ++ key, ctx := outer }])
        else .error { msg := "Missing required property: " ++ key, ctx := outer }
      else .ok (some .inull, [])
  -- Explicit null handling (when preserved).
  else if rawValue = some JVal.vnull ∧ fld.required ∧ opts.errorForNullRequired ∧
      fld.ifEmpty.isNone then
    if collect then
      .ok (some .inull, [{ msg := "Field value was null but marked as required", ctx := nested }])
    else .error { msg := "Field value was null but marked as required", ctx := nested }
  -- Array.
  else if fld.fieldType = TSType.Array then
    match rawValue with
    | some (JVal.varr xs) =>
      let elementField := mkTSField fld.fieldType fld.instantiator fld.required none false
      match hydrateElems env fuel elementField xs 0 nested opts [] [] with
      | .error e => .error e
      | .ok (vals, es) => .ok (some (.iarr vals), es)
    | _ =>
      if collect then
        .ok (some .inull, [{ msg := "Invalid type: expected array", ctx := nested }])
      else .error { msg := "Invalid type: expected array", ctx := nested }
  -- Object.
  else if fld.fieldType = TSType.Object then
    match createInstance env fuel rawValue none (some fld) nested opts with
    | .error e => .error e
    | .ok (v, es) => .ok (some v, es)
  -- Value.
  else if fld.fieldType = TSType.Value then
    match rawValue with
    | none => .ok (some .inull, [])  -- unreachable: empty handling consumed it
    | some rv =>
      match fld.instantiator with
      | some (.cls cname) =>
        -- Constructor coercion (Date, BigInt, ...): `new inst(rawValue)`.
        match envFind env cname with
        | none => .error { msg := "model: unknown class " ++ cname, ctx := nested }
        | some cd =>
          match cd.newWithArg rv with
          | .ok v => .ok (some v, [])
          | .error e =>
              if collect then
                .ok (some .inull,
                  [{ msg := "Error during value instantiation for field: " ++ key ++ ": " ++ e
                     ctx := nested }])
              else
                .error { msg := "Error during value instantiation for field: " ++ key ++ ": " ++ e
                         ctx := nested }
      | some (.fn f) =>
        match f rv with
        | .ok v => .ok (some v, [])
        | .error e =>
            if collect then
              .ok (some .inull,
                [{ msg := "Error during value instantiation for field: " ++ key ++ ": " ++ e
                   ctx := nested }])
            else
              .error { msg := "Error during value instantiation for field: " ++ key ++ ": " ++ e
                       ctx := nested }
      | none => .ok (some (jvalToIVal rv), [])
  else
    -- Unknown field type (an Expando never reaches the walk: parseClass
    -- keeps the expando key out of `fields`); the source assigns nothing
    -- on this path.
    if collect then
      .ok (none, [{ msg := "Unknown field type: " ++ fld.fieldType.name, ctx := outer }])
    else .error { msg := "Unknown field type: " ++ fld.fieldType.name, ctx := outer }
termination_by (fuel, 2, 0)

/-- Hydration of the elements of an `Array` field: each present element is
hydrated against a synthetic per-element field sharing the array field's
kind, instantiator and requiredness.  Raw data arrays have no holes, so
the sparse-hole branch of the source never fires here. -/
def hydrateElems (env : Env) (fuel : Nat) (elementField : TSField)
    (elems : List JVal) (i : Nat) (nestedBase : Path) (opts : HOptions)
    (accV : List IVal) (accE : List RError) : Except RError (List IVal × List RError) :=
  match elems with
  | [] => .ok (accV, accE)
  | x :: rest =>
    match createInstance env fuel (some x) none (some elementField) (nestedBase.at i) opts with
    | .error e => .error e
    | .ok (v, es) =>
        hydrateElems env fuel elementField rest (i + 1) nestedBase opts
          (accV ++ [v]) (accE ++ es)
termination_by (fuel, 1, elems.length)

end

/-- Options accepted by `serialiseInstance`. -/
structure SOptions where
  errorForExtraProps : Bool
  flattenExpando : Bool
  allowPlainObjectPassthrough : Bool

/-- The empty serialisation options object. -/
def defaultSOptions : SOptions :=
  { errorForExtraProps := false
    flattenExpando := false
    allowPlainObjectPassthrough := false }

/-- `Date.prototype.toISOString` on the modelled epoch milliseconds.  The
calendar rendering itself is outside the scope of the claims; the model
keeps it as an injective canonical rendering of the timestamp. -/
def dateToISOString (ms : Int) : String :=
  "iso-8601:" ++ toString ms

/-- Own enumerable data entries of a runtime value (`Object.keys` /
`Object.entries` on the instance). -/
def ownEntries : IVal → List (String × IVal)
  | .iobj fs => fs
  | .iinst _ fs => fs
  | _ => []

/-- Is the value a plain object (its prototype is `Object.prototype`)? -/
def isPlainObj : IVal → Bool
  | .iobj _ => true
  | _ => false

mutual

/-- The value deep-copier of the serialiser (`serialiseValue`): dates
become canonical timestamp strings, scalars pass through, arrays and
objects are rebuilt recursively — the output never aliases the input. -/
def serialiseValue : IVal → Path → Except RError JVal
  | .inull, _ => .ok .vnull
  | .idate ms, _ => .ok (.vstr (dateToISOString ms))
  | .istr s, _ => .ok (.vstr s)
  | .iint n, _ => .ok (.vint n)
  | .ibool b, _ => .ok (.vbool b)
  | .iarr xs, ctx => do .ok (.varr (← serialiseValueList xs ctx 0))
  | .iobj fs, ctx => do .ok (.vobj (← serialiseValueObj fs ctx))
  | .iinst _ fs, ctx => do .ok (.vobj (← serialiseValueObj fs ctx))

/-- Elementwise `serialiseValue` over an array, with indexed contexts. -/
def serialiseValueList : List IVal → Path → Nat → Except RError (List JVal)
  | [], _, _ => .ok []
  | x :: xs, ctx, i => do
      .ok ((← serialiseValue x (ctx.at i)) :: (← serialiseValueList xs ctx (i + 1)))

/-- Entrywise `serialiseValue` over an object, with keyed contexts. -/
def serialiseValueObj : List (String × IVal) → Path → Except RError (List (String × JVal))
  | [], _ => .ok []
  | (k, v) :: fs, ctx => do
      .ok ((k, ← serialiseValue v (ctx.child k)) :: (← serialiseValueObj fs ctx))

end

/-- The `ensureParsed` call at the top of the serialiser: parse the class
of the instance (on a prototype-only stand-in, so without own legacy
fields) and propagate a thrown configuration error; the per-type cache is
semantically transparent because parsing is deterministic. -/
def ensureParsedOf (env : Env) (inst : IVal) : Except RError Unit :=
  match inst with
  | .iinst cls _ =>
      match envFind env cls with
      | some cd => do
          let _ ← parseClass cd.levels cd.protoEnum []
          .ok ()
      | none => .ok ()
  | _ => .ok ()

/-- The custom static `serialise` hook of the instance class, if any. -/
def serialiseHookOf (env : Env) (inst : IVal) : Option (IVal → Except String IVal) :=
  match inst with
  | .iinst cls _ =>
      match envFind env cls with
      | some cd => cd.serialiseHook
      | none => none
  | _ => none

/-- The `__ignoredFields` set visible from the instance prototype. -/
def ignoredFieldsOf (env : Env) (inst : IVal) : List String :=
  match inst with
  | .iinst cls _ =>
      match envFind env cls with
      | some cd => ignoredOf cd.levels
      | none => []
  | _ => []

/-- The `@Include` method or getter with the given name, reachable from the
instance through `findPropertyDescriptor`, if any. -/
def methodOf (env : Env) (inst : IVal) (key : String) :
    Option (IVal → Except String IVal) :=
  match inst with
  | .iinst cls _ =>
      match envFind env cls with
      | some cd => alookup cd.methods key
      | none => none
  | _ => none

/-- The `@Include` pass of the serialiser: evaluate each included method or
getter and serialise its result, errors being wrapped with the key name. -/
def serialiseIncludes (env : Env) (inst : IVal) (ps : ParsedSchema)
    (ignored : List String) (outer : Path) :
    List String → List (String × JVal) → Except RError (List (String × JVal))
  | [], out => .ok out
  | key :: rest, out =>
    if key ∈ ignored then serialiseIncludes env inst ps ignored outer rest out
    else if (alookup ps.fields key).isSome then
      serialiseIncludes env inst ps ignored outer rest out
    else if ps.expandoKey = some key then
      serialiseIncludes env inst ps ignored outer rest out
    else
      match methodOf env inst key with
      | none => serialiseIncludes env inst ps ignored outer rest out
      | some m =>
        -- The try block covers the call and the value serialisation.
        match m inst with
        | .error e =>
            .error { msg := "Error during @Include execution: " ++ key ++ ": " ++ e
                     ctx := outer }
        | .ok v =>
          match serialiseValue v (outer.child key) with
          | .error re =>
              .error { msg := "Error during @Include execution: " ++ key ++ ": " ++
                         renderRErr re
                       ctx := outer }
          | .ok j => serialiseIncludes env inst ps ignored outer rest (objSet out key j)

/-- Flattening of expando entries onto the top level of the output. -/
def serialiseExpandoFlat : List (String × IVal) → Path → List (String × JVal) →
    Except RError (List (String × JVal))
  | [], _, out => .ok out
  | (k, v) :: rest, outer, out =>
    match serialiseValue v (outer.child k) with
    | .error e => .error e
    | .ok j => serialiseExpandoFlat rest outer (objSet out k j)

/-- The expando pass of the serialiser: a materialised (truthy, object)
expando map is deep-copied and either flattened to top-level keys or
nested under the expando key. -/
def serialiseExpando (inst : IVal) (ps : ParsedSchema) (outer : Path)
    (config : SOptions) (out : List (String × JVal)) :
    Except RError (List (String × JVal)) :=
  match ps.expandoKey with
  | none => .ok out
  | some ek =>
    match alookup (ownEntries inst) ek with
    | none => .ok out
    | some ev =>
      if ev = .inull ∨ ¬ isObjLike ev then .ok out
      else if config.flattenExpando then
        serialiseExpandoFlat (ownEntries ev) outer out
      else
        match serialiseValue ev (outer.child ek) with
        | .error e => .error e
        | .ok j => .ok (objSet out ek j)

/-- The strict extra-property pass of the serialiser: the first own key not
accounted for by a declared field, an included key, the expando key or an
ignored key is fatal. -/
def checkExtraProps (ps : ParsedSchema) (ignored : List String) (outer : Path) :
    List String → Except RError Unit
  | [] => .ok ()
  | key :: rest =>
    if key ∈ ignored then checkExtraProps ps ignored outer rest
    else if (alookup ps.fields key).isSome then checkExtraProps ps ignored outer rest
    else if key ∈ ps.includedKeys then checkExtraProps ps ignored outer rest
    else if ps.expandoKey = some key then checkExtraProps ps ignored outer rest
    else .error { msg := "Unexpected extra property during serialisation: " ++ key
                  ctx := outer }

mutual

/-- The serialiser (`serialiseInstance` of src/core/serialiseInstance.ts).
A null or undefined instance serialises to null before anything else runs.
A custom static `serialise` hook is authoritative and skips the schema
walk; otherwise the resolved schema drives the traversal, then `@Include`
keys, then the expando map, then the optional strict extra-property check.
The `field` argument only disambiguates the public overloads and is unused
by the body. -/
def serialiseInstance (env : Env) (fuel : Nat) (inst : IVal)
    (_field : Option TSField) (outer : Path) (config : SOptions) :
    Except RError JVal :=
  match fuel with
  | 0 => .error { msg := fuelMsg, ctx := outer }
  | n + 1 =>
    if inst = .inull then .ok .vnull
    else
      match ensureParsedOf env inst with
      | .error e => .error e
      | .ok _ =>
        match serialiseHookOf env inst with
        | some hook =>
          -- Prefer static serialise(obj): its result is the full contract
          -- for this subtree; the try block also wraps the deep copy.
          match hook inst with
          | .error e => .error { msg := "Error during serialise(): " ++ e, ctx := outer }
          | .ok v =>
            match serialiseValue v outer with
            | .error re =>
                .error { msg := "Error during serialise(): " ++ renderRErr re, ctx := outer }
            | .ok j => .ok j
        | none =>
          match parseClassOf env inst [] with
          | .error e => .error e
          | .ok ps =>
            let hasDeco : Bool :=
              ¬ ps.fields.isEmpty || ¬ ps.includedKeys.isEmpty || ps.expandoKey.isSome
            let ownKeys := (ownEntries inst).map Prod.fst
            -- Plain object misuse detection (first block, via
            -- hasSchemaDecorators).
            if ¬ hasDeco && isPlainObj inst && ¬ ownKeys.isEmpty then
              if config.allowPlainObjectPassthrough then .ok (.vobj [])
              else
                .error { msg := "Attempted to serialise object with no schema decorators at \"" ++
                           outer.render ++ "\". Keys detected: [" ++
                           String.intercalate ", " ownKeys ++ "]."
                         ctx := outer }
            -- Second detection block (same plainness and schema checks,
            -- unreachable when the first block passed, kept for fidelity).
            else if isObjLike inst && isPlainObj inst && ¬ hasDeco && ¬ ownKeys.isEmpty then
              if config.allowPlainObjectPassthrough then .ok (.vobj [])
              else
                .error { msg := "Attempted to serialise a plain object with no schema at \"" ++
                           outer.render ++ "\". Keys detected: [" ++
                           String.intercalate ", " ownKeys ++
                           "]. This usually indicates prototype loss (JSON.parse, spread, clone, etc)."
                         ctx := outer }
            else
              let ignored := ignoredFieldsOf env inst
              match serialiseFields env n ps.fields inst ignored outer config [] with
              | .error e => .error e
              | .ok out1 =>
                match serialiseIncludes env inst ps ignored outer ps.includedKeys out1 with
                | .error e => .error e
                | .ok out2 =>
                  match serialiseExpando inst ps outer config out2 with
                  | .error e => .error e
                  | .ok out3 =>
                    if config.errorForExtraProps then
                      match checkExtraProps ps ignored outer ownKeys with
                      | .error e => .error e
                      | .ok _ => .ok (.vobj out3)
                    else .ok (.vobj out3)
termination_by (fuel, 0, 0)

/-- The schema traversal of the serialiser: each declared, non-ignored
field emits its serialised value; a required field holding null or
undefined at serialisation time is fatal, an optional one emits null. -/
def serialiseFields (env : Env) (fuel : Nat) (entries : List (String × TSField))
    (inst : IVal) (ignored : List String) (outer : Path) (config : SOptions)
    (out : List (String × JVal)) : Except RError (List (String × JVal)) :=
  match entries with
  | [] => .ok out
  | (key, fld) :: rest =>
    if key ∈ ignored then serialiseFields env fuel rest inst ignored outer config out
    else
      let value := alookup (ownEntries inst) key
      let ctx := outer.child key
      if value = none ∨ value = some .inull then
        if fld.required then
          .error { msg := "Required field was null during serialisation: " ++ key
                   ctx := outer }
        else serialiseFields env fuel rest inst ignored outer config (objSet out key .vnull)
      else
        match value with
        | none => serialiseFields env fuel rest inst ignored outer config out  -- unreachable
        | some v =>
          match fld.fieldType with
          | TSType.Value =>
            match serialiseValue v ctx with
            | .error e => .error e
            | .ok j => serialiseFields env fuel rest inst ignored outer config (objSet out key j)
          | TSType.Object =>
            match serialiseInstance env fuel v (some fld) ctx config with
            | .error e => .error e
            | .ok j => serialiseFields env fuel rest inst ignored outer config (objSet out key j)
          | TSType.Array =>
            match v with
            | .iarr xs =>
              match serialiseArrElems env fuel fld xs 0 ctx config [] with
              | .error e => .error e
              | .ok js =>
                  serialiseFields env fuel rest inst ignored outer config
                    (objSet out key (.varr js))
            | _ =>
                .error { msg := "Invalid type: expected array, got " ++ typeofName v
                         ctx := ctx }
          | TSType.Expando =>
              .error { msg := "Unknown field type: " ++ TSType.Expando.name, ctx := outer }
termination_by (fuel, 2, entries.length)

/-- Elementwise serialisation of an `Array` field through
`serialiseInstance`, with indexed contexts. -/
def serialiseArrElems (env : Env) (fuel : Nat) (fld : TSField) (elems : List IVal)
    (i : Nat) (ctxBase : Path) (config : SOptions) (acc : List JVal) :
    Except RError (List JVal) :=
  match elems with
  | [] => .ok acc
  | x :: rest =>
    match serialiseInstance env fuel x (some fld) (ctxBase.at i) config with
    | .error e => .error e
    | .ok j => serialiseArrElems env fuel fld rest (i + 1) ctxBase config (acc ++ [j])
termination_by (fuel, 1, elems.length)

end

/-- The constructor a runtime value exposes (`instance.constructor`).
Built-in constructors (`Object`, `Array`, ...) have no entry in the class
table, so routing one into the hydrator surfaces the model-boundary
unknown-class error; no verified claim reaches them. -/
def ctorNameOf : IVal → String
  | .iinst cls _ => cls
  | .iobj _ => "Object"
  | .iarr _ => "Array"
  | .idate _ => "Date"
  | .istr _ => "String"
  | .iint _ => "Number"
  | .ibool _ => "Boolean"
  | .inull => "Object"

/-- The root path of errors raised by `duplicateInstance` ("duplicate" is
the `outerType` it passes to the hydrator). -/
def duplicatePath : Path := { root := "duplicate", segs := [] }

/-- The root path of errors raised by `cloneWith`. -/
def cloneWithPath : Path := { root := "cloneWith", segs := [] }

/-- `duplicateInstance` (src/core/copyInstance.ts): serialize then
re-hydrate using the instance constructor; null/undefined instances pass
through unchanged.  The collecting-mode cast quirk (returning the raw
result object as `T`) is outside the model; every verified use passes
fail-fast options. -/
def duplicateInstance (env : Env) (fuel : Nat) (inst : IVal) (opts : HOptions) :
    Except RError IVal :=
  if inst = .inull then .ok inst
  else
    match serialiseInstance env fuel inst none rootPath defaultSOptions with
    | .error e => .error e
    | .ok base =>
      match createInstance env fuel (some base) (some (.cls (ctorNameOf inst))) none
          duplicatePath opts with
      | .error e => .error e
      | .ok (v, _) => .ok v

/-- Options accepted by `cloneWith`; the destructuring default makes an
absent `removeNullsFromExpando` behave as `true`. -/
structure CWOptions where
  removeNullsFromExpando : Option Bool

/-- The empty `cloneWith` options object. -/
def defaultCWOptions : CWOptions := { removeNullsFromExpando := none }

/-- The options `cloneWith` hands to its final re-hydration: only the
escalate-null-on-required policy is enabled. -/
def cloneHydrateOptions : HOptions :=
  { collectErrors := false
    bypassConstructor := none
    errorForExtraProps := false
    errorForNullRequired := true
    dontReplaceNullWithIfEmpty := false }

/-- Splitting of the `changes` object into schema changes and expando
changes: a computed (included) key or an undeclared key is fatal, and a
change targeting the expando key must be a plain object — never the null
sentinel, never an array, never a non-object. -/
def splitChanges (ps : ParsedSchema) :
    List (String × JVal) → List (String × JVal) → Option (List (String × JVal)) →
    Except RError (List (String × JVal) × Option (List (String × JVal)))
  | [], schemaChanges, expandoChanges => .ok (schemaChanges, expandoChanges)
  | (key, value) :: rest, schemaChanges, expandoChanges =>
    if key ∈ ps.includedKeys then
      .error { msg := "cloneWith: cannot modify included field: " ++ key
               ctx := cloneWithPath }
    else if ps.expandoKey = some key then
      match value with
      | .vobj m => splitChanges ps rest schemaChanges (some m)
      | _ =>
          .error { msg := "cloneWith: expando updates must be a plain object"
                   ctx := cloneWithPath }
    else if (alookup ps.fields key).isNone then
      .error { msg := "cloneWith: cannot modify non-schema field: " ++ key
               ctx := cloneWithPath }
    else splitChanges ps rest (objSet schemaChanges key value) expandoChanges

/-- Spreading `{...base}` of a serialised snapshot.  Spreading non-object
snapshots (for example the character indexing of strings) is outside the
model and excluded by the theorems that reach this code path. -/
def objSpread : JVal → List (String × JVal)
  | .vobj l => l
  | _ => []

/-- Property assignment on a raw snapshot (`merged[key] = v`). -/
def jobjSet (j : JVal) (k : String) (v : JVal) : JVal :=
  match j with
  | .vobj l => .vobj (objSet l k v)
  | other => other

/-- The expando merge loop of `cloneWith`: keys present in the supplied
map overwrite the base entry, a key mapped to the null sentinel deletes
the entry when `removeNulls` holds (and overwrites it with null
otherwise), keys absent from the supplied map stay untouched. -/
def mergeExpandoEntries (removeNulls : Bool) :
    List (String × JVal) → List (String × JVal) → List (String × JVal)
  | [], acc => acc
  | (k, v) :: rest, acc =>
      if v = .vnull ∧ removeNulls then mergeExpandoEntries removeNulls rest (objDelete acc k)
      else mergeExpandoEntries removeNulls rest (objSet acc k v)

/-- The copy of the schema fields and the expando slot out of the base
snapshot (`merged = {}` then `merged[key] = base[key]` for each schema key
present in the base, then the expando slot when defined). -/
def mergedFromFields (flds : List (String × TSField)) (base : JVal) :
    List (String × JVal) :=
  flds.foldl (fun acc kf =>
    match jGet base kf.1 with
    | some v => objSet acc kf.1 v
    | none => acc) []

/-- Everything `cloneWith` does before the final re-hydration, producing
the merged snapshot: discover the schema from the instance, take a full
serialised snapshot, split the changes, apply the schema changes (either
onto a duplicated instance re-serialised through the custom hook, or onto
a schema-keyed copy of the snapshot), then merge the expando separately.
Only called on a non-null instance. -/
def cloneWithMerged (env : Env) (fuel : Nat) (inst : IVal)
    (changes : List (String × JVal)) (options : CWOptions) : Except RError JVal :=
  let removeNulls := options.removeNullsFromExpando.getD true
  -- Discover schema from the real instance.
  match parseClassOf env inst [] with
  | .error e => .error e
  | .ok ps =>
    -- Full snapshot of the original instance.
    match serialiseInstance env fuel inst none rootPath defaultSOptions with
    | .error e => .error e
    | .ok base =>
      let hasCustomSerialise := (serialiseHookOf env inst).isSome
      -- Split changes into schema vs expando.
      match splitChanges ps changes [] none with
      | .error e => .error e
      | .ok (schemaChanges, expandoChanges) =>
        -- Apply schema changes.
        let mergedE : Except RError JVal :=
          if hasCustomSerialise ∧ ¬ schemaChanges.isEmpty then
            match duplicateInstance env fuel inst defaultHOptions with
            | .error e => .error e
            | .ok interim =>
                let interim2 :=
                  schemaChanges.foldl (fun acc kv => isetField acc kv.1 (jvalToIVal kv.2)) interim
                serialiseInstance env fuel interim2 none rootPath defaultSOptions
          else if hasCustomSerialise then
            .ok (.vobj (objSpread base))
          else
            let m0 := mergedFromFields ps.fields base
            let m1 :=
              match ps.expandoKey with
              | some ek =>
                match jGet base ek with
                | some v => objSet m0 ek v
                | none => m0
              | none => m0
            .ok (.vobj (schemaChanges.foldl (fun acc kv => objSet acc kv.1 kv.2) m1))
        match mergedE with
        | .error e => .error e
        | .ok merged =>
          -- Merge expando (merge-only, null-aware semantics).
          match ps.expandoKey with
          | none => .ok merged
          | some ek =>
            let baseExpando :=
              match jGet base ek with
              | some (.vobj l) => l
              | _ => []
            match expandoChanges with
            | some m =>
                .ok (jobjSet merged ek (.vobj (mergeExpandoEntries removeNulls m baseExpando)))
            | none =>
              match jGet base ek with
              | some v => .ok (jobjSet merged ek v)
              | none => .ok merged

/-- `cloneWith` (src/core/copyInstance.ts): null/undefined instances pass
through; otherwise compute the merged snapshot and re-hydrate it through
the instance constructor with the escalate-null-on-required policy
enabled. -/
def cloneWith (env : Env) (fuel : Nat) (inst : IVal)
    (changes : List (String × JVal)) (options : CWOptions) : Except RError IVal :=
  if inst = .inull then .ok inst
  else
    match cloneWithMerged env fuel inst changes options with
    | .error e => .error e
    | .ok merged =>
      match createInstance env fuel (some merged) (some (.cls (ctorNameOf inst))) none
          cloneWithPath cloneHydrateOptions with
      | .error e => .error e
      | .ok (v, _) => .ok v

/-- A mutable heap cell: a runtime instance value or a raw snapshot
value. -/
inductive Cell where
  | icell : IVal → Cell
  | jcell : JVal → Cell
deriving Repr, DecidableEq

/-- Lookup in a reference-keyed heap. -/
def nlookup : List (Nat × Cell) → Nat → Option Cell
  | [], _ => none
  | (r, c) :: rest, key => if r = key then some c else nlookup rest key

/-- Write into a reference-keyed heap: an existing reference keeps its
position, a new reference is appended. -/
def nset : List (Nat × Cell) → Nat → Cell → List (Nat × Cell)
  | [], key, c => [(key, c)]
  | (r, c0) :: rest, key, c =>
      if r = key then (r, c) :: rest else (r, c0) :: nset rest key c

/-- A heap of mutable JavaScript objects: the allocation counter and the
cells allocated so far.  References below `next` are the pre-existing
objects of the caller — the original instance among them, together with
every object it references (its expando map included, when modelled as a
cell of its own). -/
structure Store where
  next : Nat
  mem : List (Nat × Cell)
deriving Repr, DecidableEq

/-- Allocation of a fresh object (`{}`, `{...base}`, `new ctor`, ...). -/
def salloc (c : Cell) (s : Store) : Nat × Store :=
  (s.next, { next := s.next + 1, mem := nset s.mem s.next c })

/-- Read of a snapshot cell. -/
def sreadJ (s : Store) (r : Nat) : JVal :=
  match nlookup s.mem r with
  | some (.jcell j) => j
  | _ => .vnull

/-- Read of an instance cell. -/
def sreadI (s : Store) (r : Nat) : IVal :=
  match nlookup s.mem r with
  | some (.icell v) => v
  | _ => .inull

/-- `delete o[k]` on a raw snapshot value. -/
def jobjDel (j : JVal) (k : String) : JVal :=
  match j with
  | .vobj l => .vobj (objDelete l k)
  | other => other

/-- Property assignment `o[k] = v` into the snapshot held by reference
`r`.  The primitive can target any reference, the pre-existing ones
included; the non-mutation theorem shows that every reference the mutator
actually passes here is freshly allocated. -/
def swriteJ (r : Nat) (k : String) (v : JVal) (s : Store) : Store :=
  { s with mem := nset s.mem r (.jcell (jobjSet (sreadJ s r) k v)) }

/-- `delete o[k]` through a reference. -/
def sdelJ (r : Nat) (k : String) (s : Store) : Store :=
  { s with mem := nset s.mem r (.jcell (jobjDel (sreadJ s r) k)) }

/-- Property assignment `o[k] = v` into the instance held by reference
`r` (same caveat as `swriteJ`). -/
def swriteI (r : Nat) (k : String) (v : IVal) (s : Store) : Store :=
  { s with mem := nset s.mem r (.icell (isetField (sreadI s r) k v)) }

/-- The change-splitting loop of `cloneWith`, heap-instrumented: the
`schemaChanges[key] = changes[key]` assignments of the source are writes
into the accumulator object held by reference `rsc`. -/
def splitChangesH (ps : ParsedSchema) (rsc : Nat) :
    List (String × JVal) → Option (List (String × JVal)) → Store →
    Except RError (Option (List (String × JVal))) × Store
  | [], expandoChanges, s => (.ok expandoChanges, s)
  | (key, value) :: rest, expandoChanges, s =>
    if key ∈ ps.includedKeys then
      (.error { msg := "cloneWith: cannot modify included field: " ++ key
                ctx := cloneWithPath }, s)
    else if ps.expandoKey = some key then
      match value with
      | .vobj m => splitChangesH ps rsc rest (some m) s
      | _ =>
          (.error { msg := "cloneWith: expando updates must be a plain object"
                    ctx := cloneWithPath }, s)
    else if (alookup ps.fields key).isNone then
      (.error { msg := "cloneWith: cannot modify non-schema field: " ++ key
                ctx := cloneWithPath }, s)
    else splitChangesH ps rsc rest expandoChanges (swriteJ rsc key value s)

/-- The schema-change application phase of `cloneWith`, as the pure
value computation `cloneWithMerged` performs it (the `mergedE` step):
with a custom hook and schema changes, duplicate and update an interim
instance and re-serialise it; with a hook and no schema changes, spread
the base snapshot; otherwise copy schema keys and expando slot out of the
base and apply the schema changes. -/
def applySchemaPure (env : Env) (fuel : Nat) (inst : IVal) (hcs : Bool)
    (scl : List (String × JVal)) (base : JVal) (ps : ParsedSchema) :
    Except RError JVal :=
  if hcs ∧ ¬ scl.isEmpty then
    match duplicateInstance env fuel inst defaultHOptions with
    | .error e => .error e
    | .ok interim =>
        serialiseInstance env fuel
          (scl.foldl (fun acc kv => isetField acc kv.1 (jvalToIVal kv.2)) interim)
          none rootPath defaultSOptions
  else if hcs then .ok (.vobj (objSpread base))
  else
    let m0 := mergedFromFields ps.fields base
    let m1 :=
      match ps.expandoKey with
      | some ek =>
        match jGet base ek with
        | some v => objSet m0 ek v
        | none => m0
      | none => m0
    .ok (.vobj (scl.foldl (fun acc kv => objSet acc kv.1 kv.2) m1))

/-- The base-expando extraction of `cloneWith`: the expando slot of the
base snapshot when it is a plain object, `{}` otherwise. -/
def baseExpandoOf (base : JVal) (ek : String) : List (String × JVal) :=
  match jGet base ek with
  | some (.vobj l) => l
  | _ => []

/-- The expando-merge phase of `cloneWith`, as the pure value computation
`cloneWithMerged` performs it on the merged snapshot. -/
def mergeExpandoPure (removeNulls : Bool) (ps : ParsedSchema) (base : JVal)
    (ec : Option (List (String × JVal))) (merged : JVal) : JVal :=
  match ps.expandoKey with
  | none => merged
  | some ek =>
    match ec with
    | some m =>
        jobjSet merged ek (.vobj (mergeExpandoEntries removeNulls m (baseExpandoOf base ek)))
    | none =>
      match jGet base ek with
      | some v => jobjSet merged ek v
      | none => merged

/-- The schema-change application phase, heap-instrumented: the interim
instance, the spread copy and the empty `merged` object are fresh
allocations; every `interim[key] = value` / `merged[key] = ...`
assignment is a heap write through the corresponding reference; the
instance is re-read from its reference where the source reads
`instance`.  Returns the reference of the merged snapshot. -/
def applySchemaH (env : Env) (fuel : Nat) (ri : Nat) (hcs : Bool)
    (scl : List (String × JVal)) (base : JVal) (ps : ParsedSchema)
    (s : Store) : Except RError Nat × Store :=
  if hcs ∧ ¬ scl.isEmpty then
    match duplicateInstance env fuel (sreadI s ri) defaultHOptions with
    | .error e => (.error e, s)
    | .ok interim =>
      let a2 := salloc (.icell interim) s
      let s3 := scl.foldl
        (fun st kv => swriteI a2.1 kv.1 (jvalToIVal kv.2) st) a2.2
      match serialiseInstance env fuel (sreadI s3 a2.1) none rootPath
          defaultSOptions with
      | .error e => (.error e, s3)
      | .ok m =>
        let a3 := salloc (.jcell m) s3
        (.ok a3.1, a3.2)
  else if hcs then
    let a3 := salloc (.jcell (.vobj (objSpread base))) s
    (.ok a3.1, a3.2)
  else
    let a3 := salloc (.jcell (.vobj [])) s
    let s3 := ps.fields.foldl
      (fun st kf =>
        match jGet base kf.1 with
        | some v => swriteJ a3.1 kf.1 v st
        | none => st) a3.2
    let s4 :=
      match ps.expandoKey with
      | some ek =>
        match jGet base ek with
        | some v => swriteJ a3.1 ek v s3
        | none => s3
      | none => s3
    let s5 := scl.foldl
      (fun st kv => swriteJ a3.1 kv.1 kv.2 st) s4
    (.ok a3.1, s5)

/-- The expando-merge phase, heap-instrumented: `nextExpando` is a fresh
allocation, deletes and assignments on it are heap operations, and the
final `merged[expandoKey] = ...` assignment is a write through the merged
reference. -/
def mergeExpandoH (removeNulls : Bool) (ps : ParsedSchema) (base : JVal)
    (ec : Option (List (String × JVal))) (rm : Nat) (s : Store) : Store :=
  match ps.expandoKey with
  | none => s
  | some ek =>
    match ec with
    | some mm =>
      let a4 := salloc (.jcell (.vobj (baseExpandoOf base ek))) s
      let s6 := mm.foldl
        (fun st kv =>
          if kv.2 = .vnull ∧ removeNulls then sdelJ a4.1 kv.1 st
          else swriteJ a4.1 kv.1 kv.2 st) a4.2
      swriteJ rm ek (sreadJ s6 a4.1) s6
    | none =>
      match jGet base ek with
      | some v => swriteJ rm ek v s
      | none => s

/-- The merged-snapshot phase of `cloneWith`, heap-instrumented: every
object the source creates (`schemaChanges`, the duplicated `interim`, the
`merged` object, `nextExpando`, the serialiser snapshots) is a fresh
allocation, and every assignment the source performs is a heap write
through the corresponding reference.  The instance is re-read from its
reference `ri` at each point the source reads `instance`.  Returns the
reference of the merged snapshot. -/
def cloneWithMergedH (env : Env) (fuel : Nat) (ri : Nat)
    (changes : List (String × JVal)) (options : CWOptions) (s : Store) :
    Except RError Nat × Store :=
  let removeNulls := options.removeNullsFromExpando.getD true
  match parseClassOf env (sreadI s ri) [] with
  | .error e => (.error e, s)
  | .ok ps =>
    match serialiseInstance env fuel (sreadI s ri) none rootPath defaultSOptions with
    | .error e => (.error e, s)
    | .ok base =>
      let hasCustomSerialise := (serialiseHookOf env (sreadI s ri)).isSome
      -- const schemaChanges = {}
      let a1 := salloc (.jcell (.vobj [])) s
      match splitChangesH ps a1.1 changes none a1.2 with
      | (.error e, s2) => (.error e, s2)
      | (.ok expandoChanges, s2) =>
        let schemaChanges := objSpread (sreadJ s2 a1.1)
        match applySchemaH env fuel ri hasCustomSerialise schemaChanges base ps s2 with
        | (.error e, sb) => (.error e, sb)
        | (.ok rm, sb) =>
            (.ok rm, mergeExpandoH removeNulls ps base expandoChanges rm sb)

/-- `cloneWith`, heap-instrumented: the null pass-through returns the
argument reference and leaves the heap alone; otherwise the merged
snapshot is built through `cloneWithMergedH` and re-hydrated, the
constructor name being read from the instance reference up front (`const
ctor = instance.constructor`).  The hydrated result — which the source
builds inside `createInstance` from a fresh `new ctor` / `Object.create`
allocation — is placed in a freshly allocated cell. -/
def cloneWithH (env : Env) (fuel : Nat) (ri : Nat)
    (changes : List (String × JVal)) (options : CWOptions) (s : Store) :
    Except RError Nat × Store :=
  if sreadI s ri = .inull then (.ok ri, s)
  else
    match cloneWithMergedH env fuel ri changes options s with
    | (.error e, s2) => (.error e, s2)
    | (.ok rm, s2) =>
      match createInstance env fuel (some (sreadJ s2 rm))
          (some (.cls (ctorNameOf (sreadI s ri)))) none cloneWithPath
          cloneHydrateOptions with
      | .error e => (.error e, s2)
      | .ok (v, _) =>
        let a := salloc (.icell v) s2
        (.ok a.1, a.2)

/-- `cloneWithMerged` decomposed into its phases: schema discovery, base
snapshot, change split, schema-change application, expando merge. -/
theorem cloneWithMerged_eq (env : Env) (fuel : Nat) (inst : IVal)
    (changes : List (String × JVal)) (options : CWOptions) :
    cloneWithMerged env fuel inst changes options =
      match parseClassOf env inst [] with
      | .error e => .error e
      | .ok ps =>
        match serialiseInstance env fuel inst none rootPath defaultSOptions with
        | .error e => .error e
        | .ok base =>
          match splitChanges ps changes [] none with
          | .error e => .error e
          | .ok (sc, ec) =>
            match applySchemaPure env fuel inst ((serialiseHookOf env inst).isSome)
                sc base ps with
            | .error e => .error e
            | .ok merged =>
                .ok (mergeExpandoPure (options.removeNullsFromExpando.getD true)
                  ps base ec merged) := by
  cases hpc : parseClassOf env inst [] with
  | error e => simp [cloneWithMerged, hpc]
  | ok ps =>
    cases hser : serialiseInstance env fuel inst none rootPath defaultSOptions with
    | error e => simp [cloneWithMerged, hpc, hser]
    | ok base =>
      cases hsp : splitChanges ps changes [] none with
      | error e => simp [cloneWithMerged, hpc, hser, hsp]
      | ok p =>
        obtain ⟨sc, ec⟩ := p
        simp only [cloneWithMerged, applySchemaPure, hpc, hser, hsp]
        split
        · rfl
        · cases hek : ps.expandoKey with
          | none => simp [mergeExpandoPure, hek]
          | some ek =>
              cases ec with
              | some mm => simp [mergeExpandoPure, baseExpandoOf, hek]
              | none =>
                  cases hgb : jGet base ek with
                  | some v => simp [mergeExpandoPure, hek, hgb]
                  | none => simp [mergeExpandoPure, hek, hgb]

/-- A validation error as `validateInstance` exposes it: the rendered
`Error.message` (context prefix included) and the rendered context. -/
structure ValidationError where
  message : String
  context : String
deriving Repr, DecidableEq

/-- Result of `validateInstance`. -/
structure ValidationResult where
  valid : Bool
  inst : IVal
  errors : List ValidationError
deriving Repr, DecidableEq

/-- `validateInstance` (src/core/validateInstance.ts): always collecting
mode; `valid` holds exactly when the error list is empty. -/
def validateInstance (env : Env) (fuel : Nat) (data : Option JVal)
    (instantiator : Option Instantiator) (field : Option TSField) (outer : Path) :
    Except RError ValidationResult :=
  match createInstance env fuel data instantiator field outer
      { defaultHOptions with collectErrors := true } with
  | .error e => .error e
  | .ok (v, errs) =>
      .ok { valid := errs.isEmpty
            inst := v
            errors := errs.map (fun e => { message := renderRErr e, context := e.ctx.render }) }

/-!
## Concrete schema fixtures

Small class tables used to evaluate the engine on the concrete inputs the
claims name.  `mkSimpleClass` builds the common shape: a single-level
decorator schema on a class with a zero-argument constructor registered
for constructor bypass, no custom hooks, no legacy fields.
-/

/-- A plain decorator-declared class: one prototype level carrying the
given `__schemaFields`, `@BypassConstructor()` registered, no hooks. -/
def mkSimpleClass (flds : List (String × TSField)) : ClassDef :=
  { levels := [{ schemaFields := flds, includedMethods := [], ignoredFields := none }]
    protoEnum := []
    legacyOwn := []
    ctorArity := 0
    ctorRun := .ok []
    bypassFlag := true
    serialiseHook := none
    deserialiseHook := none
    newWithArg := fun _ => .error "model: not a value constructor"
    methods := [] }

/-- `@Field(TSType.Value)`: a required plain value field. -/
def valueReq : TSField := mkTSField TSType.Value none true none false

/-- `@OptionalField(TSType.Value)`: an optional plain value field. -/
def valueOpt : TSField := mkTSField TSType.Value none false none false

/-- `@Field(TSType.Expando)`. -/
def expandoFld : TSField := mkTSField TSType.Expando none true none false

/-- `@Field(TSType.Object, C)`: a required nested object field. -/
def objReq (c : String) : TSField := mkTSField TSType.Object (some (.cls c)) true none false

/-- `@Field(TSType.Array, C)`: a required homogeneous array field. -/
def arrReq (c : String) : TSField := mkTSField TSType.Array (some (.cls c)) true none false

/-- A single prototype level carrying only `__schemaFields`. -/
def lvlOf (flds : List (String × TSField)) : Level :=
  { schemaFields := flds, includedMethods := [], ignoredFields := none }

/-- The `WithExpando` schema of the expando examples:
`{id: Value required, extra: Expando}`. -/
def envExpando : Env := [("WithExpando", mkSimpleClass [("id", valueReq), ("extra", expandoFld)])]

/-- The `User`/`Address` schema of the collecting-mode example:
`{id: Value required, name: Value required, address: Object(Address) required}`. -/
def envUser : Env :=
  [("Address", mkSimpleClass [("street", valueReq), ("city", valueReq), ("zip", valueReq)]),
   ("User", mkSimpleClass [("id", valueReq), ("name", valueReq), ("address", objReq "Address")])]

/-- Can `isetField` actually store a field on this value (is it a plain
object or an instance)? -/
def isSettable : IVal → Bool
  | .iobj _ => true
  | .iinst _ _ => true
  | _ => false

/-!
## General lemmas about the association-list primitives
-/

theorem alookup_objSet_self {α : Type} (l : List (String × α)) (k : String) (v : α) :
    alookup (objSet l k v) k = some v := by
  induction l with
  | nil => simp [objSet, alookup]
  | cons e rest ih =>
      obtain ⟨k1, w⟩ := e
      by_cases h : k1 = k
      · simp [objSet, h, alookup]
      · simp [objSet, h, alookup, ih]

theorem alookup_objSet_ne {α : Type} (l : List (String × α)) (k k2 : String) (v : α)
    (h : k ≠ k2) : alookup (objSet l k v) k2 = alookup l k2 := by
  induction l with
  | nil => simp [objSet, alookup, h]
  | cons e rest ih =>
      obtain ⟨k1, w⟩ := e
      by_cases h1 : k1 = k
      · simp [objSet, h1, alookup, h]
      · by_cases h2 : k1 = k2
        · subst h2
          simp [objSet, h1, alookup, Ne.symm h]
        · simp [objSet, h1, alookup, h2, ih]

theorem alookup_objDelete_ne {α : Type} (l : List (String × α)) (k k2 : String)
    (h : k ≠ k2) : alookup (objDelete l k) k2 = alookup l k2 := by
  induction l with
  | nil => simp [objDelete]
  | cons e rest ih =>
      obtain ⟨k1, w⟩ := e
      by_cases h1 : k1 = k
      · subst h1
        simp [objDelete, alookup, h]
      · by_cases h2 : k1 = k2
        · subst h2
          simp [objDelete, h1, alookup, Ne.symm h]
        · simp [objDelete, h1, alookup, h2, ih]

theorem alookup_eq_none_iff {α : Type} (l : List (String × α)) (k : String) :
    alookup l k = none ↔ ¬ k ∈ l.map Prod.fst := by
  induction l with
  | nil => simp [alookup]
  | cons e rest ih =>
      obtain ⟨k1, w⟩ := e
      by_cases h : k1 = k
      · subst h
        simp [alookup]
      · simp [alookup, h, ih, Ne.symm h]

theorem objSet_of_alookup_none {α : Type} (l : List (String × α)) (k : String) (v : α)
    (h : alookup l k = none) : objSet l k v = l ++ [(k, v)] := by
  induction l with
  | nil => simp [objSet]
  | cons e rest ih =>
      obtain ⟨k1, w⟩ := e
      by_cases h1 : k1 = k
      · simp [alookup, h1] at h
      · simp [alookup, h1] at h
        simp [objSet, h1, ih h]

theorem objDelete_of_alookup_none {α : Type} (l : List (String × α)) (k : String)
    (h : alookup l k = none) : objDelete l k = l := by
  induction l with
  | nil => simp [objDelete]
  | cons e rest ih =>
      obtain ⟨k1, w⟩ := e
      by_cases h1 : k1 = k
      · simp [alookup, h1] at h
      · simp [alookup, h1] at h
        simp [objDelete, h1, ih h]

theorem alookup_objDelete_self {α : Type} (l : List (String × α)) (k : String)
    (h : (l.map Prod.fst).Nodup) : alookup (objDelete l k) k = none := by
  induction l with
  | nil => simp [objDelete, alookup]
  | cons e rest ih =>
      obtain ⟨k1, w⟩ := e
      simp only [List.map_cons, List.nodup_cons] at h
      by_cases h1 : k1 = k
      · subst h1
        simp only [objDelete, if_pos rfl]
        exact (alookup_eq_none_iff rest k1).mpr h.1
      · simp [objDelete, h1, alookup, ih h.2]

theorem alookup_isetField_ne (inst : IVal) (k k2 : String) (v : IVal) (h : k ≠ k2) :
    alookup (ownEntries (isetField inst k v)) k2 = alookup (ownEntries inst) k2 := by
  cases inst <;> simp [isetField, ownEntries, alookup_objSet_ne _ _ _ _ h]

theorem alookup_isetField_self (inst : IVal) (k : String) (v : IVal)
    (h : isSettable inst = true) :
    alookup (ownEntries (isetField inst k v)) k = some v := by
  cases inst <;> simp_all [isetField, ownEntries, isSettable, alookup_objSet_self]

theorem isSettable_isetField (inst : IVal) (k : String) (v : IVal) :
    isSettable (isetField inst k v) = isSettable inst := by
  cases inst <;> simp [isetField, isSettable]

/-!
## General lemmas about the declared-field walk of the hydrator
-/

/-- The collected-error accumulator only ever grows by appending: the walk
with accumulated errors `errs` is the walk started empty with `errs`
prepended. -/
theorem walkFields_shift (env : Env) (fuel : Nat) (entries : List (String × TSField))
    (d : JVal) (outer : Path) (opts : HOptions) :
    ∀ (inst : IVal) (errs : List RError),
    walkFields env fuel entries d inst outer opts errs =
      (walkFields env fuel entries d inst outer opts []).map (fun p => (p.1, errs ++ p.2)) := by
  induction entries with
  | nil => intro inst errs; simp [walkFields, Except.map]
  | cons e rest ih =>
      intro inst errs
      obtain ⟨key, fld⟩ := e
      simp only [walkFields]
      cases hydrateField env fuel key fld d outer opts with
      | error e => simp [Except.map]
      | ok p =>
          obtain ⟨va, tail⟩ := p
          simp only
          rw [ih _ (errs ++ tail), ih _ ([] ++ tail)]
          cases walkFields env fuel rest d
              (match va with | some v => isetField inst key v | none => inst)
              outer opts [] with
          | error e => simp [Except.map]
          | ok q => simp [Except.map, List.append_assoc]

/-- A successful walk leaves the incoming error list as a prefix. -/
theorem walkFields_errs_prefix (env : Env) (fuel : Nat) (entries : List (String × TSField))
    (d : JVal) (inst : IVal) (outer : Path) (opts : HOptions) (errs : List RError)
    (i2 : IVal) (e2 : List RError)
    (h : walkFields env fuel entries d inst outer opts errs = .ok (i2, e2)) :
    ∃ t, e2 = errs ++ t := by
  rw [walkFields_shift env fuel entries d outer opts inst errs] at h
  cases h0 : walkFields env fuel entries d inst outer opts [] with
  | error e => rw [h0] at h; simp [Except.map] at h
  | ok q =>
      rw [h0] at h
      simp [Except.map] at h
      exact ⟨q.2, h.2.symm⟩

/-- Errors pushed by the step of a declared field that occurs in the walk
survive into the final collected error list. -/
theorem walkFields_mem_tail (env : Env) (fuel : Nat) (d : JVal) (outer : Path)
    (opts : HOptions) (k : String) (fld : TSField) (va : Option IVal)
    (tail : List RError)
    (hstep : hydrateField env fuel k fld d outer opts = .ok (va, tail)) :
    ∀ entries inst errs i2 e2, (k, fld) ∈ entries →
      walkFields env fuel entries d inst outer opts errs = .ok (i2, e2) →
      ∀ x ∈ tail, x ∈ e2 := by
  intro entries
  induction entries with
  | nil => intro inst errs i2 e2 hmem; simp at hmem
  | cons e rest ih =>
      intro inst errs i2 e2 hmem hwalk x hx
      obtain ⟨key, f⟩ := e
      rcases List.mem_cons.mp hmem with heq | htail
      · obtain ⟨hk, hf⟩ := Prod.mk.injEq .. ▸ heq
        subst hk
        subst hf
        simp only [walkFields, hstep] at hwalk
        obtain ⟨t, ht⟩ := walkFields_errs_prefix _ _ _ _ _ _ _ _ _ _ hwalk
        subst ht
        simp [hx]
      · simp only [walkFields] at hwalk
        cases hs : hydrateField env fuel key f d outer opts with
        | error e => rw [hs] at hwalk; simp at hwalk
        | ok p =>
            rw [hs] at hwalk
            exact ih _ _ _ _ htail hwalk x hx

/-- A walk over entries that never mention `k` leaves the field `k` of the
instance, and its settability, unchanged. -/
theorem walkFields_preserve (env : Env) (fuel : Nat) (d : JVal) (outer : Path)
    (opts : HOptions) (k : String) :
    ∀ entries inst errs i2 e2, ¬ k ∈ entries.map Prod.fst →
      walkFields env fuel entries d inst outer opts errs = .ok (i2, e2) →
      alookup (ownEntries i2) k = alookup (ownEntries inst) k ∧
        isSettable i2 = isSettable inst := by
  intro entries
  induction entries with
  | nil => intro inst errs i2 e2 _ hwalk; simp [walkFields] at hwalk; simp [hwalk.1]
  | cons e rest ih =>
      intro inst errs i2 e2 hmem hwalk
      obtain ⟨key, f⟩ := e
      simp only [List.map_cons, List.mem_cons, not_or] at hmem
      simp only [walkFields] at hwalk
      cases hs : hydrateField env fuel key f d outer opts with
      | error e => rw [hs] at hwalk; simp at hwalk
      | ok p =>
          rw [hs] at hwalk
          obtain ⟨va, tail⟩ := p
          have := ih _ _ _ _ hmem.2 hwalk
          cases va with
          | none => exact this
          | some v =>
              rw [this.1, this.2]
              constructor
              · exact alookup_isetField_ne inst key k v (fun hh => hmem.1 hh.symm)
              · exact isSettable_isetField inst key v

/-- After a walk whose (duplicate-free) entries contain `(k, fld)`, and
whose step for that field assigns `v`, the final instance holds `v` under
`k`. -/
theorem walkFields_final_value (env : Env) (fuel : Nat) (d : JVal) (outer : Path)
    (opts : HOptions) (k : String) (fld : TSField) (v : IVal) (tail : List RError)
    (hstep : hydrateField env fuel k fld d outer opts = .ok (some v, tail)) :
    ∀ entries inst errs i2 e2, (entries.map Prod.fst).Nodup → (k, fld) ∈ entries →
      isSettable inst = true →
      walkFields env fuel entries d inst outer opts errs = .ok (i2, e2) →
      alookup (ownEntries i2) k = some v := by
  intro entries
  induction entries with
  | nil => intro inst errs i2 e2 _ hmem; simp at hmem
  | cons e rest ih =>
      intro inst errs i2 e2 hnd hmem hset hwalk
      obtain ⟨key, f⟩ := e
      simp only [List.map_cons, List.nodup_cons] at hnd
      rcases List.mem_cons.mp hmem with heq | htail
      · obtain ⟨hk, hf⟩ := Prod.mk.injEq .. ▸ heq
        subst hk
        subst hf
        simp only [walkFields, hstep] at hwalk
        have hnotin : ¬ k ∈ rest.map Prod.fst := hnd.1
        have := walkFields_preserve env fuel d outer opts k rest _ _ _ _ hnotin hwalk
        rw [this.1]
        exact alookup_isetField_self inst k v hset
      · have hkey : key ≠ k := by
          intro h
          subst h
          exact hnd.1 (List.mem_map.mpr ⟨(key, fld), htail, rfl⟩)
        simp only [walkFields] at hwalk
        cases hs : hydrateField env fuel key f d outer opts with
        | error e => rw [hs] at hwalk; simp at hwalk
        | ok p =>
            rw [hs] at hwalk
            obtain ⟨va, tail2⟩ := p
            cases va with
            | none => exact ih _ _ _ _ hnd.2 htail hset hwalk
            | some w =>
                have hset2 : isSettable (isetField inst key w) = true := by
                  rw [isSettable_isetField]; exact hset
                exact ih _ _ _ _ hnd.2 htail hset2 hwalk

/-!
## The resolved field map of `parseClass` has duplicate-free keys
-/

theorem parseStepDeco_nodup (st : ParseState) (e : String × TSField) (st2 : ParseState)
    (h : parseStepDeco st e = .ok st2) (hnd : (st.fields.map Prod.fst).Nodup) :
    (st2.fields.map Prod.fst).Nodup := by
  unfold parseStepDeco at h
  by_cases h1 : (alookup st.fields e.1).isSome
  · rw [if_pos h1] at h
    cases h
    exact hnd
  · rw [if_neg h1] at h
    by_cases h2 : e.2.fieldType = TSType.Expando
    · rw [if_pos h2] at h
      cases hek : st.expandoKey with
      | some k =>
          rw [hek] at h
          by_cases h3 : k ≠ e.1
          · simp [h3] at h
          · simp [h3] at h
            cases h
            exact hnd
      | none =>
          rw [hek] at h
          cases h
          exact hnd
    · rw [if_neg h2] at h
      cases h
      have hnone : alookup st.fields e.1 = none := by
        cases halo : alookup st.fields e.1 with
        | none => rfl
        | some v => rw [halo] at h1; simp at h1
      rw [objSet_of_alookup_none _ _ _ hnone]
      simp only [List.map_append, List.map_cons, List.map_nil]
      rw [List.nodup_append]
      refine ⟨hnd, List.nodup_singleton _, ?_⟩
      intro a ha hb
      simp at hb
      subst hb
      exact (alookup_eq_none_iff st.fields e.1).mp hnone ha

theorem parseStepLegacy_nodup (st : ParseState) (e : String × TSField) (st2 : ParseState)
    (h : parseStepLegacy st e = .ok st2) (hnd : (st.fields.map Prod.fst).Nodup) :
    (st2.fields.map Prod.fst).Nodup := by
  unfold parseStepLegacy at h
  by_cases h1 : (alookup st.fields e.1).isSome
  · rw [if_pos h1] at h
    cases h
    exact hnd
  · rw [if_neg h1] at h
    by_cases h2 : e.2.fieldType = TSType.Expando
    · rw [if_pos h2] at h
      cases hek : st.expandoKey with
      | some k => rw [hek] at h; simp at h
      | none =>
          rw [hek] at h
          cases h
          exact hnd
    · rw [if_neg h2] at h
      cases h
      have hnone : alookup st.fields e.1 = none := by
        cases halo : alookup st.fields e.1 with
        | none => rfl
        | some v => rw [halo] at h1; simp at h1
      rw [objSet_of_alookup_none _ _ _ hnone]
      simp only [List.map_append, List.map_cons, List.map_nil]
      rw [List.nodup_append]
      refine ⟨hnd, List.nodup_singleton _, ?_⟩
      intro a ha hb
      simp at hb
      subst hb
      exact (alookup_eq_none_iff st.fields e.1).mp hnone ha

theorem parseWalkDeco_nodup : ∀ (entries : List (String × TSField)) (st st2 : ParseState),
    parseWalkDeco st entries = .ok st2 → (st.fields.map Prod.fst).Nodup →
    (st2.fields.map Prod.fst).Nodup := by
  intro entries
  induction entries with
  | nil =>
      intro st st2 h hnd
      simp only [parseWalkDeco] at h
      cases h
      exact hnd
  | cons e rest ih =>
      intro st st2 h hnd
      simp only [parseWalkDeco] at h
      cases hs : parseStepDeco st e with
      | error er => rw [hs] at h; simp [bind, Except.bind] at h
      | ok st1 =>
          rw [hs] at h
          simp only [bind, Except.bind] at h
          exact ih st1 st2 h (parseStepDeco_nodup st e st1 hs hnd)

theorem parseWalkLegacy_nodup : ∀ (entries : List (String × TSField)) (st st2 : ParseState),
    parseWalkLegacy st entries = .ok st2 → (st.fields.map Prod.fst).Nodup →
    (st2.fields.map Prod.fst).Nodup := by
  intro entries
  induction entries with
  | nil =>
      intro st st2 h hnd
      simp only [parseWalkLegacy] at h
      cases h
      exact hnd
  | cons e rest ih =>
      intro st st2 h hnd
      simp only [parseWalkLegacy] at h
      cases hs : parseStepLegacy st e with
      | error er => rw [hs] at h; simp [bind, Except.bind] at h
      | ok st1 =>
          rw [hs] at h
          simp only [bind, Except.bind] at h
          exact ih st1 st2 h (parseStepLegacy_nodup st e st1 hs hnd)

theorem parseLevelsFold_nodup : ∀ (levels : List Level) (st st2 : ParseState),
    levels.foldlM (fun st lvl => parseWalkDeco st lvl.schemaFields) st = .ok st2 →
    (st.fields.map Prod.fst).Nodup → (st2.fields.map Prod.fst).Nodup := by
  intro levels
  induction levels with
  | nil =>
      intro st st2 h hnd
      simp only [List.foldlM] at h
      cases h
      exact hnd
  | cons lvl rest ih =>
      intro st st2 h hnd
      simp only [List.foldlM] at h
      cases hs : parseWalkDeco st lvl.schemaFields with
      | error er => rw [hs] at h; simp [bind, Except.bind] at h
      | ok st1 =>
          rw [hs] at h
          simp only [bind, Except.bind] at h
          exact ih st1 st2 h (parseWalkDeco_nodup lvl.schemaFields st st1 hs hnd)

/-- The resolved field map of a successfully parsed class has
duplicate-free keys. -/
theorem parseClass_fields_nodup (levels : List Level) (protoEnum ownTS : List (String × TSField))
    (ps : ParsedSchema) (h : parseClass levels protoEnum ownTS = .ok ps) :
    (ps.fields.map Prod.fst).Nodup := by
  simp only [parseClass, bind, Except.bind] at h
  cases h1 : levels.foldlM (fun st lvl => parseWalkDeco st lvl.schemaFields)
      { fields := [], expandoKey := none } with
  | error er => rw [h1] at h; simp at h
  | ok st1 =>
      rw [h1] at h
      simp only at h
      cases h2 : parseWalkLegacy st1 protoEnum with
      | error er => rw [h2] at h; simp at h
      | ok st2 =>
          rw [h2] at h
          simp only at h
          cases h3 : parseWalkLegacy st2 ownTS with
          | error er => rw [h3] at h; simp at h
          | ok st3 =>
              rw [h3] at h
              simp only [Except.pure] at h
              cases h
              have hnd0 : (([] : List (String × TSField)).map Prod.fst).Nodup := by simp
              exact parseWalkLegacy_nodup ownTS st2 st3 h3
                (parseWalkLegacy_nodup protoEnum st1 st2 h2
                  (parseLevelsFold_nodup levels _ st1 h1 hnd0))

/-!
## C3 — the null sentinel on a required field without `ifEmpty`
-/

/-- Step behaviour, default flags: with `dontReplaceNullWithIfEmpty`
unset, an explicit null on a required field without `ifEmpty` counts as
empty, so the step pushes the missing-required error at the *containing*
path and assigns null. -/
theorem hydrateField_null_missing (env : Env) (fuel : Nat) (k : String) (fld : TSField)
    (d : JVal) (outer : Path) (opts : HOptions)
    (hraw : jGet d k = some JVal.vnull)
    (hdr : opts.dontReplaceNullWithIfEmpty = false)
    (hie : fld.ifEmpty = none) (hreq : fld.required = true)
    (hcol : opts.collectErrors = true) :
    hydrateField env fuel k fld d outer opts =
      .ok (some .inull, [{ msg := "Missing required property: " ++ k, ctx := outer }]) := by
  simp [hydrateField, hraw, hdr, hie, hreq, hcol]

/-- Step behaviour, null preserved and escalated: with both
`dontReplaceNullWithIfEmpty` and `errorForNullRequired` set, the same
input pushes the null-required error at the field's *nested* path and
assigns null. -/
theorem hydrateField_null_escalated (env : Env) (fuel : Nat) (k : String) (fld : TSField)
    (d : JVal) (outer : Path) (opts : HOptions)
    (hraw : jGet d k = some JVal.vnull)
    (hdr : opts.dontReplaceNullWithIfEmpty = true)
    (hie : fld.ifEmpty = none) (hreq : fld.required = true)
    (henr : opts.errorForNullRequired = true)
    (hcol : opts.collectErrors = true) :
    hydrateField env fuel k fld d outer opts =
      .ok (some .inull,
        [{ msg := "Field value was null but marked as required", ctx := outer.child k }]) := by
  simp [hydrateField, hraw, hdr, hie, hreq, henr, hcol]

/-- Composition through `createInstance`: when a bypass-constructed class
without a deserialise hook hydrates an object in collecting mode, the
errors pushed by the step of any resolved field survive into the final
error list, and the value that step assigned is the final value of that
field (the expando key being a different name). -/
theorem createInstance_field_spec (env : Env) (fuel : Nat) (cls : String) (cd : ClassDef)
    (ps : ParsedSchema) (k : String) (fld : TSField) (kvs : List (String × JVal))
    (outer : Path) (opts : HOptions) (i2 : IVal) (e2 : List RError) (err : RError) (v : IVal)
    (hcd : envFind env cls = some cd)
    (hhook : cd.deserialiseHook = none)
    (hbp : cd.bypassFlag = true) (hbo : opts.bypassConstructor = none)
    (hparse : parseClass cd.levels cd.protoEnum [] = .ok ps)
    (hmem : (k, fld) ∈ ps.fields)
    (hek : ps.expandoKey ≠ some k)
    (hcol : opts.collectErrors = true)
    (hstep : hydrateField env fuel k fld (.vobj kvs) outer opts = .ok (some v, [err]))
    (hrun : createInstance env (fuel + 1) (some (.vobj kvs)) (some (.cls cls)) none outer opts =
      .ok (i2, e2)) :
    err ∈ e2 ∧ alookup (ownEntries i2) k = some v := by
  simp only [createInstance, hcd, hhook, hbo, hbp, Option.isNone_none, Bool.and_self,
    Bool.true_or, Bool.or_eq_true, Option.isNone, Bool.true_and, if_true] at hrun
  rw [if_neg (by simp)] at hrun
  simp only [hydrateInto, parseClassOf, hcd, hparse] at hrun
  rw [if_neg (by simp), if_neg (by simp [isObjLike])] at hrun
  cases hw : walkFields env fuel ps.fields (.vobj kvs) (.iinst cls []) outer opts [] with
  | error er => rw [hw] at hrun; simp at hrun
  | ok p =>
      rw [hw] at hrun
      obtain ⟨i1, errs1⟩ := p
      have hmemb : err ∈ errs1 :=
        walkFields_mem_tail env fuel (.vobj kvs) outer opts k fld (some v) [err] hstep
          ps.fields (.iinst cls []) [] i1 errs1 hmem hw err (by simp)
      have hval : alookup (ownEntries i1) k = some v :=
        walkFields_final_value env fuel (.vobj kvs) outer opts k fld v [err] hstep
          ps.fields (.iinst cls []) [] i1 errs1
          (parseClass_fields_nodup cd.levels cd.protoEnum [] ps hparse) hmem
          (by simp [isSettable]) hw
      simp only at hrun
      cases hpek : ps.expandoKey with
      | some ek =>
          rw [hpek] at hrun
          simp only [Except.ok.injEq, Prod.mk.injEq] at hrun
          obtain ⟨hi, he⟩ := hrun
          subst hi
          subst he
          have hkne : ek ≠ k := by
            intro hh
            subst hh
            exact hek (by rw [hpek])
          refine ⟨hmemb, ?_⟩
          rw [alookup_isetField_ne _ _ _ _ hkne]
          exact hval
      | none =>
          rw [hpek] at hrun
          by_cases hx : opts.errorForExtraProps ∧
              (kvs.filter (fun kv => ¬ kv.1 ∈ ps.fields.map Prod.fst ∧
                ¬ kv.1 ∈ ps.includedKeys)) ≠ []
          · rw [if_pos hx] at hrun
            simp only [failRet, hcol, if_true, Except.ok.injEq, Prod.mk.injEq] at hrun
            obtain ⟨hi, he⟩ := hrun
            subst hi
            subst he
            exact ⟨by simp [hmemb], hval⟩
          · rw [if_neg hx] at hrun
            simp only [Except.ok.injEq, Prod.mk.injEq] at hrun
            obtain ⟨hi, he⟩ := hrun
            subst hi
            subst he
            exact ⟨hmemb, hval⟩

/-- Collecting-mode options with everything else defaulted. -/
def collectOpts : HOptions :=
  { collectErrors := true
    bypassConstructor := none
    errorForExtraProps := false
    errorForNullRequired := false
    dontReplaceNullWithIfEmpty := false }

/-- The schema `{x: Value required}` (no `ifEmpty`). -/
def envNullReq : Env := [("A", mkSimpleClass [("x", valueReq)])]

/-- C3, counterexample to the claim as stated: hydrating `{x: null}`
against `{x: Value required}` (no `ifEmpty`) with `errorForNullRequired`
*unset* does not hydrate silently — it raises `Missing required property`
at the containing path (the default flags make the null sentinel count as
empty).  And with `errorForNullRequired` *set* (alone), the very same
`Missing required property` error is raised at the containing path — not
a null-required error at the field's own nested path, because the
escalation branch is only reachable when `dontReplaceNullWithIfEmpty`
also preserves the null. -/
theorem c3_null_required_counterexample :
    createInstance envNullReq 3 (some (.vobj [("x", .vnull)])) (some (.cls "A")) none
        rootPath defaultHOptions =
      .error { msg := "Missing required property: x", ctx := rootPath } ∧
    createInstance envNullReq 3 (some (.vobj [("x", .vnull)])) (some (.cls "A")) none
        rootPath
        { collectErrors := false
          bypassConstructor := none
          errorForExtraProps := false
          errorForNullRequired := true
          dontReplaceNullWithIfEmpty := false } =
      .error { msg := "Missing required property: x", ctx := rootPath } ∧
    ({ msg := "Missing required property: x", ctx := rootPath } : RError) ≠
      { msg := "Field value was null but marked as required", ctx := rootPath.child "x" } := by
  refine ⟨?_, ?_, by decide⟩ <;>
    simp [createInstance, hydrateInto, walkFields, hydrateField, hydrateElems,
      parseClassOf, parseClass, parseWalkDeco, parseStepDeco, parseWalkLegacy, parseStepLegacy,
      envFind, alookup, objSet, jGet, jvalToIVal, setInsertAll, setInsert,
      mkSimpleClass, envNullReq, valueReq, mkTSField, defaultHOptions,
      rootPath, isetField, isObjLike, ownEntries, nullDataResult, failRet, Path.child,
      Except.bind, bind, pure, Except.pure, Option.isSome]

/-- C3, amended: for every resolved schema with a required field `k`
carrying no `ifEmpty` factory, hydrating input whose `k` holds the null
sentinel (collecting mode, bypass-constructed class, no deserialise hook)
behaves as follows.  With `dontReplaceNullWithIfEmpty` unset — in
particular under default flags, and regardless of `errorForNullRequired` —
the null counts as empty: the field is assigned null and a
`Missing required property` error is reported at the *containing* path.
With `dontReplaceNullWithIfEmpty` set and `errorForNullRequired` set, the
field is assigned null and the null-required error is reported at the
field's own *nested* path. -/
theorem c3_null_required_amended (env : Env) (fuel : Nat) (cls : String) (cd : ClassDef)
    (ps : ParsedSchema) (k : String) (fld : TSField) (d : JVal)
    (outer : Path) (opts : HOptions) (i2 : IVal) (e2 : List RError)
    (hcd : envFind env cls = some cd)
    (hhook : cd.deserialiseHook = none)
    (hbp : cd.bypassFlag = true) (hbo : opts.bypassConstructor = none)
    (hparse : parseClass cd.levels cd.protoEnum [] = .ok ps)
    (hmem : (k, fld) ∈ ps.fields)
    (hek : ps.expandoKey ≠ some k)
    (hreq : fld.required = true) (hie : fld.ifEmpty = none)
    (hraw : jGet d k = some JVal.vnull)
    (hcol : opts.collectErrors = true)
    (hrun : createInstance env (fuel + 1) (some d) (some (.cls cls)) none outer opts =
      .ok (i2, e2)) :
    (opts.dontReplaceNullWithIfEmpty = false →
      ({ msg := "Missing required property: " ++ k, ctx := outer } : RError) ∈ e2 ∧
      alookup (ownEntries i2) k = some .inull) ∧
    (opts.dontReplaceNullWithIfEmpty = true → opts.errorForNullRequired = true →
      ({ msg := "Field value was null but marked as required", ctx := outer.child k } : RError) ∈ e2 ∧
      alookup (ownEntries i2) k = some .inull) := by
  have hd : ∃ kvs, d = JVal.vobj kvs := by
    cases d <;> simp [jGet] at hraw ⊢
  obtain ⟨kvs, rfl⟩ := hd
  constructor
  · intro hdr
    exact createInstance_field_spec env fuel cls cd ps k fld kvs outer opts i2 e2 _ _
      hcd hhook hbp hbo hparse hmem hek hcol
      (hydrateField_null_missing env fuel k fld _ outer opts hraw hdr hie hreq hcol) hrun
  · intro hdr henr
    exact createInstance_field_spec env fuel cls cd ps k fld kvs outer opts i2 e2 _ _
      hcd hhook hbp hbo hparse hmem hek hcol
      (hydrateField_null_escalated env fuel k fld _ outer opts hraw hdr hie hreq henr hcol) hrun

/-- Witness for the amended C3, at the schema `{x: Value required}` and
input `{x: null}` under default collecting-mode flags. -/
theorem c3_null_required_amended_witness :
    (collectOpts.dontReplaceNullWithIfEmpty = false →
      ({ msg := "Missing required property: x", ctx := rootPath } : RError) ∈
        [{ msg := "Missing required property: x", ctx := rootPath }] ∧
      alookup (ownEntries (.iinst "A" [("x", IVal.inull)])) "x" = some .inull) ∧
    (collectOpts.dontReplaceNullWithIfEmpty = true → collectOpts.errorForNullRequired = true →
      ({ msg := "Field value was null but marked as required", ctx := rootPath.child "x" } : RError) ∈
        [{ msg := "Missing required property: x", ctx := rootPath }] ∧
      alookup (ownEntries (.iinst "A" [("x", IVal.inull)])) "x" = some .inull) :=
  c3_null_required_amended envNullReq 2 "A" (mkSimpleClass [("x", valueReq)])
    { fields := [("x", valueReq)], expandoKey := none, includedKeys := [] }
    "x" valueReq (.vobj [("x", .vnull)]) rootPath collectOpts
    (.iinst "A" [("x", IVal.inull)])
    [{ msg := "Missing required property: x", ctx := rootPath }]
    (by rfl) (by rfl) (by rfl) (by rfl) (by rfl) (by simp) (by simp) (by rfl) (by rfl)
    (by rfl) (by rfl)
    (by simp [createInstance, hydrateInto, walkFields, hydrateField, hydrateElems,
      parseClassOf, parseClass, parseWalkDeco, parseStepDeco, parseWalkLegacy, parseStepLegacy,
      envFind, alookup, objSet, jGet, jvalToIVal, setInsertAll, setInsert,
      mkSimpleClass, envNullReq, valueReq, mkTSField, collectOpts,
      rootPath, isetField, isObjLike, ownEntries, nullDataResult, failRet, Path.child,
      Except.bind, bind, pure, Except.pure, Option.isSome])

/-!
## C9 — required-but-null fields during schema-driven serialisation
-/

theorem alookup_of_mem_nodup {α : Type} (l : List (String × α)) (k : String) (v : α)
    (hmem : (k, v) ∈ l) (hnd : (l.map Prod.fst).Nodup) : alookup l k = some v := by
  induction l with
  | nil => simp at hmem
  | cons e rest ih =>
      obtain ⟨k1, w⟩ := e
      simp only [List.map_cons, List.nodup_cons] at hnd
      rcases List.mem_cons.mp hmem with heq | htail
      · obtain ⟨hk, hv⟩ := Prod.mk.injEq .. ▸ heq
        subst hk
        subst hv
        simp [alookup]
      · have hne : k1 ≠ k := by
          intro hh
          subst hh
          exact hnd.1 (List.mem_map.mpr ⟨(k1, v), htail, rfl⟩)
        simp only [alookup, if_neg hne]
        exact ih htail hnd.2

/-- A schema traversal whose (non-ignored, duplicate-free) entries contain
a required field holding null or undefined on the instance can never
succeed: the field is not silently skipped. -/
theorem serialiseFields_error_of_required_null (env : Env) (fuel : Nat) (inst : IVal)
    (ignored : List String) (outer : Path) (config : SOptions) (k : String) (fld : TSField)
    (hig : ¬ k ∈ ignored) (hreq : fld.required = true)
    (hnull : alookup (ownEntries inst) k = none ∨ alookup (ownEntries inst) k = some .inull) :
    ∀ entries out, (k, fld) ∈ entries →
      ∃ e, serialiseFields env fuel entries inst ignored outer config out = .error e := by
  intro entries
  induction entries with
  | nil => intro out hmem; simp at hmem
  | cons e rest ih =>
      intro out hmem
      obtain ⟨key, f⟩ := e
      simp only [serialiseFields]
      by_cases hkig : key ∈ ignored
      · rw [if_pos hkig]
        have : (k, fld) ∈ rest := by
          rcases List.mem_cons.mp hmem with heq | htail
          · obtain ⟨hk, _⟩ := Prod.mk.injEq .. ▸ heq
            subst hk
            exact absurd hkig hig
          · exact htail
        exact ih _ this
      · rw [if_neg hkig]
        rcases List.mem_cons.mp hmem with heq | htail
        · obtain ⟨hk, hf⟩ := Prod.mk.injEq .. ▸ heq
          subst hk
          subst hf
          have hcond : alookup (ownEntries inst) k = none ∨
              alookup (ownEntries inst) k = some IVal.inull := hnull
          rw [if_pos hcond, if_pos hreq]
          exact ⟨_, rfl⟩
        · by_cases hv : alookup (ownEntries inst) key = none ∨
              alookup (ownEntries inst) key = some IVal.inull
          · rw [if_pos hv]
            by_cases hr : f.required
            · rw [if_pos hr]
              exact ⟨_, rfl⟩
            · rw [if_neg hr]
              exact ih _ htail
          · rw [if_neg hv]
            obtain ⟨v, halo⟩ : ∃ v, alookup (ownEntries inst) key = some v := by
              cases h0 : alookup (ownEntries inst) key with
              | none => exact absurd (Or.inl h0) hv
              | some v => exact ⟨v, rfl⟩
            simp only [halo]
            cases hft : f.fieldType with
            | Value =>
                cases hsv : serialiseValue v (outer.child key) with
                | error e => exact ⟨e, rfl⟩
                | ok j => exact ih _ htail
            | Object =>
                cases hsi : serialiseInstance env fuel v (some f) (outer.child key) config with
                | error e => exact ⟨e, rfl⟩
                | ok j => exact ih _ htail
            | Array =>
                cases v with
                | iarr xs =>
                    dsimp only
                    cases hse : serialiseArrElems env fuel f xs 0 (outer.child key) config [] with
                    | error e => exact ⟨e, rfl⟩
                    | ok js => exact ih _ htail
                | inull => exact ⟨_, rfl⟩
                | istr s => exact ⟨_, rfl⟩
                | iint n => exact ⟨_, rfl⟩
                | ibool b => exact ⟨_, rfl⟩
                | idate n => exact ⟨_, rfl⟩
                | iobj fs => exact ⟨_, rfl⟩
                | iinst c fs => exact ⟨_, rfl⟩
            | Expando => exact ⟨_, rfl⟩

/-- A schema traversal never touches the output slot of a key that is not
among its entry keys. -/
theorem serialiseFields_preserve (env : Env) (fuel : Nat) (inst : IVal)
    (ignored : List String) (outer : Path) (config : SOptions) (k : String) :
    ∀ entries out out2, ¬ k ∈ entries.map Prod.fst →
      serialiseFields env fuel entries inst ignored outer config out = .ok out2 →
      alookup out2 k = alookup out k := by
  intro entries
  induction entries with
  | nil =>
      intro out out2 _ h
      simp only [serialiseFields] at h
      cases h
      rfl
  | cons e rest ih =>
      intro out out2 hmem h
      obtain ⟨key, f⟩ := e
      simp only [List.map_cons, List.mem_cons, not_or] at hmem
      have hkne : key ≠ k := fun hh => hmem.1 hh.symm
      simp only [serialiseFields] at h
      by_cases hkig : key ∈ ignored
      · rw [if_pos hkig] at h
        exact ih _ _ hmem.2 h
      · rw [if_neg hkig] at h
        by_cases hv : alookup (ownEntries inst) key = none ∨
            alookup (ownEntries inst) key = some IVal.inull
        · rw [if_pos hv] at h
          by_cases hr : f.required
          · rw [if_pos hr] at h
            simp at h
          · rw [if_neg hr] at h
            rw [ih _ _ hmem.2 h]
            exact alookup_objSet_ne _ _ _ _ hkne
        · rw [if_neg hv] at h
          obtain ⟨v, halo⟩ : ∃ v, alookup (ownEntries inst) key = some v := by
            cases h0 : alookup (ownEntries inst) key with
            | none => exact absurd (Or.inl h0) hv
            | some v => exact ⟨v, rfl⟩
          simp only [halo] at h
          cases hft : f.fieldType <;> simp only [hft] at h
          · cases hsv : serialiseValue v (outer.child key) with
            | error e => simp only [hsv] at h; exact Except.noConfusion h
            | ok j =>
                simp only [hsv] at h
                rw [ih _ _ hmem.2 h]
                exact alookup_objSet_ne _ _ _ _ hkne
          · cases hsi : serialiseInstance env fuel v (some f) (outer.child key) config with
            | error e => simp only [hsi] at h; exact Except.noConfusion h
            | ok j =>
                simp only [hsi] at h
                rw [ih _ _ hmem.2 h]
                exact alookup_objSet_ne _ _ _ _ hkne
          · cases v with
            | iarr xs =>
                cases hse : serialiseArrElems env fuel f xs 0 (outer.child key) config [] with
                | error e => simp only [hse] at h; exact Except.noConfusion h
                | ok js =>
                    simp only [hse] at h
                    rw [ih _ _ hmem.2 h]
                    exact alookup_objSet_ne _ _ _ _ hkne
            | inull => simp at h
            | istr s => simp at h
            | iint n => simp at h
            | ibool b => simp at h
            | idate n => simp at h
            | iobj fs => simp at h
            | iinst c fs => simp at h
          · simp at h

/-- In a successful schema traversal with duplicate-free entries, an
optional, non-ignored field holding null or undefined on the instance
emits null under its key. -/
theorem serialiseFields_optional_null (env : Env) (fuel : Nat) (inst : IVal)
    (ignored : List String) (outer : Path) (config : SOptions) (k : String) (fld : TSField)
    (hig : ¬ k ∈ ignored) (hreq : fld.required = false)
    (hnull : alookup (ownEntries inst) k = none ∨ alookup (ownEntries inst) k = some .inull) :
    ∀ entries out out2, (entries.map Prod.fst).Nodup → (k, fld) ∈ entries →
      serialiseFields env fuel entries inst ignored outer config out = .ok out2 →
      alookup out2 k = some JVal.vnull := by
  intro entries
  induction entries with
  | nil => intro out out2 _ hmem; simp at hmem
  | cons e rest ih =>
      intro out out2 hnd hmem h
      obtain ⟨key, f⟩ := e
      simp only [List.map_cons, List.nodup_cons] at hnd
      rcases List.mem_cons.mp hmem with heq | htail
      · obtain ⟨hk, hf⟩ := Prod.mk.injEq .. ▸ heq
        subst hk
        subst hf
        simp only [serialiseFields, if_neg hig] at h
        rw [if_pos hnull, if_neg (by simp [hreq])] at h
        rw [serialiseFields_preserve env fuel inst ignored outer config k rest _ _ hnd.1 h]
        exact alookup_objSet_self _ _ _
      · have hkne : key ≠ k := by
          intro hh
          subst hh
          exact hnd.1 (List.mem_map.mpr ⟨(key, fld), htail, rfl⟩)
        simp only [serialiseFields] at h
        by_cases hkig : key ∈ ignored
        · rw [if_pos hkig] at h
          exact ih _ _ hnd.2 htail h
        · rw [if_neg hkig] at h
          by_cases hv : alookup (ownEntries inst) key = none ∨
              alookup (ownEntries inst) key = some IVal.inull
          · rw [if_pos hv] at h
            by_cases hr : f.required
            · rw [if_pos hr] at h
              simp at h
            · rw [if_neg hr] at h
              exact ih _ _ hnd.2 htail h
          · rw [if_neg hv] at h
            obtain ⟨v, halo⟩ : ∃ v, alookup (ownEntries inst) key = some v := by
              cases h0 : alookup (ownEntries inst) key with
              | none => exact absurd (Or.inl h0) hv
              | some v => exact ⟨v, rfl⟩
            simp only [halo] at h
            cases hft : f.fieldType <;> simp only [hft] at h
            · cases hsv : serialiseValue v (outer.child key) with
              | error e => simp only [hsv] at h; exact Except.noConfusion h
              | ok j =>
                  simp only [hsv] at h
                  exact ih _ _ hnd.2 htail h
            · cases hsi : serialiseInstance env fuel v (some f) (outer.child key) config with
              | error e => simp only [hsi] at h; exact Except.noConfusion h
              | ok j =>
                  simp only [hsi] at h
                  exact ih _ _ hnd.2 htail h
            · cases v with
              | iarr xs =>
                  cases hse : serialiseArrElems env fuel f xs 0 (outer.child key) config [] with
                  | error e => simp only [hse] at h; exact Except.noConfusion h
                  | ok js =>
                      simp only [hse] at h
                      exact ih _ _ hnd.2 htail h
              | inull => simp at h
              | istr s => simp at h
              | iint n => simp at h
              | ibool b => simp at h
              | idate n => simp at h
              | iobj fs => simp at h
              | iinst c fs => simp at h
            · simp at h

/-- The `@Include` pass never touches the output slot of a declared schema
field. -/
theorem serialiseIncludes_preserve (env : Env) (inst : IVal) (ps : ParsedSchema)
    (ignored : List String) (outer : Path) (k : String)
    (hk : (alookup ps.fields k).isSome) :
    ∀ keys out out2, serialiseIncludes env inst ps ignored outer keys out = .ok out2 →
      alookup out2 k = alookup out k := by
  intro keys
  induction keys with
  | nil =>
      intro out out2 h
      simp only [serialiseIncludes] at h
      cases h
      rfl
  | cons key rest ih =>
      intro out out2 h
      simp only [serialiseIncludes] at h
      by_cases h1 : key ∈ ignored
      · rw [if_pos h1] at h
        exact ih _ _ h
      · rw [if_neg h1] at h
        by_cases h2 : (alookup ps.fields key).isSome
        · rw [if_pos h2] at h
          exact ih _ _ h
        · rw [if_neg h2] at h
          have hkne : key ≠ k := by
            intro hh
            subst hh
            exact h2 hk
          by_cases h3 : ps.expandoKey = some key
          · rw [if_pos h3] at h
            exact ih _ _ h
          · rw [if_neg h3] at h
            cases hm : methodOf env inst key with
            | none =>
                simp only [hm] at h
                exact ih _ _ h
            | some m =>
                simp only [hm] at h
                cases hmr : m inst with
                | error e => simp only [hmr] at h; exact Except.noConfusion h
                | ok v =>
                    simp only [hmr] at h
                    cases hsv : serialiseValue v (outer.child key) with
                    | error re => simp only [hsv] at h; exact Except.noConfusion h
                    | ok j =>
                        simp only [hsv] at h
                        rw [ih _ _ h]
                        exact alookup_objSet_ne _ _ _ _ hkne

/-- With flattening off, the expando pass can only write under the expando
key itself. -/
theorem serialiseExpando_preserve (inst : IVal) (ps : ParsedSchema) (outer : Path)
    (config : SOptions) (out out2 : List (String × JVal)) (k : String)
    (hf : config.flattenExpando = false) (hek : ps.expandoKey ≠ some k)
    (h : serialiseExpando inst ps outer config out = .ok out2) :
    alookup out2 k = alookup out k := by
  simp only [serialiseExpando] at h
  cases hpek : ps.expandoKey with
  | none =>
      simp only [hpek] at h
      cases h
      rfl
  | some ek =>
      simp only [hpek] at h
      have hkne : ek ≠ k := by
        intro hh
        subst hh
        exact hek (by rw [hpek])
      cases halo : alookup (ownEntries inst) ek with
      | none =>
          simp only [halo] at h
          cases h
          rfl
      | some ev =>
          simp only [halo] at h
          by_cases h1 : ev = IVal.inull ∨ ¬ isObjLike ev
          · rw [if_pos h1] at h
            cases h
            rfl
          · rw [if_neg h1] at h
            rw [if_neg (by simp [hf])] at h
            cases hsv : serialiseValue ev (outer.child ek) with
            | error e => simp only [hsv] at h; exact Except.noConfusion h
            | ok j =>
                simp only [hsv] at h
                simp only [Except.ok.injEq] at h
                subst h
                exact alookup_objSet_ne _ _ _ _ hkne

/-!
## C10 — serialising a null or undefined instance
-/

/-- C10: for every call to `serialiseInstance` where the instance argument
is null or undefined (both modelled as `IVal.inull`), the result is null
and no error is raised, regardless of the field, path and options
arguments (and of the available fuel). -/
theorem c10_serialise_null_instance (env : Env) (fuel : Nat) (field : Option TSField)
    (path : Path) (config : SOptions) :
    serialiseInstance env (fuel + 1) .inull field path config = .ok JVal.vnull := by
  simp [serialiseInstance]

/-!
## C4 — expando materialisation
-/

/-- C4: evaluating the hydrator at the two inputs of the claim.  With the
extra keys `foo` and `bar` present, the declared expando field receives
the fresh map of exactly those entries, as the claim states.  But with no
extra keys (`{id:"x"}` alone) the hydrator still materialises the expando
field, binding it to an *empty map* — the field is present with value
`{}`, not absent, which contradicts the claim, the specification example
and the repository test
"does NOT materialize expando when there are no extra properties"
(tests/expando.test.ts). -/
theorem c4_expando_materialisation :
    createInstance envExpando 3
        (some (.vobj [("id", .vstr "x"), ("foo", .vint 1), ("bar", .vstr "y")]))
        (some (.cls "WithExpando")) none rootPath defaultHOptions =
      .ok (.iinst "WithExpando"
        [("id", .istr "x"), ("extra", .iobj [("foo", .iint 1), ("bar", .istr "y")])], []) ∧
    createInstance envExpando 3 (some (.vobj [("id", .vstr "x")]))
        (some (.cls "WithExpando")) none rootPath defaultHOptions =
      .ok (.iinst "WithExpando" [("id", .istr "x"), ("extra", .iobj [])], []) := by
  constructor <;>
    simp [createInstance, hydrateInto, walkFields, hydrateField, hydrateElems,
      parseClassOf, parseClass, parseWalkDeco, parseStepDeco, parseWalkLegacy, parseStepLegacy,
      envFind, alookup, objSet, jGet, jvalToIVal, setInsertAll, setInsert,
      mkSimpleClass, envExpando, valueReq, expandoFld, mkTSField, defaultHOptions,
      rootPath, isetField, isObjLike, ownEntries, nullDataResult, failRet, Path.child,
      Except.bind, bind, pure, Except.pure, Option.isSome]

/-!
## C7 — the collecting-mode example
-/

/-- C7: hydrating `{id:"123"}` against
`{id: Value required, name: Value required, address: Object(Address) required}`
in collecting mode yields exactly two errors — `name` and `address`
reported missing at the containing path `root` — together with a non-null
partial instance whose `name` field is null. -/
theorem c7_collecting_example :
    validateInstance envUser 4 (some (.vobj [("id", .vstr "123")]))
        (some (.cls "User")) none rootPath =
      .ok { valid := false
            inst := .iinst "User" [("id", .istr "123"), ("name", .inull), ("address", .inull)]
            errors := [{ message := "[root] Missing required property: name", context := "root" },
                       { message := "[root] Missing required property: address", context := "root" }] } := by
  simp [validateInstance, createInstance, hydrateInto, walkFields, hydrateField, hydrateElems,
    parseClassOf, parseClass, parseWalkDeco, parseStepDeco, parseWalkLegacy, parseStepLegacy,
    envFind, alookup, objSet, jGet, jvalToIVal, setInsertAll, setInsert,
    mkSimpleClass, envUser, valueReq, objReq, mkTSField, defaultHOptions,
    rootPath, isetField, isObjLike, ownEntries, nullDataResult, failRet, Path.child,
    renderRErr, Path.render, Seg.render, String.join,
    Except.bind, bind, pure, Except.pure, Option.isSome]

/-!
## C9 — required-null fields during serialisation
-/

/-- The `IgnoredReq` schema: `{x: Value required}` where `x` is also in
`__ignoredFields` (an `@Ignore()` decorator on a required field). -/
def envC9 : Env :=
  [("IgnoredReq",
    { levels := [{ schemaFields := [("x", valueReq)]
                   includedMethods := []
                   ignoredFields := some ["x"] }]
      protoEnum := []
      legacyOwn := []
      ctorArity := 0
      ctorRun := .ok []
      bypassFlag := true
      serialiseHook := none
      deserialiseHook := none
      newWithArg := fun _ => .error "model: not a value constructor"
      methods := [] })]

/-- C9, counterexample to the claim as stated: a declared **required**
field that is `@Ignore`d and holds null at serialisation time is silently
skipped — the serialiser returns `{}` with no error, because the ignored
check precedes the required-null check in the schema traversal
(src/core/serialiseInstance.ts lines 212-227). -/
theorem c9_ignored_required_counterexample :
    serialiseInstance envC9 2 (.iinst "IgnoredReq" [("x", .inull)]) none rootPath
        defaultSOptions = .ok (.vobj []) := by
  simp [serialiseInstance, serialiseFields, serialiseIncludes, serialiseExpando,
    checkExtraProps, ensureParsedOf, serialiseHookOf, parseClassOf, parseClass,
    parseWalkDeco, parseStepDeco, parseWalkLegacy, parseStepLegacy,
    ignoredFieldsOf, ignoredOf, methodOf, envC9, envFind, alookup, objSet,
    valueReq, mkTSField, defaultSOptions, rootPath, ownEntries, isPlainObj,
    isObjLike, Except.bind, bind, pure, Except.pure, Option.isSome]

/-- C9 (amended): during a schema-driven serialisation (no custom hook),
a declared field of the resolved schema that is **not ignored** and not
the expando key, holding null or undefined at serialisation time,
is never silently skipped: if the field is required, serialisation is a
fatal error; if it is optional, any successful serialisation emits null
for it (with flattening off).  The claim as stated omits the `@Ignore`
escape of `c9_ignored_required_counterexample`. -/
theorem c9_required_null_amended (env : Env) (fuel : Nat) (cls : String)
    (fs : List (String × IVal)) (outer : Path) (config : SOptions)
    (cd : ClassDef) (ps : ParsedSchema) (k : String) (fld : TSField)
    (henv : envFind env cls = some cd)
    (hhook : cd.serialiseHook = none)
    (hps : parseClass cd.levels cd.protoEnum [] = .ok ps)
    (hmem : (k, fld) ∈ ps.fields)
    (hig : ¬ k ∈ ignoredOf cd.levels)
    (hek : ps.expandoKey ≠ some k)
    (hflat : config.flattenExpando = false)
    (hnull : alookup fs k = none ∨ alookup fs k = some .inull) :
    (fld.required = true →
      ∃ e, serialiseInstance env fuel (.iinst cls fs) none outer config = .error e) ∧
    (fld.required = false →
      ∀ out, serialiseInstance env fuel (.iinst cls fs) none outer config = .ok (.vobj out) →
        alookup out k = some JVal.vnull) := by
  have hfe : ps.fields.isEmpty = false := by
    cases hq : ps.fields with
    | nil => rw [hq] at hmem; simp at hmem
    | cons a l => rfl
  have hepa : ensureParsedOf env (.iinst cls fs) = .ok () := by
    simp [ensureParsedOf, henv, hps, bind, Except.bind]
  have hsh : serialiseHookOf env (.iinst cls fs) = none := by
    simp [serialiseHookOf, henv, hhook]
  have hpc : parseClassOf env (.iinst cls fs) [] = .ok ps := by
    simp [parseClassOf, henv, hps]
  have hign : ignoredFieldsOf env (.iinst cls fs) = ignoredOf cd.levels := by
    simp [ignoredFieldsOf, henv]
  constructor
  · intro hreq
    cases fuel with
    | zero => exact ⟨{ msg := fuelMsg, ctx := outer }, by simp [serialiseInstance]⟩
    | succ n =>
        obtain ⟨e, hse⟩ := serialiseFields_error_of_required_null env n (.iinst cls fs)
          (ignoredOf cd.levels) outer config k fld hig hreq hnull ps.fields [] hmem
        refine ⟨e, ?_⟩
        simp [serialiseInstance, hepa, hsh, hpc, hign, hfe, hse, isPlainObj, isObjLike]
  · intro hreq out hok
    cases fuel with
    | zero => simp [serialiseInstance] at hok
    | succ n =>
        have hnd : (ps.fields.map Prod.fst).Nodup :=
          parseClass_fields_nodup cd.levels cd.protoEnum [] ps hps
        have hkk : (alookup ps.fields k).isSome := by
          rw [alookup_of_mem_nodup ps.fields k fld hmem hnd]
          rfl
        simp [serialiseInstance, hepa, hsh, hpc, hign, hfe, isPlainObj, isObjLike] at hok
        cases hf1 : serialiseFields env n ps.fields (.iinst cls fs) (ignoredOf cd.levels)
            outer config [] with
        | error e => simp only [hf1] at hok; exact Except.noConfusion hok
        | ok out1 =>
            simp only [hf1] at hok
            cases hf2 : serialiseIncludes env (.iinst cls fs) ps (ignoredOf cd.levels)
                outer ps.includedKeys out1 with
            | error e => simp only [hf2] at hok; exact Except.noConfusion hok
            | ok out2 =>
                simp only [hf2] at hok
                cases hf3 : serialiseExpando (.iinst cls fs) ps outer config out2 with
                | error e => simp only [hf3] at hok; exact Except.noConfusion hok
                | ok out3 =>
                    simp only [hf3] at hok
                    have h1 : alookup out1 k = some JVal.vnull :=
                      serialiseFields_optional_null env n (.iinst cls fs)
                        (ignoredOf cd.levels) outer config k fld hig hreq hnull
                        ps.fields [] out1 hnd hmem hf1
                    have h2 : alookup out2 k = alookup out1 k :=
                      serialiseIncludes_preserve env (.iinst cls fs) ps
                        (ignoredOf cd.levels) outer k hkk ps.includedKeys out1 out2 hf2
                    have h3 : alookup out3 k = alookup out2 k :=
                      serialiseExpando_preserve (.iinst cls fs) ps outer config
                        out2 out3 k hflat hek hf3
                    have hoeq : out3 = out := by
                      cases hcep : config.errorForExtraProps with
                      | false => simp [hcep] at hok; exact hok
                      | true =>
                          simp [hcep] at hok
                          cases hchk : checkExtraProps ps (ignoredOf cd.levels) outer
                              ((ownEntries (IVal.iinst cls fs)).map Prod.fst) with
                          | error e => simp only [hchk] at hok; exact Except.noConfusion hok
                          | ok u => simp only [hchk] at hok; simpa using hok
                    subst hoeq
                    rw [h3, h2]
                    exact h1

/-- C9 witness: `{x: Value required}` with `x` null serialises to the
fatal required-null error. -/
theorem c9_required_null_amended_witness :
    ∃ e, serialiseInstance envNullReq 2 (.iinst "A" [("x", .inull)]) none rootPath
        defaultSOptions = .error e :=
  (c9_required_null_amended envNullReq 2 "A" [("x", .inull)] rootPath defaultSOptions
      (mkSimpleClass [("x", valueReq)])
      { fields := [("x", valueReq)]
        expandoKey := none
        includedKeys := [] }
      "x" valueReq rfl rfl rfl (List.mem_singleton.mpr rfl) (by decide) (by decide) rfl
      (Or.inr rfl)).1 rfl


/-!
## C6 — cloneWith never mutates the original
-/

/-- Writing a reference makes it readable. -/
theorem nlookup_nset_self (m : List (Nat × Cell)) (r : Nat) (c : Cell) :
    nlookup (nset m r c) r = some c := by
  induction m with
  | nil => simp [nset, nlookup]
  | cons e rest ih =>
      obtain ⟨r1, c1⟩ := e
      by_cases h : r1 = r
      · simp [nset, nlookup, h]
      · simp [nset, nlookup, h, ih]

/-- Writing one reference leaves every other reference unchanged. -/
theorem nlookup_nset_ne (m : List (Nat × Cell)) (r r2 : Nat) (c : Cell)
    (h : ¬ r = r2) : nlookup (nset m r c) r2 = nlookup m r2 := by
  induction m with
  | nil => simp [nset, nlookup, h]
  | cons e rest ih =>
      obtain ⟨r1, c1⟩ := e
      by_cases h1 : r1 = r
      · subst h1
        simp [nset, nlookup, h]
      · simp [nset, nlookup, h1, ih]

/-- A snapshot write keeps the allocation counter. -/
theorem swriteJ_next (r : Nat) (k : String) (v : JVal) (s : Store) :
    (swriteJ r k v s).next = s.next := rfl

/-- A snapshot write leaves other references unchanged. -/
theorem nlookup_swriteJ_ne (r : Nat) (k : String) (v : JVal) (s : Store) (r2 : Nat)
    (h : ¬ r = r2) : nlookup (swriteJ r k v s).mem r2 = nlookup s.mem r2 :=
  nlookup_nset_ne s.mem r r2 _ h

/-- Reading back a snapshot write. -/
theorem sreadJ_swriteJ_self (r : Nat) (k : String) (v : JVal) (s : Store) :
    sreadJ (swriteJ r k v s) r = jobjSet (sreadJ s r) k v := by
  simp [sreadJ, swriteJ, nlookup_nset_self]

/-- A snapshot delete keeps the allocation counter. -/
theorem sdelJ_next (r : Nat) (k : String) (s : Store) : (sdelJ r k s).next = s.next := rfl

/-- A snapshot delete leaves other references unchanged. -/
theorem nlookup_sdelJ_ne (r : Nat) (k : String) (s : Store) (r2 : Nat)
    (h : ¬ r = r2) : nlookup (sdelJ r k s).mem r2 = nlookup s.mem r2 :=
  nlookup_nset_ne s.mem r r2 _ h

/-- Reading back a snapshot delete. -/
theorem sreadJ_sdelJ_self (r : Nat) (k : String) (s : Store) :
    sreadJ (sdelJ r k s) r = jobjDel (sreadJ s r) k := by
  simp [sreadJ, sdelJ, nlookup_nset_self]

/-- An instance write keeps the allocation counter. -/
theorem swriteI_next (r : Nat) (k : String) (v : IVal) (s : Store) :
    (swriteI r k v s).next = s.next := rfl

/-- An instance write leaves other references unchanged. -/
theorem nlookup_swriteI_ne (r : Nat) (k : String) (v : IVal) (s : Store) (r2 : Nat)
    (h : ¬ r = r2) : nlookup (swriteI r k v s).mem r2 = nlookup s.mem r2 :=
  nlookup_nset_ne s.mem r r2 _ h

/-- Reading back an instance write. -/
theorem sreadI_swriteI_self (r : Nat) (k : String) (v : IVal) (s : Store) :
    sreadI (swriteI r k v s) r = isetField (sreadI s r) k v := by
  simp [sreadI, swriteI, nlookup_nset_self]

/-- Allocation: counter bump, fresh cell readable, old cells unchanged. -/
theorem salloc_spec (c : Cell) (s : Store) :
    (salloc c s).1 = s.next ∧ (salloc c s).2.next = s.next + 1 ∧
    nlookup (salloc c s).2.mem s.next = some c ∧
    (∀ r2, ¬ s.next = r2 → nlookup (salloc c s).2.mem r2 = nlookup s.mem r2) := by
  refine ⟨rfl, rfl, nlookup_nset_self s.mem s.next c, ?_⟩
  intro r2 h
  exact nlookup_nset_ne s.mem s.next r2 c h

/-- The interim-update loop (`interim[key] = value`): it writes only its
target instance, whose contents end up as the pure field-assignment
fold. -/
theorem foldl_swriteI_spec (rt : Nat) : ∀ (l : List (String × JVal)) (s : Store),
    (l.foldl (fun st kv => swriteI rt kv.1 (jvalToIVal kv.2) st) s).next = s.next ∧
    (∀ r2, ¬ rt = r2 →
      nlookup (l.foldl (fun st kv => swriteI rt kv.1 (jvalToIVal kv.2) st) s).mem r2 =
        nlookup s.mem r2) ∧
    sreadI (l.foldl (fun st kv => swriteI rt kv.1 (jvalToIVal kv.2) st) s) rt =
      l.foldl (fun acc kv => isetField acc kv.1 (jvalToIVal kv.2)) (sreadI s rt)
  | [], s => ⟨rfl, fun r2 _ => rfl, rfl⟩
  | (k, v) :: rest, s => by
      obtain ⟨hn, hf, hc⟩ := foldl_swriteI_spec rt rest (swriteI rt k (jvalToIVal v) s)
      refine ⟨by simpa [swriteI_next] using hn, ?_, ?_⟩
      · intro r2 h2
        rw [List.foldl_cons, hf r2 h2, nlookup_swriteI_ne rt k (jvalToIVal v) s r2 h2]
      · rw [List.foldl_cons, hc, sreadI_swriteI_self, List.foldl_cons]

/-- The schema-copy loop (`merged[key] = base[key]` for present schema
keys): it writes only its target snapshot, whose contents end up as the
pure copy fold. -/
theorem foldl_fieldscopy_spec (rt : Nat) (base : JVal) :
    ∀ (flds : List (String × TSField)) (s : Store) (l0 : List (String × JVal)),
    sreadJ s rt = .vobj l0 →
    (flds.foldl (fun st kf =>
        match jGet base kf.1 with
        | some v => swriteJ rt kf.1 v st
        | none => st) s).next = s.next ∧
    (∀ r2, ¬ rt = r2 →
      nlookup (flds.foldl (fun st kf =>
        match jGet base kf.1 with
        | some v => swriteJ rt kf.1 v st
        | none => st) s).mem r2 = nlookup s.mem r2) ∧
    sreadJ (flds.foldl (fun st kf =>
        match jGet base kf.1 with
        | some v => swriteJ rt kf.1 v st
        | none => st) s) rt =
      .vobj (flds.foldl (fun acc kf =>
        match jGet base kf.1 with
        | some v => objSet acc kf.1 v
        | none => acc) l0)
  | [], s, l0, h0 => ⟨rfl, fun r2 _ => rfl, h0⟩
  | (k, fld) :: rest, s, l0, h0 => by
      cases hg : jGet base k with
      | none =>
          obtain ⟨hn, hf, hc⟩ := foldl_fieldscopy_spec rt base rest s l0 h0
          exact ⟨by simpa [hg] using hn,
            fun r2 h2 => by simpa [hg] using hf r2 h2,
            by simpa [hg] using hc⟩
      | some v =>
          obtain ⟨hn, hf, hc⟩ := foldl_fieldscopy_spec rt base rest
            (swriteJ rt k v s) (objSet l0 k v)
            (by rw [sreadJ_swriteJ_self, h0]; simp [jobjSet])
          refine ⟨by simpa [hg, swriteJ_next] using hn, ?_, by simpa [hg] using hc⟩
          · intro r2 h2
            have := hf r2 h2
            rw [List.foldl_cons]
            simp only [hg]
            rw [this, nlookup_swriteJ_ne rt k v s r2 h2]

/-- The change-apply loop (`merged[key] = value`): it writes only its
target snapshot, whose contents end up as the pure assignment fold. -/
theorem foldl_scapply_spec (rt : Nat) :
    ∀ (scl : List (String × JVal)) (s : Store) (l0 : List (String × JVal)),
    sreadJ s rt = .vobj l0 →
    (scl.foldl (fun st kv => swriteJ rt kv.1 kv.2 st) s).next = s.next ∧
    (∀ r2, ¬ rt = r2 →
      nlookup (scl.foldl (fun st kv => swriteJ rt kv.1 kv.2 st) s).mem r2 =
        nlookup s.mem r2) ∧
    sreadJ (scl.foldl (fun st kv => swriteJ rt kv.1 kv.2 st) s) rt =
      .vobj (scl.foldl (fun acc kv => objSet acc kv.1 kv.2) l0)
  | [], s, l0, h0 => ⟨rfl, fun r2 _ => rfl, h0⟩
  | (k, v) :: rest, s, l0, h0 => by
      obtain ⟨hn, hf, hc⟩ := foldl_scapply_spec rt rest (swriteJ rt k v s) (objSet l0 k v)
        (by rw [sreadJ_swriteJ_self, h0]; simp [jobjSet])
      refine ⟨by simpa [swriteJ_next] using hn, ?_, by simpa using hc⟩
      · intro r2 h2
        rw [List.foldl_cons, hf r2 h2, nlookup_swriteJ_ne rt k v s r2 h2]

/-- The expando-merge loop (delete-on-null or assign): it writes only its
target snapshot, whose contents end up as `mergeExpandoEntries`. -/
theorem foldl_expando_spec (rt : Nat) (removeNulls : Bool) :
    ∀ (mm : List (String × JVal)) (s : Store) (l0 : List (String × JVal)),
    sreadJ s rt = .vobj l0 →
    (mm.foldl (fun st kv =>
        if kv.2 = .vnull ∧ removeNulls then sdelJ rt kv.1 st
        else swriteJ rt kv.1 kv.2 st) s).next = s.next ∧
    (∀ r2, ¬ rt = r2 →
      nlookup (mm.foldl (fun st kv =>
        if kv.2 = .vnull ∧ removeNulls then sdelJ rt kv.1 st
        else swriteJ rt kv.1 kv.2 st) s).mem r2 = nlookup s.mem r2) ∧
    sreadJ (mm.foldl (fun st kv =>
        if kv.2 = .vnull ∧ removeNulls then sdelJ rt kv.1 st
        else swriteJ rt kv.1 kv.2 st) s) rt =
      .vobj (mergeExpandoEntries removeNulls mm l0)
  | [], s, l0, h0 => ⟨rfl, fun r2 _ => rfl, by simpa [mergeExpandoEntries] using h0⟩
  | (k, v) :: rest, s, l0, h0 => by
      by_cases hnul : v = .vnull ∧ removeNulls = true
      · have hh : (if v = JVal.vnull ∧ removeNulls = true then sdelJ rt k s
            else swriteJ rt k v s) = sdelJ rt k s := by
          simp [hnul.1, hnul.2]
        obtain ⟨hn, hf, hc⟩ := foldl_expando_spec rt removeNulls rest (sdelJ rt k s)
          (objDelete l0 k) (by rw [sreadJ_sdelJ_self, h0]; simp [jobjDel])
        refine ⟨?_, ?_, ?_⟩
        · rw [List.foldl_cons, hh, hn, sdelJ_next]
        · intro r2 h2
          rw [List.foldl_cons, hh, hf r2 h2, nlookup_sdelJ_ne rt k s r2 h2]
        · rw [List.foldl_cons, hh, hc]
          simp [mergeExpandoEntries, hnul.1, hnul.2]
      · have hh : (if v = JVal.vnull ∧ removeNulls = true then sdelJ rt k s
            else swriteJ rt k v s) = swriteJ rt k v s := by
          simp [hnul]
        obtain ⟨hn, hf, hc⟩ := foldl_expando_spec rt removeNulls rest (swriteJ rt k v s)
          (objSet l0 k v) (by rw [sreadJ_swriteJ_self, h0]; simp [jobjSet])
        refine ⟨?_, ?_, ?_⟩
        · rw [List.foldl_cons, hh, hn, swriteJ_next]
        · intro r2 h2
          rw [List.foldl_cons, hh, hf r2 h2, nlookup_swriteJ_ne rt k v s r2 h2]
        · rw [List.foldl_cons, hh, hc]
          have hnul2 : ¬ (v = JVal.vnull ∧ removeNulls = true) := hnul
          simp [mergeExpandoEntries, hnul2]

/-- The heap change-splitting loop refines the pure `splitChanges`: it
writes only the `schemaChanges` accumulator object, errors agree, and on
success the accumulator object holds the pure accumulator value. -/
theorem splitChangesH_spec (ps : ParsedSchema) (rsc : Nat) :
    ∀ (chs : List (String × JVal)) (ec : Option (List (String × JVal)))
      (s : Store) (sc0 : List (String × JVal)),
    sreadJ s rsc = .vobj sc0 →
    (splitChangesH ps rsc chs ec s).2.next = s.next ∧
    (∀ r2, ¬ rsc = r2 →
      nlookup (splitChangesH ps rsc chs ec s).2.mem r2 = nlookup s.mem r2) ∧
    (match splitChanges ps chs sc0 ec with
     | .ok (sc, ec2) => (splitChangesH ps rsc chs ec s).1 = .ok ec2 ∧
         sreadJ (splitChangesH ps rsc chs ec s).2 rsc = .vobj sc
     | .error e => (splitChangesH ps rsc chs ec s).1 = .error e)
  | [], ec, s, sc0, h0 => ⟨rfl, fun r2 _ => rfl, by simp [splitChanges, splitChangesH, h0]⟩
  | (key, value) :: rest, ec, s, sc0, h0 => by
      by_cases hik : key ∈ ps.includedKeys
      · exact ⟨by simp [splitChangesH, hik], fun r2 _ => by simp [splitChangesH, hik],
          by simp [splitChanges, splitChangesH, hik]⟩
      · by_cases hek : ps.expandoKey = some key
        · cases value with
          | vobj mv =>
              obtain ⟨hn, hf, hc⟩ := splitChangesH_spec ps rsc rest (some mv) s sc0 h0
              exact ⟨by simpa [splitChangesH, hik, hek] using hn,
                fun r2 h2 => by simpa [splitChangesH, hik, hek] using hf r2 h2,
                by simpa [splitChanges, splitChangesH, hik, hek] using hc⟩
          | vnull =>
              exact ⟨by simp [splitChangesH, hik, hek],
                fun r2 _ => by simp [splitChangesH, hik, hek],
                by simp [splitChanges, splitChangesH, hik, hek]⟩
          | vstr sv =>
              exact ⟨by simp [splitChangesH, hik, hek],
                fun r2 _ => by simp [splitChangesH, hik, hek],
                by simp [splitChanges, splitChangesH, hik, hek]⟩
          | vint nv =>
              exact ⟨by simp [splitChangesH, hik, hek],
                fun r2 _ => by simp [splitChangesH, hik, hek],
                by simp [splitChanges, splitChangesH, hik, hek]⟩
          | vbool bv =>
              exact ⟨by simp [splitChangesH, hik, hek],
                fun r2 _ => by simp [splitChangesH, hik, hek],
                by simp [splitChanges, splitChangesH, hik, hek]⟩
          | varr av =>
              exact ⟨by simp [splitChangesH, hik, hek],
                fun r2 _ => by simp [splitChangesH, hik, hek],
                by simp [splitChanges, splitChangesH, hik, hek]⟩
        · by_cases hns : (alookup ps.fields key).isNone
          · exact ⟨by simp [splitChangesH, hik, hek, hns],
              fun r2 _ => by simp [splitChangesH, hik, hek, hns],
              by simp [splitChanges, splitChangesH, hik, hek, hns]⟩
          · have hred : splitChangesH ps rsc ((key, value) :: rest) ec s =
                splitChangesH ps rsc rest ec (swriteJ rsc key value s) := by
              simp [splitChangesH, hik, hek, hns]
            have hredp : splitChanges ps ((key, value) :: rest) sc0 ec =
                splitChanges ps rest (objSet sc0 key value) ec := by
              simp [splitChanges, hik, hek, hns]
            obtain ⟨hn, hf, hc⟩ := splitChangesH_spec ps rsc rest ec
              (swriteJ rsc key value s) (objSet sc0 key value)
              (by rw [sreadJ_swriteJ_self, h0]; simp [jobjSet])
            refine ⟨?_, ?_, ?_⟩
            · rw [hred, hn, swriteJ_next]
            · intro r2 h2
              rw [hred, hf r2 h2, nlookup_swriteJ_ne rsc key value s r2 h2]
            · rw [hred, hredp]
              exact hc

/-- The heap schema-change application refines the pure one: the counter
never shrinks, no pre-existing reference is written at all, errors agree,
and on success the returned merged-snapshot reference is fresh and holds
the pure merged value. -/
theorem applySchemaH_spec (env : Env) (fuel : Nat) (ri : Nat) (hcs : Bool)
    (scl : List (String × JVal)) (base : JVal) (ps : ParsedSchema)
    (s : Store) (inst : IVal)
    (hri : nlookup s.mem ri = some (Cell.icell inst)) :
    s.next ≤ (applySchemaH env fuel ri hcs scl base ps s).2.next ∧
    (∀ r, r < s.next →
      nlookup (applySchemaH env fuel ri hcs scl base ps s).2.mem r = nlookup s.mem r) ∧
    (match applySchemaPure env fuel inst hcs scl base ps with
     | .error e => (applySchemaH env fuel ri hcs scl base ps s).1 = .error e
     | .ok merged => ∃ rm, (applySchemaH env fuel ri hcs scl base ps s).1 = .ok rm ∧
         s.next ≤ rm ∧ rm < (applySchemaH env fuel ri hcs scl base ps s).2.next ∧
         sreadJ (applySchemaH env fuel ri hcs scl base ps s).2 rm = merged) := by
  have hsr : sreadI s ri = inst := by simp [sreadI, hri]
  by_cases hb1 : hcs = true ∧ ¬ scl.isEmpty = true
  · cases hdup : duplicateInstance env fuel inst defaultHOptions with
    | error e =>
        have hH : applySchemaH env fuel ri hcs scl base ps s = (.error e, s) := by
          simp [applySchemaH, hb1, hsr, hdup]
        have hP : applySchemaPure env fuel inst hcs scl base ps = .error e := by
          simp [applySchemaPure, hb1, hdup]
        simp [hH, hP]
    | ok interim =>
        have hri1 : sreadI (salloc (Cell.icell interim) s).2 s.next = interim := by
          simp [sreadI, salloc, nlookup_nset_self]
        obtain ⟨hln, hlf, hlc⟩ := foldl_swriteI_spec s.next scl
          (salloc (Cell.icell interim) s).2
        have hlc2 : sreadI (scl.foldl
            (fun st kv => swriteI s.next kv.1 (jvalToIVal kv.2) st)
            (salloc (Cell.icell interim) s).2) s.next =
            scl.foldl (fun acc kv => isetField acc kv.1 (jvalToIVal kv.2)) interim := by
          rw [hlc, hri1]
        have hlnn : (scl.foldl (fun st kv => swriteI s.next kv.1 (jvalToIVal kv.2) st)
            (salloc (Cell.icell interim) s).2).next = s.next + 1 := by
          rw [hln]
          rfl
        have hfr3 : ∀ r, r < s.next →
            nlookup (scl.foldl (fun st kv => swriteI s.next kv.1 (jvalToIVal kv.2) st)
              (salloc (Cell.icell interim) s).2).mem r = nlookup s.mem r := by
          intro r hr
          have hnr : ¬ s.next = r := fun hh => absurd (hh ▸ hr) (lt_irrefl _)
          rw [hlf r hnr,
            show (salloc (Cell.icell interim) s).2.mem =
              nset s.mem s.next (Cell.icell interim) from rfl]
          exact nlookup_nset_ne s.mem s.next r _ hnr
        cases hs2 : serialiseInstance env fuel
            (scl.foldl (fun acc kv => isetField acc kv.1 (jvalToIVal kv.2)) interim)
            none rootPath defaultSOptions with
        | error e =>
            have hH : applySchemaH env fuel ri hcs scl base ps s =
                (.error e, scl.foldl
                  (fun st kv => swriteI s.next kv.1 (jvalToIVal kv.2) st)
                  (salloc (Cell.icell interim) s).2) := by
              simp [applySchemaH, hb1, hsr, hdup,
                show (salloc (Cell.icell interim) s).1 = s.next from rfl, hlc2, hs2]
            have hP : applySchemaPure env fuel inst hcs scl base ps = .error e := by
              simp [applySchemaPure, hb1, hdup, hs2]
            refine ⟨?_, ?_, ?_⟩
            · rw [hH]
              simp only [hlnn]
              exact Nat.le_succ s.next
            · intro r hr
              rw [hH]
              exact hfr3 r hr
            · simp only [hP, hH]
        | ok m =>
            have hH : applySchemaH env fuel ri hcs scl base ps s =
                (.ok ((salloc (Cell.jcell m) (scl.foldl
                    (fun st kv => swriteI s.next kv.1 (jvalToIVal kv.2) st)
                    (salloc (Cell.icell interim) s).2)).1),
                 (salloc (Cell.jcell m) (scl.foldl
                    (fun st kv => swriteI s.next kv.1 (jvalToIVal kv.2) st)
                    (salloc (Cell.icell interim) s).2)).2) := by
              simp [applySchemaH, hb1, hsr, hdup,
                show (salloc (Cell.icell interim) s).1 = s.next from rfl, hlc2, hs2]
            have hP : applySchemaPure env fuel inst hcs scl base ps = .ok m := by
              simp [applySchemaPure, hb1, hdup, hs2]
            refine ⟨?_, ?_, ?_⟩
            · rw [hH,
                show (salloc (Cell.jcell m) (scl.foldl
                  (fun st kv => swriteI s.next kv.1 (jvalToIVal kv.2) st)
                  (salloc (Cell.icell interim) s).2)).2.next =
                  (scl.foldl (fun st kv => swriteI s.next kv.1 (jvalToIVal kv.2) st)
                    (salloc (Cell.icell interim) s).2).next + 1 from rfl, hlnn]
              omega
            · intro r hr
              rw [hH,
                show (salloc (Cell.jcell m) (scl.foldl
                  (fun st kv => swriteI s.next kv.1 (jvalToIVal kv.2) st)
                  (salloc (Cell.icell interim) s).2)).2.mem =
                  nset (scl.foldl (fun st kv => swriteI s.next kv.1 (jvalToIVal kv.2) st)
                    (salloc (Cell.icell interim) s).2).mem
                  (scl.foldl (fun st kv => swriteI s.next kv.1 (jvalToIVal kv.2) st)
                    (salloc (Cell.icell interim) s).2).next (Cell.jcell m) from rfl]
              have hnr : ¬ (scl.foldl
                  (fun st kv => swriteI s.next kv.1 (jvalToIVal kv.2) st)
                  (salloc (Cell.icell interim) s).2).next = r := by
                rw [hlnn]
                omega
              rw [nlookup_nset_ne _ _ _ _ hnr]
              exact hfr3 r hr
            · simp only [hP, hH]
              refine ⟨_, rfl, ?_, ?_, ?_⟩
              · rw [show (salloc (Cell.jcell m) (scl.foldl
                    (fun st kv => swriteI s.next kv.1 (jvalToIVal kv.2) st)
                    (salloc (Cell.icell interim) s).2)).1 =
                    (scl.foldl (fun st kv => swriteI s.next kv.1 (jvalToIVal kv.2) st)
                      (salloc (Cell.icell interim) s).2).next from rfl, hlnn]
                omega
              · rw [show (salloc (Cell.jcell m) (scl.foldl
                    (fun st kv => swriteI s.next kv.1 (jvalToIVal kv.2) st)
                    (salloc (Cell.icell interim) s).2)).1 =
                    (scl.foldl (fun st kv => swriteI s.next kv.1 (jvalToIVal kv.2) st)
                      (salloc (Cell.icell interim) s).2).next from rfl,
                  show (salloc (Cell.jcell m) (scl.foldl
                    (fun st kv => swriteI s.next kv.1 (jvalToIVal kv.2) st)
                    (salloc (Cell.icell interim) s).2)).2.next =
                    (scl.foldl (fun st kv => swriteI s.next kv.1 (jvalToIVal kv.2) st)
                      (salloc (Cell.icell interim) s).2).next + 1 from rfl]
                omega
              · rw [show (salloc (Cell.jcell m) (scl.foldl
                    (fun st kv => swriteI s.next kv.1 (jvalToIVal kv.2) st)
                    (salloc (Cell.icell interim) s).2)).1 =
                    (scl.foldl (fun st kv => swriteI s.next kv.1 (jvalToIVal kv.2) st)
                      (salloc (Cell.icell interim) s).2).next from rfl]
                simp [sreadJ,
                  show (salloc (Cell.jcell m) (scl.foldl
                    (fun st kv => swriteI s.next kv.1 (jvalToIVal kv.2) st)
                    (salloc (Cell.icell interim) s).2)).2.mem =
                    nset (scl.foldl (fun st kv => swriteI s.next kv.1 (jvalToIVal kv.2) st)
                      (salloc (Cell.icell interim) s).2).mem
                    (scl.foldl (fun st kv => swriteI s.next kv.1 (jvalToIVal kv.2) st)
                      (salloc (Cell.icell interim) s).2).next (Cell.jcell m) from rfl,
                  nlookup_nset_self]
  · by_cases hb2 : hcs = true
    · have hsce : scl.isEmpty = true := by
        by_contra hc
        exact hb1 ⟨hb2, hc⟩
      have hscl : scl = [] := by simpa using hsce
      have hH : applySchemaH env fuel ri hcs scl base ps s =
          (.ok ((salloc (Cell.jcell (JVal.vobj (objSpread base))) s).1),
           (salloc (Cell.jcell (JVal.vobj (objSpread base))) s).2) := by
        simp [applySchemaH, hb2, hscl]
      have hP : applySchemaPure env fuel inst hcs scl base ps =
          .ok (.vobj (objSpread base)) := by
        simp [applySchemaPure, hb2, hscl]
      refine ⟨?_, ?_, ?_⟩
      · rw [hH, show (salloc (Cell.jcell (JVal.vobj (objSpread base))) s).2.next =
            s.next + 1 from rfl]
        omega
      · intro r hr
        have hnr : ¬ s.next = r := fun hh => absurd (hh ▸ hr) (lt_irrefl _)
        rw [hH, show (salloc (Cell.jcell (JVal.vobj (objSpread base))) s).2.mem =
            nset s.mem s.next (Cell.jcell (JVal.vobj (objSpread base))) from rfl]
        exact nlookup_nset_ne s.mem s.next r _ hnr
      · simp only [hP, hH]
        refine ⟨_, rfl, ?_, ?_, ?_⟩
        · rw [show (salloc (Cell.jcell (JVal.vobj (objSpread base))) s).1 =
              s.next from rfl]
        · rw [show (salloc (Cell.jcell (JVal.vobj (objSpread base))) s).1 =
              s.next from rfl,
            show (salloc (Cell.jcell (JVal.vobj (objSpread base))) s).2.next =
              s.next + 1 from rfl]
          omega
        · rw [show (salloc (Cell.jcell (JVal.vobj (objSpread base))) s).1 =
              s.next from rfl]
          simp [sreadJ, show (salloc (Cell.jcell (JVal.vobj (objSpread base))) s).2.mem =
              nset s.mem s.next (Cell.jcell (JVal.vobj (objSpread base))) from rfl,
            nlookup_nset_self]
    · have hcsf : hcs = false := by
        cases hcs with
        | false => rfl
        | true => exact absurd rfl hb2
      have hrd0 : sreadJ (salloc (Cell.jcell (JVal.vobj [])) s).2 s.next = .vobj [] := by
        simp [sreadJ, salloc, nlookup_nset_self]
      obtain ⟨hBn, hBf, hBc⟩ := foldl_fieldscopy_spec s.next base ps.fields
        (salloc (Cell.jcell (JVal.vobj [])) s).2 [] hrd0
      have hBc2 : sreadJ (ps.fields.foldl (fun st kf =>
          match jGet base kf.1 with
          | some v => swriteJ s.next kf.1 v st
          | none => st) (salloc (Cell.jcell (JVal.vobj [])) s).2) s.next =
          .vobj (mergedFromFields ps.fields base) := by
        rw [hBc]
        rfl
      have hBnn : (ps.fields.foldl (fun st kf =>
          match jGet base kf.1 with
          | some v => swriteJ s.next kf.1 v st
          | none => st) (salloc (Cell.jcell (JVal.vobj [])) s).2).next = s.next + 1 := by
        rw [hBn]
        rfl
      have hBfr : ∀ r, r < s.next →
          nlookup (ps.fields.foldl (fun st kf =>
            match jGet base kf.1 with
            | some v => swriteJ s.next kf.1 v st
            | none => st) (salloc (Cell.jcell (JVal.vobj [])) s).2).mem r =
          nlookup s.mem r := by
        intro r hr
        have hnr : ¬ s.next = r := fun hh => absurd (hh ▸ hr) (lt_irrefl _)
        rw [hBf r hnr, show (salloc (Cell.jcell (JVal.vobj [])) s).2.mem =
            nset s.mem s.next (Cell.jcell (JVal.vobj [])) from rfl]
        exact nlookup_nset_ne s.mem s.next r _ hnr
      cases hek : ps.expandoKey with
      | none =>
          obtain ⟨hCn, hCf, hCc⟩ := foldl_scapply_spec s.next scl
            (ps.fields.foldl (fun st kf =>
              match jGet base kf.1 with
              | some v => swriteJ s.next kf.1 v st
              | none => st) (salloc (Cell.jcell (JVal.vobj [])) s).2)
            (mergedFromFields ps.fields base) hBc2
          have hH : applySchemaH env fuel ri hcs scl base ps s =
              (.ok s.next, scl.foldl (fun st kv => swriteJ s.next kv.1 kv.2 st)
                (ps.fields.foldl (fun st kf =>
                  match jGet base kf.1 with
                  | some v => swriteJ s.next kf.1 v st
                  | none => st) (salloc (Cell.jcell (JVal.vobj [])) s).2)) := by
            simp [applySchemaH, hcsf, hek,
              show (salloc (Cell.jcell (JVal.vobj [])) s).1 = s.next from rfl]
          have hP : applySchemaPure env fuel inst hcs scl base ps =
              .ok (.vobj (scl.foldl (fun acc kv => objSet acc kv.1 kv.2)
                (mergedFromFields ps.fields base))) := by
            simp [applySchemaPure, hcsf, hek]
          refine ⟨?_, ?_, ?_⟩
          · rw [hH]
            simp only [hCn, hBnn]
            exact Nat.le_succ s.next
          · intro r hr
            rw [hH]
            have hnr : ¬ s.next = r := fun hh => absurd (hh ▸ hr) (lt_irrefl _)
            rw [hCf r hnr]
            exact hBfr r hr
          · simp only [hP, hH]
            exact ⟨s.next, rfl, le_refl _, by rw [hCn, hBnn]; omega, hCc⟩
      | some ek =>
          cases hgb : jGet base ek with
          | none =>
              obtain ⟨hCn, hCf, hCc⟩ := foldl_scapply_spec s.next scl
                (ps.fields.foldl (fun st kf =>
                  match jGet base kf.1 with
                  | some v => swriteJ s.next kf.1 v st
                  | none => st) (salloc (Cell.jcell (JVal.vobj [])) s).2)
                (mergedFromFields ps.fields base) hBc2
              have hH : applySchemaH env fuel ri hcs scl base ps s =
                  (.ok s.next, scl.foldl (fun st kv => swriteJ s.next kv.1 kv.2 st)
                    (ps.fields.foldl (fun st kf =>
                      match jGet base kf.1 with
                      | some v => swriteJ s.next kf.1 v st
                      | none => st) (salloc (Cell.jcell (JVal.vobj [])) s).2)) := by
                simp [applySchemaH, hcsf, hek, hgb,
                  show (salloc (Cell.jcell (JVal.vobj [])) s).1 = s.next from rfl]
              have hP : applySchemaPure env fuel inst hcs scl base ps =
                  .ok (.vobj (scl.foldl (fun acc kv => objSet acc kv.1 kv.2)
                    (mergedFromFields ps.fields base))) := by
                simp [applySchemaPure, hcsf, hek, hgb]
              refine ⟨?_, ?_, ?_⟩
              · rw [hH]
                simp only [hCn, hBnn]
                exact Nat.le_succ s.next
              · intro r hr
                rw [hH]
                have hnr : ¬ s.next = r := fun hh => absurd (hh ▸ hr) (lt_irrefl _)
                rw [hCf r hnr]
                exact hBfr r hr
              · simp only [hP, hH]
                exact ⟨s.next, rfl, le_refl _, by rw [hCn, hBnn]; omega, hCc⟩
          | some v =>
              have hDc : sreadJ (swriteJ s.next ek v
                  (ps.fields.foldl (fun st kf =>
                    match jGet base kf.1 with
                    | some v2 => swriteJ s.next kf.1 v2 st
                    | none => st) (salloc (Cell.jcell (JVal.vobj [])) s).2)) s.next =
                  .vobj (objSet (mergedFromFields ps.fields base) ek v) := by
                rw [sreadJ_swriteJ_self, hBc2]
                simp [jobjSet]
              obtain ⟨hCn, hCf, hCc⟩ := foldl_scapply_spec s.next scl
                (swriteJ s.next ek v
                  (ps.fields.foldl (fun st kf =>
                    match jGet base kf.1 with
                    | some v2 => swriteJ s.next kf.1 v2 st
                    | none => st) (salloc (Cell.jcell (JVal.vobj [])) s).2))
                (objSet (mergedFromFields ps.fields base) ek v) hDc
              have hH : applySchemaH env fuel ri hcs scl base ps s =
                  (.ok s.next, scl.foldl (fun st kv => swriteJ s.next kv.1 kv.2 st)
                    (swriteJ s.next ek v
                      (ps.fields.foldl (fun st kf =>
                        match jGet base kf.1 with
                        | some v2 => swriteJ s.next kf.1 v2 st
                        | none => st) (salloc (Cell.jcell (JVal.vobj [])) s).2))) := by
                simp [applySchemaH, hcsf, hek, hgb,
                  show (salloc (Cell.jcell (JVal.vobj [])) s).1 = s.next from rfl]
              have hP : applySchemaPure env fuel inst hcs scl base ps =
                  .ok (.vobj (scl.foldl (fun acc kv => objSet acc kv.1 kv.2)
                    (objSet (mergedFromFields ps.fields base) ek v))) := by
                simp [applySchemaPure, hcsf, hek, hgb]
              refine ⟨?_, ?_, ?_⟩
              · rw [hH]
                simp only [hCn, swriteJ_next, hBnn]
                exact Nat.le_succ s.next
              · intro r hr
                rw [hH]
                have hnr : ¬ s.next = r := fun hh => absurd (hh ▸ hr) (lt_irrefl _)
                rw [hCf r hnr, nlookup_swriteJ_ne _ _ _ _ r hnr]
                exact hBfr r hr
              · simp only [hP, hH]
                exact ⟨s.next, rfl, le_refl _,
                  by rw [hCn, swriteJ_next, hBnn]; omega, hCc⟩

/-- The heap expando-merge phase refines the pure one: the counter never
shrinks, the only pre-existing reference it writes is the merged snapshot
itself, and the merged snapshot ends up holding the pure merge result. -/
theorem mergeExpandoH_spec (removeNulls : Bool) (ps : ParsedSchema) (base : JVal)
    (ec : Option (List (String × JVal))) (rm : Nat) (s : Store) (merged : JVal)
    (hrm : rm < s.next) (hread : sreadJ s rm = merged) :
    s.next ≤ (mergeExpandoH removeNulls ps base ec rm s).next ∧
    (∀ r, r < s.next → ¬ r = rm →
      nlookup (mergeExpandoH removeNulls ps base ec rm s).mem r = nlookup s.mem r) ∧
    sreadJ (mergeExpandoH removeNulls ps base ec rm s) rm =
      mergeExpandoPure removeNulls ps base ec merged := by
  cases hek : ps.expandoKey with
  | none =>
      refine ⟨?_, ?_, ?_⟩ <;> simp [mergeExpandoH, mergeExpandoPure, hek, hread]
  | some ek =>
      cases ec with
      | none =>
          cases hgb : jGet base ek with
          | some v =>
              have hH : mergeExpandoH removeNulls ps base none rm s = swriteJ rm ek v s := by
                simp [mergeExpandoH, hek, hgb]
              refine ⟨by rw [hH, swriteJ_next], ?_, ?_⟩
              · intro r hr hne
                rw [hH]
                exact nlookup_swriteJ_ne rm ek v s r (fun hh => hne hh.symm)
              · rw [hH, sreadJ_swriteJ_self, hread]
                simp [mergeExpandoPure, hek, hgb]
          | none =>
              refine ⟨?_, ?_, ?_⟩ <;>
                simp [mergeExpandoH, mergeExpandoPure, hek, hgb, hread]
      | some mm =>
          have hrd0 : sreadJ (salloc (Cell.jcell (JVal.vobj (baseExpandoOf base ek))) s).2
              s.next = .vobj (baseExpandoOf base ek) := by
            simp [sreadJ, salloc, nlookup_nset_self]
          obtain ⟨hln, hlf, hlc⟩ := foldl_expando_spec s.next removeNulls mm
            (salloc (Cell.jcell (JVal.vobj (baseExpandoOf base ek))) s).2
            (baseExpandoOf base ek) hrd0
          have hH : mergeExpandoH removeNulls ps base (some mm) rm s =
              swriteJ rm ek
                (sreadJ (mm.foldl (fun st kv =>
                    if kv.2 = JVal.vnull ∧ removeNulls = true then sdelJ s.next kv.1 st
                    else swriteJ s.next kv.1 kv.2 st)
                  (salloc (Cell.jcell (JVal.vobj (baseExpandoOf base ek))) s).2) s.next)
                (mm.foldl (fun st kv =>
                    if kv.2 = JVal.vnull ∧ removeNulls = true then sdelJ s.next kv.1 st
                    else swriteJ s.next kv.1 kv.2 st)
                  (salloc (Cell.jcell (JVal.vobj (baseExpandoOf base ek))) s).2) := by
            simp [mergeExpandoH, hek, salloc]
          have hnrm : ¬ s.next = rm := fun hh => absurd (hh ▸ hrm) (lt_irrefl _)
          refine ⟨?_, ?_, ?_⟩
          · rw [hH, swriteJ_next, hln]
            simp [salloc]
          · intro r hr hne
            have hnr : ¬ s.next = r := fun hh => absurd (hh ▸ hr) (lt_irrefl _)
            rw [hH, nlookup_swriteJ_ne rm ek _ _ r (fun hh => hne hh.symm), hlf r hnr]
            simp [salloc]
            exact nlookup_nset_ne s.mem s.next r _ hnr
          · have hfr : nlookup (mm.foldl (fun st kv =>
                if kv.2 = JVal.vnull ∧ removeNulls = true then sdelJ s.next kv.1 st
                else swriteJ s.next kv.1 kv.2 st)
                (salloc (Cell.jcell (JVal.vobj (baseExpandoOf base ek))) s).2).mem rm =
                nlookup s.mem rm := by
              rw [hlf rm hnrm]
              simp [salloc]
              exact nlookup_nset_ne s.mem s.next rm _ hnrm
            rw [hH, sreadJ_swriteJ_self]
            have hs6rm : sreadJ (mm.foldl (fun st kv =>
                if kv.2 = JVal.vnull ∧ removeNulls = true then sdelJ s.next kv.1 st
                else swriteJ s.next kv.1 kv.2 st)
                (salloc (Cell.jcell (JVal.vobj (baseExpandoOf base ek))) s).2) rm =
                merged := by
              rw [sreadJ, hfr, ← hread, sreadJ]
            rw [hs6rm, hlc]
            simp [mergeExpandoPure, hek]

/-- The heap merged-snapshot phase refines the pure `cloneWithMerged`:
the counter never shrinks, every pre-existing cell — the original
instance among them — is untouched, errors agree, and on success the
returned reference is fresh and holds the pure merged snapshot. -/
theorem cloneWithMergedH_spec (env : Env) (fuel : Nat) (ri : Nat)
    (changes : List (String × JVal)) (options : CWOptions) (s : Store) (inst : IVal)
    (hri : nlookup s.mem ri = some (Cell.icell inst)) (hlt : ri < s.next) :
    s.next ≤ (cloneWithMergedH env fuel ri changes options s).2.next ∧
    (∀ r, r < s.next →
      nlookup (cloneWithMergedH env fuel ri changes options s).2.mem r =
        nlookup s.mem r) ∧
    (match cloneWithMerged env fuel inst changes options with
     | .error e => (cloneWithMergedH env fuel ri changes options s).1 = .error e
     | .ok merged => ∃ rm, (cloneWithMergedH env fuel ri changes options s).1 = .ok rm ∧
         s.next ≤ rm ∧ rm < (cloneWithMergedH env fuel ri changes options s).2.next ∧
         sreadJ (cloneWithMergedH env fuel ri changes options s).2 rm = merged) := by
  have hsr : sreadI s ri = inst := by simp [sreadI, hri]
  rw [cloneWithMerged_eq]
  cases hpc : parseClassOf env inst [] with
  | error e =>
      have hH : cloneWithMergedH env fuel ri changes options s = (.error e, s) := by
        simp [cloneWithMergedH, hsr, hpc]
      simp [hH]
  | ok ps =>
    cases hser : serialiseInstance env fuel inst none rootPath defaultSOptions with
    | error e =>
        have hH : cloneWithMergedH env fuel ri changes options s = (.error e, s) := by
          simp [cloneWithMergedH, hsr, hpc, hser]
        simp [hH]
    | ok base =>
        have hrd0 : sreadJ (salloc (Cell.jcell (JVal.vobj [])) s).2 s.next = .vobj [] := by
          simp [sreadJ, salloc, nlookup_nset_self]
        obtain ⟨hSn, hSf, hSc⟩ := splitChangesH_spec ps s.next changes none
          (salloc (Cell.jcell (JVal.vobj [])) s).2 [] hrd0
        cases hps2 : splitChangesH ps s.next changes none
            (salloc (Cell.jcell (JVal.vobj [])) s).2 with
        | mk res1 s2 =>
        simp only [hps2] at hSn hSf hSc
        have hs2n : s2.next = s.next + 1 := by
          rw [hSn]
          rfl
        have hfr2 : ∀ r, r < s.next → nlookup s2.mem r = nlookup s.mem r := by
          intro r hr
          have hnr : ¬ s.next = r := fun hh => absurd (hh ▸ hr) (lt_irrefl _)
          rw [hSf r hnr, show (salloc (Cell.jcell (JVal.vobj [])) s).2.mem =
              nset s.mem s.next (Cell.jcell (JVal.vobj [])) from rfl]
          exact nlookup_nset_ne s.mem s.next r _ hnr
        cases hsp : splitChanges ps changes [] none with
        | error e =>
            simp only [hsp] at hSc
            subst hSc
            have hH : cloneWithMergedH env fuel ri changes options s = (.error e, s2) := by
              simp [cloneWithMergedH, hsr, hpc, hser,
                show (salloc (Cell.jcell (JVal.vobj [])) s).1 = s.next from rfl, hps2]
            refine ⟨?_, ?_, ?_⟩
            · rw [hH]
              dsimp only
              omega
            · intro r hr
              rw [hH]
              dsimp only
              exact hfr2 r hr
            · simp only [hsp, hH]
        | ok p =>
            obtain ⟨sc, ec⟩ := p
            simp only [hsp] at hSc
            obtain ⟨hres1, hsc2⟩ := hSc
            subst hres1
            have hri2 : nlookup s2.mem ri = some (Cell.icell inst) := by
              rw [hfr2 ri hlt]
              exact hri
            obtain ⟨hAn, hAf, hAc⟩ := applySchemaH_spec env fuel ri
              ((serialiseHookOf env inst).isSome) sc base ps s2 inst hri2
            cases hpa : applySchemaH env fuel ri ((serialiseHookOf env inst).isSome)
                sc base ps s2 with
            | mk res2 sb =>
            simp only [hpa] at hAn hAf hAc
            cases hap : applySchemaPure env fuel inst ((serialiseHookOf env inst).isSome)
                sc base ps with
            | error e =>
                simp only [hap] at hAc
                subst hAc
                have hH : cloneWithMergedH env fuel ri changes options s =
                    (.error e, sb) := by
                  simp [cloneWithMergedH, hsr, hpc, hser,
                    show (salloc (Cell.jcell (JVal.vobj [])) s).1 = s.next from rfl,
                    hps2, hsc2, objSpread, hpa]
                refine ⟨?_, ?_, ?_⟩
                · rw [hH]
                  dsimp only
                  omega
                · intro r hr
                  rw [hH]
                  dsimp only
                  rw [hAf r (by omega)]
                  exact hfr2 r hr
                · simp only [hsp, hap, hH]
            | ok merged =>
                simp only [hap] at hAc
                obtain ⟨rm, hres2, hrmge, hrmlt, hrd⟩ := hAc
                subst hres2
                obtain ⟨hEn, hEf, hEc⟩ := mergeExpandoH_spec
                  (options.removeNullsFromExpando.getD true) ps base ec rm sb merged
                  hrmlt hrd
                have hH : cloneWithMergedH env fuel ri changes options s =
                    (.ok rm, mergeExpandoH (options.removeNullsFromExpando.getD true)
                      ps base ec rm sb) := by
                  simp [cloneWithMergedH, hsr, hpc, hser,
                    show (salloc (Cell.jcell (JVal.vobj [])) s).1 = s.next from rfl,
                    hps2, hsc2, objSpread, hpa]
                refine ⟨?_, ?_, ?_⟩
                · rw [hH]
                  dsimp only
                  omega
                · intro r hr
                  have hnrm : ¬ r = rm := by omega
                  rw [hH]
                  dsimp only
                  rw [hEf r (by omega) hnrm, hAf r (by omega)]
                  exact hfr2 r hr
                · simp only [hsp, hap, hH]
                  exact ⟨rm, rfl, by omega, by omega, hEc⟩


/-- C6: `cloneWith` never mutates the original instance or its expando
map, and the result is always a new instance.  Over the instrumented heap
— where every object the mutator creates is an allocation and every
assignment it performs is a write through a reference that could in
principle target any cell — running `cloneWithH` on an instance reference
leaves every pre-existing cell (`r < s.next`) with exactly its old
contents: the original instance, its expando map and everything else in
scope are reference- and value-identical before and after, on success and
on every error path.  The outcome refines the pure `cloneWith`: errors
agree, and a successful run returns a freshly allocated reference —
distinct from the original and absent from the pre-existing heap —
holding exactly the pure `cloneWith` result.  The one exception the
source itself makes is the null/undefined pass-through, which returns the
argument unchanged rather than a new instance. -/
theorem c6_clone_no_mutation (env : Env) (fuel : Nat) (s : Store) (ri : Nat)
    (inst : IVal) (changes : List (String × JVal)) (options : CWOptions)
    (hri : nlookup s.mem ri = some (Cell.icell inst)) (hlt : ri < s.next)
    (hwf : ∀ r, s.next ≤ r → nlookup s.mem r = none) :
    (∀ r, r < s.next →
       nlookup (cloneWithH env fuel ri changes options s).2.mem r = nlookup s.mem r) ∧
    (match cloneWith env fuel inst changes options with
     | .error e => (cloneWithH env fuel ri changes options s).1 = .error e
     | .ok v =>
         if inst = .inull then (cloneWithH env fuel ri changes options s).1 = .ok ri
         else ∃ rr, (cloneWithH env fuel ri changes options s).1 = .ok rr ∧
           s.next ≤ rr ∧ ¬ rr = ri ∧ nlookup s.mem rr = none ∧
           nlookup (cloneWithH env fuel ri changes options s).2.mem rr =
             some (Cell.icell v)) := by
  have hsr : sreadI s ri = inst := by simp [sreadI, hri]
  by_cases hnull : inst = .inull
  · subst hnull
    have hH : cloneWithH env fuel ri changes options s = (.ok ri, s) := by
      simp [cloneWithH, hsr]
    have hP : cloneWith env fuel .inull changes options = .ok .inull := by
      simp [cloneWith]
    refine ⟨fun r _ => by rw [hH], ?_⟩
    simp only [hP, hH]
    simp
  · obtain ⟨hmn, hmf, hmc⟩ :=
      cloneWithMergedH_spec env fuel ri changes options s inst hri hlt
    cases hmh : cloneWithMergedH env fuel ri changes options s with
    | mk res1 s2 =>
    simp only [hmh] at hmn hmf hmc
    cases hcm : cloneWithMerged env fuel inst changes options with
    | error e =>
        simp only [hcm] at hmc
        subst hmc
        have hH : cloneWithH env fuel ri changes options s = (.error e, s2) := by
          simp [cloneWithH, hsr, hnull, hmh]
        have hP : cloneWith env fuel inst changes options = .error e := by
          simp [cloneWith, hnull, hcm]
        refine ⟨?_, ?_⟩
        · intro r hr
          rw [hH]
          dsimp only
          exact hmf r hr
        · simp only [hP, hH]
    | ok merged =>
        simp only [hcm] at hmc
        obtain ⟨rm, hres1, hrmge, hrmlt, hrd⟩ := hmc
        subst hres1
        cases hci : createInstance env fuel (some merged)
            (some (.cls (ctorNameOf inst))) none cloneWithPath cloneHydrateOptions with
        | error e =>
            have hH : cloneWithH env fuel ri changes options s = (.error e, s2) := by
              simp [cloneWithH, hsr, hnull, hmh, hrd, hci]
            have hP : cloneWith env fuel inst changes options = .error e := by
              simp [cloneWith, hnull, hcm, hci]
            refine ⟨?_, ?_⟩
            · intro r hr
              rw [hH]
              dsimp only
              exact hmf r hr
            · simp only [hP, hH]
        | ok p =>
            obtain ⟨v, errs⟩ := p
            have hH : cloneWithH env fuel ri changes options s =
                (.ok ((salloc (Cell.icell v) s2).1), (salloc (Cell.icell v) s2).2) := by
              simp [cloneWithH, hsr, hnull, hmh, hrd, hci]
            have hP : cloneWith env fuel inst changes options = .ok v := by
              simp [cloneWith, hnull, hcm, hci]
            refine ⟨?_, ?_⟩
            · intro r hr
              rw [hH, show (salloc (Cell.icell v) s2).2.mem =
                  nset s2.mem s2.next (Cell.icell v) from rfl]
              have hnr : ¬ s2.next = r := by omega
              rw [nlookup_nset_ne _ _ _ _ hnr]
              exact hmf r hr
            · simp only [hP]
              rw [if_neg hnull]
              refine ⟨(salloc (Cell.icell v) s2).1, by rw [hH], ?_, ?_, ?_, ?_⟩
              · rw [show (salloc (Cell.icell v) s2).1 = s2.next from rfl]
                omega
              · rw [show (salloc (Cell.icell v) s2).1 = s2.next from rfl]
                omega
              · rw [show (salloc (Cell.icell v) s2).1 = s2.next from rfl]
                exact hwf s2.next (by omega)
              · rw [hH, show (salloc (Cell.icell v) s2).1 = s2.next from rfl,
                    show (salloc (Cell.icell v) s2).2.mem =
                      nset s2.mem s2.next (Cell.icell v) from rfl]
                exact nlookup_nset_self s2.mem s2.next (Cell.icell v)

/-- A two-object pre-existing heap for the C6 witness: the original
instance (with its expando map) lives in cell 0. -/
def storeC6W : Store :=
  { next := 1
    mem := [(0, Cell.icell (.iinst "WithExpando"
      [("id", .istr "a"), ("extra", .iobj [("x", .istr "y")])]))] }

/-- C6 witness: cloning an expando-carrying instance with a schema change
leaves cell 0 untouched and yields a fresh result reference. -/
theorem c6_clone_no_mutation_witness :
    (nlookup storeC6W.mem 0 = some (Cell.icell (IVal.iinst "WithExpando"
        [("id", IVal.istr "a"), ("extra", IVal.iobj [("x", IVal.istr "y")])])) ∧
      0 < storeC6W.next ∧
      (∀ r, storeC6W.next ≤ r → nlookup storeC6W.mem r = none)) ∧
    ((∀ r, r < storeC6W.next →
       nlookup (cloneWithH envExpando 4 0 [("id", JVal.vstr "b")] defaultCWOptions
           storeC6W).2.mem r = nlookup storeC6W.mem r) ∧
     (match cloneWith envExpando 4 (IVal.iinst "WithExpando"
         [("id", IVal.istr "a"), ("extra", IVal.iobj [("x", IVal.istr "y")])])
         [("id", JVal.vstr "b")] defaultCWOptions with
      | .error e => (cloneWithH envExpando 4 0 [("id", JVal.vstr "b")] defaultCWOptions
          storeC6W).1 = .error e
      | .ok v =>
          if (IVal.iinst "WithExpando"
              [("id", IVal.istr "a"), ("extra", IVal.iobj [("x", IVal.istr "y")])]) =
              IVal.inull then
            (cloneWithH envExpando 4 0 [("id", JVal.vstr "b")] defaultCWOptions
              storeC6W).1 = .ok 0
          else ∃ rr, (cloneWithH envExpando 4 0 [("id", JVal.vstr "b")] defaultCWOptions
              storeC6W).1 = .ok rr ∧
            storeC6W.next ≤ rr ∧ ¬ rr = 0 ∧ nlookup storeC6W.mem rr = none ∧
            nlookup (cloneWithH envExpando 4 0 [("id", JVal.vstr "b")] defaultCWOptions
                storeC6W).2.mem rr = some (Cell.icell v))) :=
  ⟨⟨by simp [storeC6W, nlookup], by simp [storeC6W],
    fun r hr => by
      simp only [storeC6W] at hr
      simp [storeC6W, nlookup]
      omega⟩,
   c6_clone_no_mutation envExpando 4 storeC6W 0
     (.iinst "WithExpando" [("id", .istr "a"), ("extra", .iobj [("x", .istr "y")])])
     [("id", JVal.vstr "b")] defaultCWOptions
     (by simp [storeC6W, nlookup]) (by simp [storeC6W])
     (fun r hr => by
       simp only [storeC6W] at hr
       simp [storeC6W, nlookup]
       omega)⟩


/-!
## C8 — dual expando fields across the inheritance chain
-/

/-- The flattened declaration sequence of the decorator levels, in the
order `parseClass` walks it (most derived level first). -/
def declsOf (levels : List Level) : List (String × TSField) :=
  levels.foldr (fun lvl acc => lvl.schemaFields ++ acc) []

/-- Decorator-walk clash: with the expando key already set to `k`, an
unshadowed first declaration of a distinct key `k2` as expando makes the
walk fail with the multiple-expando configuration error. -/
theorem parseWalkDeco_clash (k k2 : String) (f2 : TSField)
    (hf2 : f2.fieldType = TSType.Expando) (hne : k2 ≠ k) :
    ∀ entries st, st.expandoKey = some k →
      alookup st.fields k2 = none → alookup entries k2 = some f2 →
      parseWalkDeco st entries = .error multipleExpandoErr := by
  intro entries
  induction entries with
  | nil => intro st _ _ h; simp [alookup] at h
  | cons e rest ih =>
      intro st hek hsf he
      obtain ⟨key, f⟩ := e
      by_cases hk : key = k2
      · subst hk
        have hf : f = f2 := by simpa [alookup] using he
        subst hf
        simp [parseWalkDeco, parseStepDeco, hsf, hek, hf2, Ne.symm hne, bind, Except.bind]
      · have he2 : alookup rest k2 = some f2 := by simpa [alookup, hk] using he
        by_cases hskip : (alookup st.fields key).isSome
        · simpa [parseWalkDeco, parseStepDeco, hskip, bind, Except.bind]
            using ih st hek hsf he2
        · by_cases hexp : f.fieldType = TSType.Expando
          · by_cases hkk : k = key
            · simpa [parseWalkDeco, parseStepDeco, hskip, hexp, hek, hkk, bind, Except.bind]
                using ih { st with expandoKey := some key } (by simp [hkk]) hsf he2
            · simp [parseWalkDeco, parseStepDeco, hskip, hexp, hek, hkk, bind, Except.bind]
          · have hsf2 : alookup (objSet st.fields key f) k2 = none := by
              rw [alookup_objSet_ne _ _ _ _ hk]
              exact hsf
            simpa [parseWalkDeco, parseStepDeco, hskip, hexp, bind, Except.bind]
              using ih { st with fields := objSet st.fields key f } hek hsf2 he2

/-- Decorator-walk dual-expando error: two distinct keys whose first
declarations (both unshadowed by the starting fields) are expandos make
the walk fail with the multiple-expando configuration error. -/
theorem parseWalkDeco_dual_expando (k1 k2 : String) (f1 f2 : TSField)
    (hf1 : f1.fieldType = TSType.Expando) (hf2 : f2.fieldType = TSType.Expando)
    (hne : k1 ≠ k2) :
    ∀ entries st, st.expandoKey = none →
      alookup st.fields k1 = none → alookup st.fields k2 = none →
      alookup entries k1 = some f1 → alookup entries k2 = some f2 →
      parseWalkDeco st entries = .error multipleExpandoErr := by
  intro entries
  induction entries with
  | nil => intro st _ _ _ h1 _; simp [alookup] at h1
  | cons e rest ih =>
      intro st hek hs1 hs2 h1 h2
      obtain ⟨key, f⟩ := e
      by_cases hk1 : key = k1
      · subst hk1
        have hf : f = f1 := by simpa [alookup] using h1
        subst hf
        have h22 : alookup rest k2 = some f2 := by simpa [alookup, hne] using h2
        simpa [parseWalkDeco, parseStepDeco, hs1, hek, hf1, bind, Except.bind]
          using parseWalkDeco_clash key k2 f2 hf2 (Ne.symm hne) rest
            { st with expandoKey := some key } rfl hs2 h22
      · by_cases hk2 : key = k2
        · subst hk2
          have hf : f = f2 := by simpa [alookup] using h2
          subst hf
          have h12 : alookup rest k1 = some f1 := by
            simpa [alookup, Ne.symm hne] using h1
          simpa [parseWalkDeco, parseStepDeco, hs2, hek, hf2, bind, Except.bind]
            using parseWalkDeco_clash key k1 f1 hf1 hne rest
              { st with expandoKey := some key } rfl hs1 h12
        · have h12 : alookup rest k1 = some f1 := by simpa [alookup, hk1] using h1
          have h22 : alookup rest k2 = some f2 := by simpa [alookup, hk2] using h2
          by_cases hskip : (alookup st.fields key).isSome
          · simpa [parseWalkDeco, parseStepDeco, hskip, bind, Except.bind]
              using ih st hek hs1 hs2 h12 h22
          · by_cases hexp : f.fieldType = TSType.Expando
            · simpa [parseWalkDeco, parseStepDeco, hskip, hexp, hek, bind, Except.bind]
                using parseWalkDeco_clash key k1 f1 hf1 (fun h => hk1 h.symm) rest
                  { st with expandoKey := some key } rfl hs1 h12
            · have hs1b : alookup (objSet st.fields key f) k1 = none := by
                rw [alookup_objSet_ne _ _ _ _ hk1]
                exact hs1
              have hs2b : alookup (objSet st.fields key f) k2 = none := by
                rw [alookup_objSet_ne _ _ _ _ hk2]
                exact hs2
              simpa [parseWalkDeco, parseStepDeco, hskip, hexp, bind, Except.bind]
                using ih { st with fields := objSet st.fields key f } hek hs1b hs2b h12 h22

/-- The decorator walk over a concatenation is the sequential composition
of the walks. -/
theorem parseWalkDeco_append (a b : List (String × TSField)) :
    ∀ st, parseWalkDeco st (a ++ b) =
      match parseWalkDeco st a with
      | .error e => .error e
      | .ok st2 => parseWalkDeco st2 b := by
  induction a with
  | nil => intro st; simp [parseWalkDeco]
  | cons e rest ih =>
      intro st
      cases hst : parseStepDeco st e with
      | error er => simp [parseWalkDeco, hst, bind, Except.bind]
      | ok st1 => simp [parseWalkDeco, hst, bind, Except.bind, ih st1]

/-- The level fold of `parseClass` is the decorator walk over the
flattened declaration sequence. -/
theorem parseLevelsFold_join (levels : List Level) :
    ∀ st, levels.foldlM (fun st lvl => parseWalkDeco st lvl.schemaFields) st =
      parseWalkDeco st (declsOf levels) := by
  induction levels with
  | nil => intro st; simp [declsOf, parseWalkDeco, pure, Except.pure]
  | cons lvl rest ih =>
      intro st
      rw [show declsOf (lvl :: rest) = lvl.schemaFields ++ declsOf rest from rfl,
          parseWalkDeco_append]
      cases hw : parseWalkDeco st lvl.schemaFields with
      | error e => simp [List.foldlM, hw, bind, Except.bind]
      | ok st1 => simp [List.foldlM, hw, bind, Except.bind, ih st1]

/-- C8, counterexample to the claim as stated: two distinct `Expando`
fields (`a` and `b`) occur in the inheritance chain of the type — both on
the base level — yet `parseClass` raises no configuration error, because
the derived level shadows `a` with a plain value field and the shadowed
expando declaration is skipped before the duplicate check runs.  The
resolution succeeds with `b` as the expando key. -/
theorem c8_shadowed_expando_counterexample :
    expandoFld.fieldType = TSType.Expando ∧ ("a" : String) ≠ "b" ∧
    parseClass [lvlOf [("a", valueReq)], lvlOf [("a", expandoFld), ("b", expandoFld)]] [] [] =
      .ok { fields := [("a", valueReq)]
            expandoKey := some "b"
            includedKeys := [] } :=
  ⟨rfl, by decide, rfl⟩

/-- C8 (amended): two distinct expando declarations that are each the
first declaration of their key in the flattened decorator levels of the
inheritance chain make `parseClass` fail with the multiple-expando
configuration error — at schema-resolution time, before any instance is
touched, never silently ignored.  (Without the first-declaration
condition the claim fails by shadowing:
`c8_shadowed_expando_counterexample`.) -/
theorem c8_dual_expando_amended (levels : List Level)
    (protoEnum ownTS : List (String × TSField)) (k1 k2 : String) (f1 f2 : TSField)
    (hf1 : f1.fieldType = TSType.Expando) (hf2 : f2.fieldType = TSType.Expando)
    (hne : k1 ≠ k2)
    (h1 : alookup (declsOf levels) k1 = some f1)
    (h2 : alookup (declsOf levels) k2 = some f2) :
    parseClass levels protoEnum ownTS = .error multipleExpandoErr := by
  have hw : parseWalkDeco { fields := [], expandoKey := none } (declsOf levels) =
      .error multipleExpandoErr :=
    parseWalkDeco_dual_expando k1 k2 f1 f2 hf1 hf2 hne (declsOf levels)
      { fields := [], expandoKey := none } rfl rfl rfl h1 h2
  simp [parseClass, parseLevelsFold_join, hw, bind, Except.bind]

/-- C8 witness: two unshadowed expando declarations on one level. -/
theorem c8_dual_expando_amended_witness :
    parseClass [lvlOf [("a", expandoFld), ("b", expandoFld)]] [] [] =
      .error multipleExpandoErr :=
  c8_dual_expando_amended [lvlOf [("a", expandoFld), ("b", expandoFld)]] [] []
    "a" "b" expandoFld expandoFld rfl rfl (by decide) rfl rfl


/-!
## C5 — cloneWith expando merge semantics
-/

/-- Keys of `objSet` are the old keys plus the written key. -/
theorem mem_keys_objSet {α : Type} (l : List (String × α)) (k a : String) (v : α) :
    a ∈ (objSet l k v).map Prod.fst ↔ a ∈ l.map Prod.fst ∨ a = k := by
  induction l with
  | nil => simp [objSet]
  | cons e rest ih =>
      obtain ⟨k1, w⟩ := e
      by_cases hk : k1 = k
      · subst hk
        simp [objSet]
        tauto
      · simp [objSet, hk, ih]
        tauto

/-- Keys of `objDelete` come from the old keys. -/
theorem mem_keys_objDelete {α : Type} (l : List (String × α)) (k a : String) :
    a ∈ (objDelete l k).map Prod.fst → a ∈ l.map Prod.fst := by
  induction l with
  | nil => intro h; simp [objDelete] at h
  | cons e rest ih =>
      obtain ⟨k1, w⟩ := e
      by_cases hk : k1 = k
      · intro h
        rw [show objDelete ((k1, w) :: rest) k = rest from by simp [objDelete, hk]] at h
        rw [List.map_cons]
        exact List.mem_cons_of_mem _ h
      · intro h
        rw [show objDelete ((k1, w) :: rest) k = (k1, w) :: objDelete rest k from by
          simp [objDelete, hk]] at h
        rw [List.map_cons] at h ⊢
        rcases List.mem_cons.mp h with h1 | h1
        · exact List.mem_cons.mpr (Or.inl h1)
        · exact List.mem_cons.mpr (Or.inr (ih h1))

/-- `objSet` preserves key uniqueness. -/
theorem nodup_objSet {α : Type} (l : List (String × α)) (k : String) (v : α)
    (h : (l.map Prod.fst).Nodup) : ((objSet l k v).map Prod.fst).Nodup := by
  induction l with
  | nil => simp [objSet]
  | cons e rest ih =>
      obtain ⟨k1, w⟩ := e
      simp only [List.map_cons, List.nodup_cons] at h
      by_cases hk : k1 = k
      · simp only [objSet, if_pos hk, List.map_cons, List.nodup_cons]
        exact ⟨h.1, h.2⟩
      · simp only [objSet, if_neg hk, List.map_cons, List.nodup_cons]
        refine ⟨fun hm => ?_, ih h.2⟩
        rcases (mem_keys_objSet rest k k1 v).mp hm with hm2 | hm2
        · exact h.1 hm2
        · exact hk hm2

/-- `objDelete` preserves key uniqueness. -/
theorem nodup_objDelete {α : Type} (l : List (String × α)) (k : String)
    (h : (l.map Prod.fst).Nodup) : ((objDelete l k).map Prod.fst).Nodup := by
  induction l with
  | nil => simp [objDelete]
  | cons e rest ih =>
      obtain ⟨k1, w⟩ := e
      simp only [List.map_cons, List.nodup_cons] at h
      by_cases hk : k1 = k
      · simp only [objDelete, if_pos hk]
        exact h.2
      · simp only [objDelete, if_neg hk, List.map_cons, List.nodup_cons]
        exact ⟨fun hm => h.1 (mem_keys_objDelete rest k k1 hm), ih h.2⟩

/-- Pointwise characterisation of the expando merge loop: a key of the
supplied map overwrites the base entry, null deletes it when
`removeNulls` holds and overwrites with null otherwise, and keys absent
from the supplied map are untouched. -/
theorem mergeExpando_alookup (removeNulls : Bool) :
    ∀ (m acc : List (String × JVal)) (k : String), (m.map Prod.fst).Nodup →
      (acc.map Prod.fst).Nodup →
      alookup (mergeExpandoEntries removeNulls m acc) k =
        match alookup m k with
        | some v => if v = JVal.vnull ∧ removeNulls then none else some v
        | none => alookup acc k := by
  intro m
  induction m with
  | nil => intro acc k _ _; simp [mergeExpandoEntries, alookup]
  | cons e rest ih =>
      intro acc k hnd hacc
      obtain ⟨k1, v1⟩ := e
      simp only [List.map_cons, List.nodup_cons] at hnd
      by_cases hcond : v1 = JVal.vnull ∧ removeNulls
      · rw [show mergeExpandoEntries removeNulls ((k1, v1) :: rest) acc =
            mergeExpandoEntries removeNulls rest (objDelete acc k1) from by
              simp [mergeExpandoEntries, hcond]]
        rw [ih _ k hnd.2 (nodup_objDelete acc k1 hacc)]
        by_cases hk : k1 = k
        · have hrest : alookup rest k = none := by
            rw [alookup_eq_none_iff]
            rw [hk] at hnd
            exact hnd.1
          rw [hrest]
          simp [alookup, hk, hcond,
            show alookup (objDelete acc k) k = none from hk ▸ alookup_objDelete_self acc k1 hacc]
        · cases hr : alookup rest k with
          | none => simp [alookup, hk, hr, alookup_objDelete_ne _ _ _ hk]
          | some w => simp [alookup, hk, hr]
      · rw [show mergeExpandoEntries removeNulls ((k1, v1) :: rest) acc =
            mergeExpandoEntries removeNulls rest (objSet acc k1 v1) from by
              simp [mergeExpandoEntries, hcond]]
        rw [ih _ k hnd.2 (nodup_objSet acc k1 v1 hacc)]
        by_cases hk : k1 = k
        · have hrest : alookup rest k = none := by
            rw [alookup_eq_none_iff]
            rw [hk] at hnd
            exact hnd.1
          rw [hrest]
          simp [alookup, hk,
            show alookup (objSet acc k v1) k = some v1 from hk ▸ alookup_objSet_self acc k1 v1,
            show ¬ (v1 = JVal.vnull ∧ removeNulls) from hcond]
        · cases hr : alookup rest k with
          | none => simp [alookup, hk, hr, alookup_objSet_ne _ _ _ _ hk]
          | some w => simp [alookup, hk, hr]

/-- C5: the expando-change semantics of `cloneWith`.  (1) A change
supplying a non-map value (the null sentinel or any non-object) for the
expando key makes the change split fatal with the
"expando updates must be a plain object" error, provided the other
changes target legitimate keys.  (2) In the merge itself, keys of the
supplied map overwrite the base expando, a key mapped to the null
sentinel is deleted when `removeNullsFromExpando` is left at its default
(or set), and is kept as null when the option is explicitly `false`;
keys absent from the supplied map are untouched.  (3) On the no-hook
path, a successful `cloneWithMerged` stores exactly that merged map under
the expando key of the merged snapshot. -/
theorem c5_expando_merge_semantics (ps : ParsedSchema) (ek : String)
    (hek : ps.expandoKey = some ek) :
    (∀ changes v, (∀ kv, kv ∈ changes → kv.1 ∉ ps.includedKeys ∧
          (kv.1 ≠ ek → (alookup ps.fields kv.1).isSome)) →
       alookup changes ek = some v → (∀ l, v ≠ JVal.vobj l) →
       ∀ sc eo, splitChanges ps changes sc eo =
         .error { msg := "cloneWith: expando updates must be a plain object"
                  ctx := cloneWithPath }) ∧
    (∀ (removeNulls : Bool) (m acc : List (String × JVal)) (k : String),
       (m.map Prod.fst).Nodup → (acc.map Prod.fst).Nodup →
       alookup (mergeExpandoEntries removeNulls m acc) k =
         match alookup m k with
         | some v => if v = JVal.vnull ∧ removeNulls then none else some v
         | none => alookup acc k) ∧
    (∀ env fuel inst changes options sc m base merged,
       parseClassOf env inst [] = .ok ps →
       serialiseInstance env fuel inst none rootPath defaultSOptions = .ok base →
       serialiseHookOf env inst = none →
       splitChanges ps changes [] none = .ok (sc, some m) →
       cloneWithMerged env fuel inst changes options = .ok merged →
       jGet merged ek =
         some (.vobj (mergeExpandoEntries (options.removeNullsFromExpando.getD true) m
           (match jGet base ek with
            | some (.vobj l) => l
            | _ => [])))) := by
  refine ⟨?_, mergeExpando_alookup, ?_⟩
  · intro changes
    induction changes with
    | nil => intro v _ hv _ sc eo; simp [alookup] at hv
    | cons e rest ih =>
        intro v hall hv hnm sc eo
        obtain ⟨key, w⟩ := e
        have hhead := hall (key, w) (List.mem_cons_self _ _)
        by_cases hk : key = ek
        · have hw : w = v := by simpa [alookup, hk] using hv
          have hinc : ek ∉ ps.includedKeys := by simpa [hk] using hhead.1
          cases w with
          | vobj l => exact absurd hw.symm (hnm l)
          | vnull => simp [splitChanges, hinc, hek, hk]
          | vstr s => simp [splitChanges, hinc, hek, hk]
          | vint n => simp [splitChanges, hinc, hek, hk]
          | vbool b => simp [splitChanges, hinc, hek, hk]
          | varr xs => simp [splitChanges, hinc, hek, hk]
        · have hv2 : alookup rest ek = some v := by simpa [alookup, hk] using hv
          have hall2 : ∀ kv, kv ∈ rest → kv.1 ∉ ps.includedKeys ∧
              (kv.1 ≠ ek → (alookup ps.fields kv.1).isSome) :=
            fun kv hm => hall kv (List.mem_cons_of_mem _ hm)
          obtain ⟨fv, hfv⟩ : ∃ x, alookup ps.fields key = some x :=
            Option.isSome_iff_exists.mp (hhead.2 hk)
          simpa [splitChanges, hhead.1, hek, hfv,
            show ek ≠ key from fun h => hk h.symm]
            using ih v hall2 hv2 hnm (objSet sc key w) eo
  · intro env fuel inst changes options sc m base merged hpc hser hhk hsp hok
    simp only [cloneWithMerged, hpc, hser, hhk, hsp, hek, Option.isSome_none,
      Bool.false_eq_true, false_and, if_false, jobjSet] at hok
    injection hok with hok2
    rw [← hok2]
    simp [jGet, alookup_objSet_self]


/-- C5 witness: on `{id: Value required, extra: Expando}`, supplying the
null sentinel for the expando key is fatal, and a null-valued key in the
supplied map is deleted from the merged expando under the default
option. -/
theorem c5_expando_merge_semantics_witness :
    splitChanges ⟨[("id", valueReq)], some "extra", []⟩ [("extra", JVal.vnull)] [] none =
      .error { msg := "cloneWith: expando updates must be a plain object"
               ctx := cloneWithPath } ∧
    alookup (mergeExpandoEntries true [("a", JVal.vnull)]
      [("a", JVal.vint 1), ("c", JVal.vint 3)]) "a" = none :=
  ⟨(c5_expando_merge_semantics ⟨[("id", valueReq)], some "extra", []⟩ "extra" rfl).1
      [("extra", JVal.vnull)] JVal.vnull
      (by
        intro kv hm
        simp at hm
        subst hm
        exact ⟨List.not_mem_nil _, fun h => absurd rfl h⟩)
      rfl (fun l h => JVal.noConfusion h) [] none,
   by
     rw [(c5_expando_merge_semantics ⟨[("id", valueReq)], some "extra", []⟩ "extra" rfl).2.1
        true [("a", JVal.vnull)] [("a", JVal.vint 1), ("c", JVal.vint 3)] "a"
        (by decide) (by decide)]
     rfl⟩


/-!
## C2 — cloneWith with empty changes vs duplicateInstance
-/

/-- The `Elem`/`B` schema used to separate `cloneWith` from
`duplicateInstance`: `B` has one required `Array(Elem)` field. -/
def envC2 : Env :=
  [("Elem", mkSimpleClass [("v", valueOpt)]),
   ("B", mkSimpleClass [("xs", arrReq "Elem")])]

/-- A `B` instance whose array holds a null element. -/
def instC2 : IVal := .iinst "B" [("xs", .iarr [.inull])]

/-- Writing back the value a key already holds leaves the object
unchanged. -/
theorem objSet_id_of_alookup {α : Type} (l : List (String × α)) (k : String) (v : α)
    (h : alookup l k = some v) : objSet l k v = l := by
  induction l with
  | nil => simp [alookup] at h
  | cons e rest ih =>
      obtain ⟨k1, w⟩ := e
      by_cases hk : k1 = k
      · have hw : w = v := by simpa [alookup, hk] using h
        simp [objSet, hk, hw]
      · have h2 : alookup rest k = some v := by simpa [alookup, hk] using h
        simp [objSet, hk, ih h2]

/-- C2, counterexample to the claim as stated: on `instC2` both
`cloneWith(inst, {})` and `duplicateInstance(inst)` throw the same
required-null message for the array element, but at different contexts —
`cloneWith.xs[0]` versus `duplicate.xs[0]` — so the two calls do not
behave identically. -/
theorem c2_clone_vs_duplicate_counterexample :
    cloneWith envC2 6 instC2 [] defaultCWOptions =
      .error { msg := "Field value was null but marked as required"
               ctx := { root := "cloneWith", segs := [Seg.key "xs", Seg.idx 0] } } ∧
    duplicateInstance envC2 6 instC2 defaultHOptions =
      .error { msg := "Field value was null but marked as required"
               ctx := { root := "duplicate", segs := [Seg.key "xs", Seg.idx 0] } } ∧
    ({ root := "cloneWith", segs := [Seg.key "xs", Seg.idx 0] } : Path) ≠
      { root := "duplicate", segs := [Seg.key "xs", Seg.idx 0] } := by
  refine ⟨?_, ?_, by decide⟩ <;>
    simp [cloneWith, cloneWithMerged, duplicateInstance, splitChanges, mergedFromFields,
      objSpread, jobjSet, mergeExpandoEntries, ctorNameOf,
      serialiseInstance, serialiseFields, serialiseArrElems, serialiseIncludes,
      serialiseExpando, checkExtraProps, serialiseValue, serialiseValueList,
      serialiseValueObj, ensureParsedOf, serialiseHookOf, ignoredFieldsOf, ignoredOf,
      methodOf, parseClassOf, parseClass, parseWalkDeco, parseStepDeco, parseWalkLegacy,
      parseStepLegacy, envFind, envC2, instC2, mkSimpleClass, valueOpt, arrReq, mkTSField,
      alookup, objSet, jGet, jvalToIVal, setInsertAll, setInsert,
      defaultSOptions, defaultCWOptions, defaultHOptions, cloneHydrateOptions,
      rootPath, cloneWithPath, duplicatePath, isetField, isObjLike, isPlainObj, ownEntries,
      nullDataResult, failRet, Path.child, Path.at, typeofName,
      createInstance, hydrateInto, walkFields, hydrateField, hydrateElems,
      Except.bind, bind, pure, Except.pure, Option.isSome]

/-- C2 (amended): when the class has a custom `serialise` hook and the
changes object is empty, `cloneWith` degenerates to exactly one
serialize→deserialize round trip over the same snapshot that
`duplicateInstance` uses: the merged payload is the single serialised
snapshot itself (no second serialisation pass, so repeated empty clones
cannot accumulate hook transformations), and each function is exactly one
re-hydration of that snapshot — the only residual differences being the
error-context root (`cloneWith` vs `duplicate`, see
`c2_clone_vs_duplicate_counterexample`) and the hydration options each
passes. -/
theorem c2_clone_empty_amended (env : Env) (fuel : Nat) (inst : IVal) (options : CWOptions)
    (opts : HOptions) (l : List (String × JVal)) (ps : ParsedSchema)
    (hnn : ¬ inst = .inull)
    (hpc : parseClassOf env inst [] = .ok ps)
    (hser : serialiseInstance env fuel inst none rootPath defaultSOptions = .ok (.vobj l))
    (hhook : (serialiseHookOf env inst).isSome) :
    cloneWithMerged env fuel inst [] options = .ok (.vobj l) ∧
    (∀ e, createInstance env fuel (some (.vobj l)) (some (.cls (ctorNameOf inst))) none
        cloneWithPath cloneHydrateOptions = .error e →
      cloneWith env fuel inst [] options = .error e) ∧
    (∀ v errs, createInstance env fuel (some (.vobj l)) (some (.cls (ctorNameOf inst))) none
        cloneWithPath cloneHydrateOptions = .ok (v, errs) →
      cloneWith env fuel inst [] options = .ok v) ∧
    (∀ e, createInstance env fuel (some (.vobj l)) (some (.cls (ctorNameOf inst))) none
        duplicatePath opts = .error e →
      duplicateInstance env fuel inst opts = .error e) ∧
    (∀ v errs, createInstance env fuel (some (.vobj l)) (some (.cls (ctorNameOf inst))) none
        duplicatePath opts = .ok (v, errs) →
      duplicateInstance env fuel inst opts = .ok v) := by
  have hmerged : cloneWithMerged env fuel inst [] options = .ok (.vobj l) := by
    cases hpek : ps.expandoKey with
    | none =>
        simp [cloneWithMerged, hpc, hser, hhook, hpek, splitChanges, objSpread]
    | some ek =>
        cases halo : alookup l ek with
        | none =>
            simp [cloneWithMerged, hpc, hser, hhook, hpek, halo, splitChanges, objSpread, jGet]
        | some v =>
            simp [cloneWithMerged, hpc, hser, hhook, hpek, halo, splitChanges, objSpread, jGet,
              jobjSet, objSet_id_of_alookup l ek v halo]
  refine ⟨hmerged, ?_, ?_, ?_, ?_⟩
  · intro e he
    simp [cloneWith, hnn, hmerged, he]
  · intro v errs he
    simp [cloneWith, hnn, hmerged, he]
  · intro e he
    simp [duplicateInstance, hnn, hser, he]
  · intro v errs he
    simp [duplicateInstance, hnn, hser, he]

/-- A class with a custom static `serialise` hook. -/
def envC2H : Env :=
  [("H", { mkSimpleClass [("a", valueOpt)] with
             serialiseHook := some (fun _ => .ok (.iobj [("a", .iint 1)])) })]

/-- An `H` instance. -/
def instC2H : IVal := .iinst "H" [("a", .iint 1)]

/-- C2 witness: on the hook-carrying class `H`, the merged payload of an
empty `cloneWith` is the single serialised snapshot. -/
theorem c2_clone_empty_amended_witness :
    cloneWithMerged envC2H 2 instC2H [] defaultCWOptions = .ok (.vobj [("a", JVal.vint 1)]) :=
  (c2_clone_empty_amended envC2H 2 instC2H defaultCWOptions defaultHOptions
      [("a", JVal.vint 1)] ⟨[("a", valueOpt)], none, []⟩
      (by decide) rfl
      (by
        simp [serialiseInstance, serialiseValue, serialiseValueObj, serialiseValueList,
          ensureParsedOf, serialiseHookOf, envC2H, envFind, alookup, instC2H,
          mkSimpleClass, valueOpt, mkTSField, parseClass, parseWalkDeco, parseStepDeco,
          parseWalkLegacy, parseStepLegacy, objSet, rootPath, Path.child,
          Except.bind, bind, pure, Except.pure])
      rfl).1


/-!
## C1 — the round-trip law
-/

/-- The `P1` schema of the round-trip counterexample:
`{x: Value optional}`. -/
def envC1 : Env := [("P1", mkSimpleClass [("x", valueOpt)])]

/-- C1, counterexample to the claim as stated: against `{x: Value
optional}` the input `{}` hydrates validly under default options (no
errors), but the instance carries `x = null` and serialises to
`{x: null}`, which is not deep-equal to the input `{}`: the serialiser
materialises optional missing fields as explicit nulls. -/
theorem c1_roundtrip_counterexample :
    createInstance envC1 3 (some (.vobj [])) (some (.cls "P1")) none rootPath
        defaultHOptions = .ok (.iinst "P1" [("x", .inull)], []) ∧
    serialiseInstance envC1 3 (.iinst "P1" [("x", .inull)]) none rootPath
        defaultSOptions = .ok (.vobj [("x", JVal.vnull)]) ∧
    JVal.vobj [("x", JVal.vnull)] ≠ JVal.vobj [] := by
  refine ⟨?_, ?_, by decide⟩ <;>
    simp [createInstance, hydrateInto, walkFields, hydrateField, hydrateElems,
      serialiseInstance, serialiseFields, serialiseArrElems, serialiseIncludes,
      serialiseExpando, checkExtraProps, serialiseValue, serialiseValueList,
      serialiseValueObj, ensureParsedOf, serialiseHookOf, ignoredFieldsOf, ignoredOf,
      methodOf, parseClassOf, parseClass, parseWalkDeco, parseStepDeco, parseWalkLegacy,
      parseStepLegacy, envFind, envC1, mkSimpleClass, valueOpt, mkTSField,
      alookup, objSet, jGet, jvalToIVal, setInsertAll, setInsert,
      defaultSOptions, defaultHOptions, rootPath, isetField, isObjLike, isPlainObj,
      ownEntries, nullDataResult, failRet, Path.child, typeofName,
      Except.bind, bind, pure, Except.pure, Option.isSome]

/-- Key-uniqueness of an object literal, as an executable check. -/
def nodupKeysB {α : Type} : List (String × α) → Bool
  | [] => true
  | (k, _) :: rest => (alookup rest k).isNone && nodupKeysB rest

mutual

/-- Well-formedness of raw data: every object in the tree has pairwise
distinct keys (JavaScript objects cannot carry duplicate keys; the
insertion-ordered list model can). -/
def wfJ : JVal → Bool
  | .vobj a => nodupKeysB a && wfJEntries a
  | .varr a => wfJList a
  | _ => true

/-- Well-formedness of the elements of a raw array. -/
def wfJList : List JVal → Bool
  | [] => true
  | x :: xs => wfJ x && wfJList xs

/-- Well-formedness of the values of a raw object. -/
def wfJEntries : List (String × JVal) → Bool
  | [] => true
  | (_, v) :: rest => wfJ v && wfJEntries rest

end

mutual

/-- Deep equality of raw values in the JavaScript sense: object
comparison ignores key order (same key set, pointwise deep-equal values),
array comparison is positional, and scalars compare exactly. -/
def jEquiv : JVal → JVal → Bool
  | .vobj a, .vobj b =>
      jEquivEntries a b && b.all (fun kv => (alookup a kv.1).isSome)
  | .varr a, .varr b => jEquivList a b
  | .vnull, .vnull => true
  | .vstr s, .vstr t => s == t
  | .vint n, .vint m => n == m
  | .vbool x, .vbool y => x == y
  | _, _ => false

/-- Positional deep equality of raw arrays. -/
def jEquivList : List JVal → List JVal → Bool
  | [], [] => true
  | x :: xs, y :: ys => jEquiv x y && jEquivList xs ys
  | _, _ => false

/-- Every entry of the first object deep-equals the entry of the second
object under the same key. -/
def jEquivEntries : List (String × JVal) → List (String × JVal) → Bool
  | [], _ => true
  | (k, v) :: rest, b =>
      (match alookup b k with
       | some w => jEquiv v w
       | none => false) && jEquivEntries rest b

end

/-- Raw scalars accepted by a value-coercion constructor (`new Date(s)`,
`BigInt(n)`, ...). -/
def jAtom : JVal → Bool
  | .vstr _ => true
  | .vint _ => true
  | .vbool _ => true
  | _ => false

/-- Runtime atoms a value coercion may produce: scalars and `Date`s, the
values `serialiseValue` maps back to a raw scalar without recursion. -/
def isValueAtom : IVal → Bool
  | .istr _ => true
  | .iint _ => true
  | .ibool _ => true
  | .idate _ => true
  | _ => false

/-- The raw form `serialiseValue` gives a runtime atom (dates normalise
to their ISO-8601 string). -/
def atomToJ : IVal → JVal
  | .istr s => .vstr s
  | .iint n => .vint n
  | .ibool b => .vbool b
  | .idate ms => .vstr (dateToISOString ms)
  | _ => .vnull

mutual

/-- Conformance of raw data to a class, defining the round-trip domain:
the class is hook-free and constructor-bypassed, its resolved schema has
no expando, no `@Include` keys and no ignored fields, and the data is a
plain object with distinct keys, all of them schema keys, covering every
schema key with a conforming value. -/
def conformsClass (env : Env) (fuel : Nat) (data : JVal) (cls : String) : Bool :=
  match fuel with
  | 0 => false
  | n + 1 =>
    match envFind env cls, data with
    | some cd, .vobj kvs =>
      cd.serialiseHook.isNone && cd.deserialiseHook.isNone && cd.bypassFlag &&
      nodupKeysB kvs &&
      (match parseClass cd.levels cd.protoEnum [] with
       | .ok ps =>
           ps.expandoKey.isNone && ps.includedKeys.isEmpty &&
           (ignoredOf cd.levels).isEmpty &&
           kvs.all (fun kv => (alookup ps.fields kv.1).isSome) &&
           conformsFields env n ps.fields kvs
       | .error _ => false)
    | _, _ => false
termination_by (fuel, 0, 0)

/-- Conformance of a list of array elements to the element class. -/
def conformsElems (env : Env) (fuel : Nat) (c : String) (xs : List JVal) : Bool :=
  match xs with
  | [] => true
  | x :: rest => conformsClass env fuel x c && conformsElems env fuel c rest
termination_by (fuel, 1, xs.length)

/-- Conformance of one non-null data value to one declared field (given
the field kind and instantiator): passthrough values on instantiator-free
`Value` fields (scalars, plain objects and arrays — well-formed so that
deep equality is reflexive on them), normalising value coercions on
instantiated `Value` fields (the hydrated atom must serialise back to the
raw scalar, which for a `Date` class means the input string is already in
canonical ISO-8601 form), and class-instantiated `Object` and `Array`
fields with conforming payloads. -/
def conformsField (env : Env) (fuel : Nat) (ft : TSType) (io : Option Instantiator)
    (v : JVal) : Bool :=
  match ft, io, v with
  | TSType.Value, none, _ => wfJ v
  | TSType.Value, some (.cls c), _ =>
      jAtom v &&
      (match envFind env c with
       | some cd =>
         match cd.newWithArg v with
         | .ok w => isValueAtom w && decide (atomToJ w = v)
         | .error _ => false
       | none => false)
  | TSType.Value, some (.fn f), _ =>
      jAtom v &&
      (match f v with
       | .ok w => isValueAtom w && decide (atomToJ w = v)
       | .error _ => false)
  | TSType.Object, some (.cls c), _ => conformsClass env fuel v c
  | TSType.Array, some (.cls c), .varr xs => conformsElems env fuel c xs
  | _, _, _ => false
termination_by (fuel, 2, 0)

/-- Conformance of the data entries to the schema fields: every schema
key is present; an explicit null conforms exactly on optional fields
without an `ifEmpty` factory (it hydrates to null and serialises back to
null), any other value per `conformsField`. -/
def conformsFields (env : Env) (fuel : Nat) (flds : List (String × TSField))
    (kvs : List (String × JVal)) : Bool :=
  match flds with
  | [] => true
  | (k, fld) :: frest =>
      (match alookup kvs k with
       | some JVal.vnull => !fld.required && fld.ifEmpty.isNone
       | some v => conformsField env fuel fld.fieldType fld.instantiator v
       | none => false) &&
      conformsFields env fuel frest kvs
termination_by (fuel, 3, flds.length)

end

/-- A null instance always serialises to null (the guard precedes the
schema machinery). -/
theorem serialiseInstance_inull (env : Env) (n : Nat) (f : Option TSField)
    (p : Path) (c : SOptions) : serialiseInstance env (n + 1) .inull f p c = .ok .vnull := by
  simp [serialiseInstance]

/-- On non-null object data, a field-borne class instantiator behaves as a
directly passed one (`inferInstantiatorFromField`). -/
theorem createInstance_field_shape (env : Env) (n : Nat) (kvs : List (String × JVal))
    (fld : TSField) (p : Path) (opts : HOptions) (i : Instantiator)
    (hi : fld.instantiator = some i) (hv : (fld.fieldType == TSType.Value) = false) :
    createInstance env n (some (.vobj kvs)) none (some fld) p opts =
      createInstance env n (some (.vobj kvs)) (some i) none p opts := by
  cases n with
  | zero => simp [createInstance]
  | succ m => simp [createInstance, hi, hv]

/-- Lookup in a concatenation tries the left part first. -/
theorem alookup_append {α : Type} (l1 l2 : List (String × α)) (k : String) :
    alookup (l1 ++ l2) k =
      match alookup l1 k with
      | some v => some v
      | none => alookup l2 k := by
  induction l1 with
  | nil => simp [alookup]
  | cons e rest ih =>
      obtain ⟨k1, w⟩ := e
      by_cases hk : k1 = k
      · simp [alookup, hk]
      · simp [alookup, hk, ih]

/-- A value that serialises to a plain object is not null. -/
theorem ne_inull_of_serialise_vobj (env : Env) (m : Nat) (w : IVal) (f : Option TSField)
    (p : Path) (c : SOptions) (l : List (String × JVal))
    (h : serialiseInstance env m w f p c = .ok (.vobj l)) : ¬ w = .inull := by
  intro heq
  subst heq
  cases m with
  | zero => simp [serialiseInstance] at h
  | succ m2 => rw [serialiseInstance_inull] at h; simp at h

/-- Unique keys as a Boolean check coincide with `List.Nodup`. -/
theorem nodupKeysB_nodup {α : Type} : ∀ l : List (String × α),
    nodupKeysB l = true → (l.map Prod.fst).Nodup
  | [], _ => by simp
  | (k, v) :: rest, h => by
      simp only [nodupKeysB, Bool.and_eq_true, Option.isNone_iff_eq_none] at h
      simp only [List.map_cons, List.nodup_cons]
      exact ⟨(alookup_eq_none_iff rest k).mp h.1, nodupKeysB_nodup rest h.2⟩

/-- A present key has a successful lookup. -/
theorem mem_keys_isSome {α : Type} (l : List (String × α)) (k : String)
    (h : k ∈ l.map Prod.fst) : (alookup l k).isSome = true := by
  cases halo : alookup l k with
  | none => exact absurd h ((alookup_eq_none_iff l k).mp halo)
  | some v => rfl

/-- A successful lookup means the key is present. -/
theorem isSome_mem_keys {α : Type} (l : List (String × α)) (k : String)
    (h : (alookup l k).isSome = true) : k ∈ l.map Prod.fst := by
  by_contra hn
  rw [(alookup_eq_none_iff l k).mpr hn] at h
  simp at h

mutual

/-- Serialising the hydrated copy of a raw value gives the raw value
back (the embedding-side identity behind `Value`-field passthrough). -/
theorem serialiseValue_jvalToIVal : ∀ (v : JVal) (p : Path),
    serialiseValue (jvalToIVal v) p = .ok v
  | .vnull, p => by simp [jvalToIVal, serialiseValue]
  | .vstr s, p => by simp [jvalToIVal, serialiseValue]
  | .vint n, p => by simp [jvalToIVal, serialiseValue]
  | .vbool b, p => by simp [jvalToIVal, serialiseValue]
  | .varr xs, p => by
      simp [jvalToIVal, serialiseValue, serialiseValueList_jvalToIVal xs p 0,
        bind, Except.bind]
  | .vobj l, p => by
      simp [jvalToIVal, serialiseValue, serialiseValueObj_jvalToIVal l p,
        bind, Except.bind]

/-- Elementwise version of `serialiseValue_jvalToIVal`. -/
theorem serialiseValueList_jvalToIVal : ∀ (xs : List JVal) (p : Path) (i : Nat),
    serialiseValueList (jvalListToIVal xs) p i = .ok xs
  | [], _, _ => by simp [jvalListToIVal, serialiseValueList]
  | x :: xs, p, i => by
      simp [jvalListToIVal, serialiseValueList, serialiseValue_jvalToIVal x (p.at i),
        serialiseValueList_jvalToIVal xs p (i + 1), bind, Except.bind]

/-- Entrywise version of `serialiseValue_jvalToIVal`. -/
theorem serialiseValueObj_jvalToIVal : ∀ (l : List (String × JVal)) (p : Path),
    serialiseValueObj (jvalObjToIVal l) p = .ok l
  | [], _ => by simp [jvalObjToIVal, serialiseValueObj]
  | (k, v) :: rest, p => by
      simp [jvalObjToIVal, serialiseValueObj, serialiseValue_jvalToIVal v (p.child k),
        serialiseValueObj_jvalToIVal rest p, bind, Except.bind]

end

/-- Serialising a runtime atom never fails and ignores the path. -/
theorem serialiseValue_atom (w : IVal) (h : isValueAtom w = true) (p : Path) :
    serialiseValue w p = .ok (atomToJ w) := by
  cases w <;> simp [isValueAtom] at h <;> simp [serialiseValue, atomToJ]

/-- The hydrated copy of a non-null raw value is not null. -/
theorem jvalToIVal_ne_inull (v : JVal) (h : ¬ v = JVal.vnull) :
    ¬ jvalToIVal v = IVal.inull := by
  cases v <;> simp [jvalToIVal] at h ⊢

mutual

/-- Deep equality is reflexive on well-formed raw values. -/
theorem jEquivRefl : ∀ v : JVal, wfJ v = true → jEquiv v v = true
  | .vnull, _ => by simp [jEquiv]
  | .vstr s, _ => by simp [jEquiv]
  | .vint n, _ => by simp [jEquiv]
  | .vbool b, _ => by simp [jEquiv]
  | .varr xs, h => by
      simp only [wfJ] at h
      simp only [jEquiv]
      exact jEquivListRefl xs h
  | .vobj l, h => by
      simp only [wfJ, Bool.and_eq_true] at h
      simp only [jEquiv, Bool.and_eq_true]
      refine ⟨jEquivEntriesRefl l l h.2
        (fun k v hm => alookup_of_mem_nodup l k v hm (nodupKeysB_nodup l h.1)), ?_⟩
      rw [List.all_eq_true]
      intro kv hkv
      exact mem_keys_isSome l kv.1 (List.mem_map.mpr ⟨kv, hkv, rfl⟩)

/-- Reflexivity of the positional array comparison. -/
theorem jEquivListRefl : ∀ l : List JVal, wfJList l = true → jEquivList l l = true
  | [], _ => by simp [jEquivList]
  | x :: xs, h => by
      simp only [wfJList, Bool.and_eq_true] at h
      simp only [jEquivList, Bool.and_eq_true]
      exact ⟨jEquivRefl x h.1, jEquivListRefl xs h.2⟩

/-- Entry list against a full object containing each entry. -/
theorem jEquivEntriesRefl : ∀ (l full : List (String × JVal)), wfJEntries l = true →
    (∀ k v, (k, v) ∈ l → alookup full k = some v) → jEquivEntries l full = true
  | [], _, _, _ => by simp [jEquivEntries]
  | (k, v) :: rest, full, h, hmem => by
      simp only [wfJEntries, Bool.and_eq_true] at h
      simp only [jEquivEntries, hmem k v (List.mem_cons_self _ _), Bool.and_eq_true]
      exact ⟨jEquivRefl v h.1,
        jEquivEntriesRefl rest full h.2
          (fun k2 v2 hm => hmem k2 v2 (List.mem_cons_of_mem _ hm))⟩

end

/-- A value deep-equal to an object is an object. -/
theorem jEquiv_vobj_shape (u : JVal) (b : List (String × JVal))
    (h : jEquiv u (.vobj b) = true) : ∃ l, u = .vobj l := by
  cases u with
  | vobj l => exact ⟨l, rfl⟩
  | vnull => simp [jEquiv] at h
  | vstr s => simp [jEquiv] at h
  | vint n => simp [jEquiv] at h
  | vbool x => simp [jEquiv] at h
  | varr a => simp [jEquiv] at h

/-- Pointwise deep equality of entries against an object gives the
entrywise comparison. -/
theorem jEquivEntries_of_pointwise : ∀ (a b : List (String × JVal)),
    (∀ k w, (k, w) ∈ a → ∃ v, alookup b k = some v ∧ jEquiv w v = true) →
    jEquivEntries a b = true
  | [], _, _ => by simp [jEquivEntries]
  | (k, w) :: rest, b, hpt => by
      obtain ⟨v, hb, hj⟩ := hpt k w (List.mem_cons_self _ _)
      simp only [jEquivEntries, hb, hj, Bool.true_and]
      exact jEquivEntries_of_pointwise rest b
        (fun k2 w2 hm => hpt k2 w2 (List.mem_cons_of_mem _ hm))

/-- Coercible raw scalars are well-formed. -/
theorem wfJ_of_jAtom (v : JVal) (h : jAtom v = true) : wfJ v = true := by
  cases v <;> simp [jAtom] at h <;> simp [wfJ]

/-- Conforming data is always a plain object. -/
theorem conformsClass_vobj (env : Env) (m : Nat) (x : JVal) (c : String)
    (h : conformsClass env m x c = true) : ∃ kvs, x = .vobj kvs := by
  cases m with
  | zero => simp [conformsClass] at h
  | succ m2 =>
      cases henv : envFind env c with
      | none =>
          cases x <;> simp [conformsClass, henv] at h
      | some cd =>
          cases x with
          | vobj kvs => exact ⟨kvs, rfl⟩
          | vnull => simp [conformsClass, henv] at h
          | vstr s => simp [conformsClass, henv] at h
          | vint n => simp [conformsClass, henv] at h
          | vbool b => simp [conformsClass, henv] at h
          | varr xs => simp [conformsClass, henv] at h

/-- Round trip of the elements of a conforming `Array` field: hydration
assigns the element instances in order without errors, and serialising
those instances restores values deep-equal to the raw elements. -/
theorem conformsElems_walk (env : Env) (m : Nat) (c : String) (fld : TSField)
    (hfi : fld.instantiator = some (.cls c))
    (IH : ∀ data cls2, conformsClass env m data cls2 = true →
      ∃ inst u, (∀ outer, createInstance env m (some data) (some (.cls cls2)) none outer
          defaultHOptions = .ok (inst, [])) ∧
        (∀ f outer, serialiseInstance env m inst f outer defaultSOptions = .ok u) ∧
        jEquiv u data = true) :
    ∀ xs, conformsElems env m c xs = true →
      ∃ (ws : List IVal) (us : List JVal),
        (∀ i nested accV,
           hydrateElems env m (mkTSField TSType.Array fld.instantiator fld.required none false)
             xs i nested defaultHOptions accV [] = .ok (accV ++ ws, [])) ∧
        (∀ i ctx acc, serialiseArrElems env m fld ws i ctx defaultSOptions acc =
           .ok (acc ++ us)) ∧
        jEquivList us xs = true := by
  intro xs
  induction xs with
  | nil =>
      intro _
      exact ⟨[], [], fun i nested accV => by simp [hydrateElems],
             fun i ctx acc => by simp [serialiseArrElems], by simp [jEquivList]⟩
  | cons x rest ih =>
      intro h
      simp only [conformsElems, Bool.and_eq_true] at h
      obtain ⟨w, u, hcw, hsw, hju⟩ := IH x c h.1
      obtain ⟨ws, us, hws, hss, hjl⟩ := ih h.2
      obtain ⟨kvsx, hx⟩ := conformsClass_vobj env m x c h.1
      subst hx
      refine ⟨w :: ws, u :: us, ?_, ?_, ?_⟩
      · intro i nested accV
        simp only [hydrateElems]
        rw [createInstance_field_shape env m kvsx
              (mkTSField TSType.Array fld.instantiator fld.required none false)
              (nested.at i) defaultHOptions (Instantiator.cls c)
              (by simp [mkTSField, hfi]) (by simp [mkTSField]),
            hcw (nested.at i)]
        simpa using hws (i + 1) nested (accV ++ [w])
      · intro i ctx acc
        simp only [serialiseArrElems]
        rw [hsw (some fld) (ctx.at i)]
        simpa using hss (i + 1) ctx (acc ++ [u])
      · simp only [jEquivList, Bool.and_eq_true]
        exact ⟨hju, hjl⟩

/-- One step of the hydration walk: a head field whose hydration yields a
single clean value appends that value to the instance and continues. -/
theorem walk_cons_step (env : Env) (m : Nat) (k : String) (fld : TSField)
    (frest : List (String × TSField)) (kvs : List (String × JVal))
    (w : IVal) (fs2 : List (String × IVal))
    (hw : ∀ outer, hydrateField env m k fld (.vobj kvs) outer defaultHOptions =
       .ok (some w, []))
    (ihw : ∀ (cls : String) acc outer,
       (∀ k2, k2 ∈ frest.map Prod.fst → alookup acc k2 = none) →
       (frest.map Prod.fst).Nodup →
       walkFields env m frest (.vobj kvs) (.iinst cls acc) outer defaultHOptions [] =
         .ok (.iinst cls (acc ++ fs2), [])) :
    ∀ (cls : String) acc outer,
      (∀ k2, k2 ∈ ((k, fld) :: frest).map Prod.fst → alookup acc k2 = none) →
      (((k, fld) :: frest).map Prod.fst).Nodup →
      walkFields env m ((k, fld) :: frest) (.vobj kvs) (.iinst cls acc) outer
          defaultHOptions [] =
        .ok (.iinst cls (acc ++ (k, w) :: fs2), []) := by
  intro cls acc outer hacc hnd
  simp only [List.map_cons, List.nodup_cons] at hnd
  simp only [walkFields, hw outer, List.nil_append]
  have hacck : alookup acc k = none := hacc k (by simp)
  rw [show isetField (.iinst cls acc) k w = .iinst cls (acc ++ [(k, w)]) from by
    simp [isetField, objSet_of_alookup_none acc k w hacck]]
  rw [ihw cls (acc ++ [(k, w)]) outer
    (fun k2 hk2 => by
      have hne : k ≠ k2 := fun hh => hnd.1 (hh ▸ hk2)
      rw [alookup_append]
      rw [hacc k2 (by simp [hk2])]
      simp [alookup, hne])
    hnd.2]
  simp

/-- One step of the serialisation walk: a head field holding a clean value
that serialises to a raw value appends that raw entry and continues. -/
theorem ser_cons_step (env : Env) (m : Nat) (k : String) (fld : TSField)
    (frest : List (String × TSField)) (u : JVal) (outE2 : List (String × JVal))
    (w : IVal) (fs2 : List (String × IVal))
    (hstep : ∀ (cls : String) FS out outer, alookup FS k = some w →
       serialiseFields env m ((k, fld) :: frest) (.iinst cls FS) [] outer defaultSOptions out =
         serialiseFields env m frest (.iinst cls FS) [] outer defaultSOptions (objSet out k u))
    (ihs : ∀ (cls : String) FS out outer,
       (∀ k2, k2 ∈ frest.map Prod.fst → alookup FS k2 = alookup fs2 k2) →
       (∀ k2, k2 ∈ frest.map Prod.fst → alookup out k2 = none) →
       (frest.map Prod.fst).Nodup →
       serialiseFields env m frest (.iinst cls FS) [] outer defaultSOptions out =
         .ok (out ++ outE2)) :
    ∀ (cls : String) FS out outer,
      (∀ k2, k2 ∈ ((k, fld) :: frest).map Prod.fst →
         alookup FS k2 = alookup ((k, w) :: fs2) k2) →
      (∀ k2, k2 ∈ ((k, fld) :: frest).map Prod.fst → alookup out k2 = none) →
      (((k, fld) :: frest).map Prod.fst).Nodup →
      serialiseFields env m ((k, fld) :: frest) (.iinst cls FS) [] outer defaultSOptions out =
        .ok (out ++ (k, u) :: outE2) := by
  intro cls FS out outer hFS hout hnd
  simp only [List.map_cons, List.nodup_cons] at hnd
  have hFSk : alookup FS k = some w := by
    have := hFS k (by simp)
    simpa [alookup] using this
  rw [hstep cls FS out outer hFSk]
  have houtk : alookup out k = none := hout k (by simp)
  rw [ihs cls FS (objSet out k u) outer
    (fun k2 hk2 => by
      have hne : k ≠ k2 := fun hh => hnd.1 (hh ▸ hk2)
      rw [hFS k2 (by simp [hk2])]
      simp [alookup, hne])
    (fun k2 hk2 => by
      have hne : k ≠ k2 := fun hh => hnd.1 (hh ▸ hk2)
      rw [alookup_objSet_ne out k k2 u hne]
      exact hout k2 (by simp [hk2]))
    hnd.2]
  rw [objSet_of_alookup_none out k u houtk]
  simp

/-- Assembly of one field-walk induction step from the head field's
hydration result, its emitted raw value, and the tail's walk package. -/
theorem fields_cons_assemble (env : Env) (m : Nat) (kvs : List (String × JVal))
    (k : String) (fld : TSField) (frest : List (String × TSField))
    (v u : JVal) (w : IVal) (fs2 : List (String × IVal)) (outE2 : List (String × JVal))
    (hd : alookup kvs k = some v)
    (hkeys2 : fs2.map Prod.fst = frest.map Prod.fst)
    (houtkeys2 : outE2.map Prod.fst = frest.map Prod.fst)
    (hw : ∀ outer, hydrateField env m k fld (.vobj kvs) outer defaultHOptions =
       .ok (some w, []))
    (hstep : ∀ (cls : String) FS out outer, alookup FS k = some w →
       serialiseFields env m ((k, fld) :: frest) (.iinst cls FS) [] outer defaultSOptions out =
         serialiseFields env m frest (.iinst cls FS) [] outer defaultSOptions (objSet out k u))
    (hjE : jEquiv u v = true)
    (hwalk2 : ∀ (cls : String) acc outer,
       (∀ k2, k2 ∈ frest.map Prod.fst → alookup acc k2 = none) →
       (frest.map Prod.fst).Nodup →
       walkFields env m frest (.vobj kvs) (.iinst cls acc) outer defaultHOptions [] =
         .ok (.iinst cls (acc ++ fs2), []))
    (hser2 : ∀ (cls : String) FS out outer,
       (∀ k2, k2 ∈ frest.map Prod.fst → alookup FS k2 = alookup fs2 k2) →
       (∀ k2, k2 ∈ frest.map Prod.fst → alookup out k2 = none) →
       (frest.map Prod.fst).Nodup →
       serialiseFields env m frest (.iinst cls FS) [] outer defaultSOptions out =
         .ok (out ++ outE2))
    (hpt2 : ∀ k2, k2 ∈ frest.map Prod.fst →
       ∃ v2 u2, alookup kvs k2 = some v2 ∧ alookup outE2 k2 = some u2 ∧
         jEquiv u2 v2 = true) :
    ∃ (fs : List (String × IVal)) (outE : List (String × JVal)),
      fs.map Prod.fst = ((k, fld) :: frest).map Prod.fst ∧
      outE.map Prod.fst = ((k, fld) :: frest).map Prod.fst ∧
      (∀ (cls : String) acc outer,
         (∀ k2, k2 ∈ ((k, fld) :: frest).map Prod.fst → alookup acc k2 = none) →
         (((k, fld) :: frest).map Prod.fst).Nodup →
         walkFields env m ((k, fld) :: frest) (.vobj kvs) (.iinst cls acc) outer
             defaultHOptions [] = .ok (.iinst cls (acc ++ fs), [])) ∧
      (∀ (cls : String) FS out outer,
         (∀ k2, k2 ∈ ((k, fld) :: frest).map Prod.fst → alookup FS k2 = alookup fs k2) →
         (∀ k2, k2 ∈ ((k, fld) :: frest).map Prod.fst → alookup out k2 = none) →
         (((k, fld) :: frest).map Prod.fst).Nodup →
         serialiseFields env m ((k, fld) :: frest) (.iinst cls FS) [] outer defaultSOptions
             out = .ok (out ++ outE)) ∧
      (∀ k2, k2 ∈ ((k, fld) :: frest).map Prod.fst →
         ∃ v2 u2, alookup kvs k2 = some v2 ∧ alookup outE k2 = some u2 ∧
           jEquiv u2 v2 = true) := by
  refine ⟨(k, w) :: fs2, (k, u) :: outE2, by simp [hkeys2], by simp [houtkeys2],
    walk_cons_step env m k fld frest kvs w fs2 hw hwalk2,
    ser_cons_step env m k fld frest u outE2 w fs2 hstep hser2, ?_⟩
  intro k2 hk2
  by_cases hkk : k = k2
  · subst hkk
    exact ⟨v, u, hd, by simp [alookup], hjE⟩
  · have hk2r : k2 ∈ frest.map Prod.fst := by
      rw [List.map_cons] at hk2
      rcases List.mem_cons.mp hk2 with h1 | h1
      · exact absurd h1.symm hkk
      · exact h1
    obtain ⟨v2, u2, hv2, hu2, hj2⟩ := hpt2 k2 hk2r
    exact ⟨v2, u2, hv2, by simp [alookup, hkk, hu2], hj2⟩

/-- Round trip of one conforming non-null field value: hydration produces
a clean runtime value whose serialisation step emits a raw value
deep-equal to the input. -/
theorem conformsField_step (env : Env) (m : Nat) (k : String) (fld : TSField)
    (kvs : List (String × JVal)) (v : JVal)
    (hd : alookup kvs k = some v) (hvnn : ¬ v = JVal.vnull)
    (hcf : conformsField env m fld.fieldType fld.instantiator v = true)
    (IH : ∀ data cls2, conformsClass env m data cls2 = true →
      ∃ inst u, (∀ outer, createInstance env m (some data) (some (.cls cls2)) none outer
          defaultHOptions = .ok (inst, [])) ∧
        (∀ f outer, serialiseInstance env m inst f outer defaultSOptions = .ok u) ∧
        jEquiv u data = true) :
    ∃ (w : IVal) (u : JVal),
      (∀ outer, hydrateField env m k fld (.vobj kvs) outer defaultHOptions =
         .ok (some w, [])) ∧
      (∀ (frest : List (String × TSField)) (cls : String) FS out outer,
         alookup FS k = some w →
         serialiseFields env m ((k, fld) :: frest) (.iinst cls FS) [] outer defaultSOptions
             out =
           serialiseFields env m frest (.iinst cls FS) [] outer defaultSOptions
             (objSet out k u)) ∧
      jEquiv u v = true := by
  cases hft : fld.fieldType with
  | Value =>
      cases hin : fld.instantiator with
      | none =>
          rw [hft, hin] at hcf
          simp only [conformsField] at hcf
          refine ⟨jvalToIVal v, v, ?_, ?_, jEquivRefl v hcf⟩
          · intro outer
            simp [hydrateField, jGet, hd, hvnn, hft, hin, defaultHOptions]
          · intro frest cls FS out outer hFSk
            simp [serialiseFields, ownEntries, hFSk, hft,
              jvalToIVal_ne_inull v hvnn, serialiseValue_jvalToIVal]
      | some i =>
          cases i with
          | cls c =>
              rw [hft, hin] at hcf
              simp only [conformsField, Bool.and_eq_true] at hcf
              obtain ⟨hja, hrest⟩ := hcf
              cases henv2 : envFind env c with
              | none => simp [henv2] at hrest
              | some cd =>
                  simp only [henv2] at hrest
                  cases hnw : cd.newWithArg v with
                  | error e => simp [hnw] at hrest
                  | ok w0 =>
                      simp only [hnw, Bool.and_eq_true, decide_eq_true_eq] at hrest
                      obtain ⟨hva, heq⟩ := hrest
                      refine ⟨w0, v, ?_, ?_, jEquivRefl v (wfJ_of_jAtom v hja)⟩
                      · intro outer
                        simp [hydrateField, jGet, hd, hvnn, hft, hin, henv2, hnw,
                          defaultHOptions]
                      · intro frest cls2 FS out outer hFSk
                        have hw0 : ¬ w0 = IVal.inull := by
                          cases w0 <;> simp [isValueAtom] at hva ⊢
                        simp [serialiseFields, ownEntries, hFSk, hft, hw0,
                          serialiseValue_atom w0 hva, heq]
          | fn f =>
              rw [hft, hin] at hcf
              simp only [conformsField, Bool.and_eq_true] at hcf
              obtain ⟨hja, hrest⟩ := hcf
              cases hf : f v with
              | error e => simp [hf] at hrest
              | ok w0 =>
                  simp only [hf, Bool.and_eq_true, decide_eq_true_eq] at hrest
                  obtain ⟨hva, heq⟩ := hrest
                  refine ⟨w0, v, ?_, ?_, jEquivRefl v (wfJ_of_jAtom v hja)⟩
                  · intro outer
                    simp [hydrateField, jGet, hd, hvnn, hft, hin, hf, defaultHOptions]
                  · intro frest cls2 FS out outer hFSk
                    have hw0 : ¬ w0 = IVal.inull := by
                      cases w0 <;> simp [isValueAtom] at hva ⊢
                    simp [serialiseFields, ownEntries, hFSk, hft, hw0,
                      serialiseValue_atom w0 hva, heq]
  | Object =>
      cases hin : fld.instantiator with
      | none =>
          rw [hft, hin] at hcf
          cases v <;> simp [conformsField] at hcf
      | some i =>
          cases i with
          | fn f2 =>
              rw [hft, hin] at hcf
              cases v <;> simp [conformsField] at hcf
          | cls c =>
              rw [hft, hin] at hcf
              simp only [conformsField] at hcf
              obtain ⟨kvsv, hx⟩ := conformsClass_vobj env m v c hcf
              subst hx
              obtain ⟨wi, u0, hcw, hsw, hju⟩ := IH (.vobj kvsv) c hcf
              obtain ⟨lu, hlu⟩ := jEquiv_vobj_shape u0 kvsv hju
              have hwne : ¬ wi = IVal.inull :=
                ne_inull_of_serialise_vobj env m wi none rootPath defaultSOptions lu
                  (by rw [← hlu]; exact hsw none rootPath)
              refine ⟨wi, u0, ?_, ?_, hju⟩
              · intro outer
                simp [hydrateField, jGet, hd, hft,
                  createInstance_field_shape env m kvsv fld (outer.child k)
                    defaultHOptions (Instantiator.cls c) hin (by simp [hft]),
                  hcw (outer.child k)]
              · intro frest cls2 FS out outer hFSk
                simp [serialiseFields, ownEntries, hFSk, hft, hwne,
                  hsw (some fld) (outer.child k)]
  | Array =>
      cases hin : fld.instantiator with
      | none =>
          rw [hft, hin] at hcf
          cases v <;> simp [conformsField] at hcf
      | some i =>
          cases i with
          | fn f2 =>
              rw [hft, hin] at hcf
              cases v <;> simp [conformsField] at hcf
          | cls c =>
              rw [hft, hin] at hcf
              cases v with
              | varr xs =>
                  simp only [conformsField] at hcf
                  obtain ⟨ws, us, hws, hss, hjl⟩ :=
                    conformsElems_walk env m c fld hin IH xs hcf
                  refine ⟨.iarr ws, .varr us, ?_, ?_, by simpa [jEquiv] using hjl⟩
                  · intro outer
                    simp [hydrateField, jGet, hd, hft, hws 0 (outer.child k) []]
                  · intro frest cls2 FS out outer hFSk
                    simp [serialiseFields, ownEntries, hFSk, hft,
                      hss 0 (outer.child k) []]
              | vnull => exact absurd rfl hvnn
              | vstr s => simp [conformsField] at hcf
              | vint n2 => simp [conformsField] at hcf
              | vbool b => simp [conformsField] at hcf
              | vobj kvs2 => simp [conformsField] at hcf
  | Expando =>
      rw [hft] at hcf
      cases hin : fld.instantiator with
      | none =>
          rw [hin] at hcf
          cases v <;> simp [conformsField] at hcf
      | some i =>
          rw [hin] at hcf
          cases i <;> cases v <;> simp [conformsField] at hcf

/-- Round trip of a conforming field list against fixed raw data: the
hydration walk assigns each field a clean value in schema order, the
serialisation walk emits the fields in schema order, and every emitted
entry is deep-equal to the raw entry under the same key. -/
theorem conformsFields_walk (env : Env) (m : Nat) (kvs : List (String × JVal))
    (IH : ∀ data cls2, conformsClass env m data cls2 = true →
      ∃ inst u, (∀ outer, createInstance env m (some data) (some (.cls cls2)) none outer
          defaultHOptions = .ok (inst, [])) ∧
        (∀ f outer, serialiseInstance env m inst f outer defaultSOptions = .ok u) ∧
        jEquiv u data = true) :
    ∀ flds, conformsFields env m flds kvs = true →
      ∃ (fs : List (String × IVal)) (outE : List (String × JVal)),
        fs.map Prod.fst = flds.map Prod.fst ∧
        outE.map Prod.fst = flds.map Prod.fst ∧
        (∀ (cls : String) acc outer,
           (∀ k2, k2 ∈ flds.map Prod.fst → alookup acc k2 = none) →
           (flds.map Prod.fst).Nodup →
           walkFields env m flds (.vobj kvs) (.iinst cls acc) outer defaultHOptions [] =
             .ok (.iinst cls (acc ++ fs), [])) ∧
        (∀ (cls : String) FS out outer,
           (∀ k2, k2 ∈ flds.map Prod.fst → alookup FS k2 = alookup fs k2) →
           (∀ k2, k2 ∈ flds.map Prod.fst → alookup out k2 = none) →
           (flds.map Prod.fst).Nodup →
           serialiseFields env m flds (.iinst cls FS) [] outer defaultSOptions out =
             .ok (out ++ outE)) ∧
        (∀ k2, k2 ∈ flds.map Prod.fst →
           ∃ v2 u2, alookup kvs k2 = some v2 ∧ alookup outE k2 = some u2 ∧
             jEquiv u2 v2 = true) := by
  intro flds
  induction flds with
  | nil =>
      intro _
      refine ⟨[], [], rfl, rfl, ?_, ?_, ?_⟩
      · intro cls acc outer _ _
        simp [walkFields]
      · intro cls FS out outer _ _ _
        simp [serialiseFields]
      · intro k2 hk2
        simp at hk2
  | cons e frest ihf =>
      intro h
      obtain ⟨k, fld⟩ := e
      simp only [conformsFields, Bool.and_eq_true] at h
      obtain ⟨hcf, hcr⟩ := h
      obtain ⟨fs2, outE2, hkeys2, houtkeys2, hwalk2, hser2, hpt2⟩ := ihf hcr
      cases hd : alookup kvs k with
      | none =>
          simp only [hd] at hcf
          exact absurd hcf (by simp)
      | some v =>
          cases v with
          | vnull =>
              simp only [hd] at hcf
              simp only [Bool.and_eq_true, Bool.not_eq_true', Option.isNone_iff_eq_none]
                at hcf
              obtain ⟨hreq, hie⟩ := hcf
              refine fields_cons_assemble env m kvs k fld frest JVal.vnull JVal.vnull
                IVal.inull fs2 outE2 hd hkeys2 houtkeys2 ?_ ?_ (by simp [jEquiv])
                hwalk2 hser2 hpt2
              · intro outer
                simp [hydrateField, jGet, hd, hie, hreq, defaultHOptions]
              · intro cls FS out outer hFSk
                simp [serialiseFields, ownEntries, hFSk, hreq]
          | vstr s =>
              simp only [hd] at hcf
              obtain ⟨w, u, hw, hstep, hjE⟩ := conformsField_step env m k fld kvs
                (JVal.vstr s) hd (by simp) hcf IH
              exact fields_cons_assemble env m kvs k fld frest (JVal.vstr s) u w fs2 outE2
                hd hkeys2 houtkeys2 hw (hstep frest) hjE hwalk2 hser2 hpt2
          | vint n2 =>
              simp only [hd] at hcf
              obtain ⟨w, u, hw, hstep, hjE⟩ := conformsField_step env m k fld kvs
                (JVal.vint n2) hd (by simp) hcf IH
              exact fields_cons_assemble env m kvs k fld frest (JVal.vint n2) u w fs2 outE2
                hd hkeys2 houtkeys2 hw (hstep frest) hjE hwalk2 hser2 hpt2
          | vbool b =>
              simp only [hd] at hcf
              obtain ⟨w, u, hw, hstep, hjE⟩ := conformsField_step env m k fld kvs
                (JVal.vbool b) hd (by simp) hcf IH
              exact fields_cons_assemble env m kvs k fld frest (JVal.vbool b) u w fs2 outE2
                hd hkeys2 houtkeys2 hw (hstep frest) hjE hwalk2 hser2 hpt2
          | varr xs =>
              simp only [hd] at hcf
              obtain ⟨w, u, hw, hstep, hjE⟩ := conformsField_step env m k fld kvs
                (JVal.varr xs) hd (by simp) hcf IH
              exact fields_cons_assemble env m kvs k fld frest (JVal.varr xs) u w fs2 outE2
                hd hkeys2 houtkeys2 hw (hstep frest) hjE hwalk2 hser2 hpt2
          | vobj kvs2 =>
              simp only [hd] at hcf
              obtain ⟨w, u, hw, hstep, hjE⟩ := conformsField_step env m k fld kvs
                (JVal.vobj kvs2) hd (by simp) hcf IH
              exact fields_cons_assemble env m kvs k fld frest (JVal.vobj kvs2) u w fs2 outE2
                hd hkeys2 houtkeys2 hw (hstep frest) hjE hwalk2 hser2 hpt2

/-- The round-trip law on the conformance domain: conforming data
hydrates cleanly (no errors) into an instance, and serialising that
instance under default options returns a value deep-equal to the data. -/
theorem conformsRoundtrip (n : Nat) :
    ∀ (env : Env) (data : JVal) (cls : String),
      conformsClass env n data cls = true →
      ∃ inst u,
        (∀ outer, createInstance env n (some data) (some (.cls cls)) none outer
            defaultHOptions = .ok (inst, [])) ∧
        (∀ f outer, serialiseInstance env n inst f outer defaultSOptions = .ok u) ∧
        jEquiv u data = true := by
  induction n with
  | zero => intro env data cls h; simp [conformsClass] at h
  | succ m ih =>
      intro env data cls h
      cases henv : envFind env cls with
      | none => cases data <;> simp [conformsClass, henv] at h
      | some cd =>
          cases data with
          | vnull => simp [conformsClass, henv] at h
          | vstr s => simp [conformsClass, henv] at h
          | vint n2 => simp [conformsClass, henv] at h
          | vbool b => simp [conformsClass, henv] at h
          | varr xs => simp [conformsClass, henv] at h
          | vobj kvs =>
              simp [conformsClass, henv, Bool.and_eq_true] at h
              obtain ⟨⟨⟨⟨hsh, hdh⟩, hbp⟩, hnod⟩, hm⟩ := h
              cases hps : parseClass cd.levels cd.protoEnum [] with
              | error e => rw [hps] at hm; simp at hm
              | ok ps =>
                  rw [hps] at hm
                  simp [Bool.and_eq_true] at hm
                  obtain ⟨⟨⟨⟨hek, hinc⟩, hig⟩, hcov⟩, hcfl⟩ := hm
                  have hshn : cd.serialiseHook = none := hsh
                  have hdhn : cd.deserialiseHook = none := hdh
                  have hekn : ps.expandoKey = none := hek
                  have hincn : ps.includedKeys = [] := hinc
                  have hign2 : ignoredOf cd.levels = [] := hig
                  have hnd : (ps.fields.map Prod.fst).Nodup :=
                    parseClass_fields_nodup cd.levels cd.protoEnum [] ps hps
                  obtain ⟨fs, outE, hkeys, houtkeys, hwalk, hser, hpt⟩ :=
                    conformsFields_walk env m kvs (fun d c2 h2 => ih env d c2 h2)
                      ps.fields hcfl
                  refine ⟨.iinst cls fs, .vobj outE, ?_, ?_, ?_⟩
                  · intro outer
                    have hwalk0 := hwalk cls [] outer (fun k2 _ => rfl) hnd
                    rw [List.nil_append] at hwalk0
                    have hext : List.filter
                        (fun kv => decide (¬ kv.1 ∈ List.map Prod.fst ps.fields ∧
                          ¬ kv.1 ∈ ps.includedKeys)) kvs = [] := by
                      rw [List.filter_eq_nil_iff]
                      intro a ha
                      simp only [decide_eq_true_eq]
                      intro hand
                      exact hand.1 (isSome_mem_keys ps.fields a.1 (hcov a.1 a.2 ha))
                    simp [createInstance, henv, hdhn, hbp, hydrateInto, parseClassOf, hps,
                      hwalk0, hekn, hext, isObjLike,
                      show defaultHOptions.bypassConstructor = none from rfl,
                      show defaultHOptions.errorForExtraProps = false from rfl,
                      show defaultHOptions.collectErrors = false from rfl]
                  · intro f outer
                    have hser0 := hser cls fs [] outer (fun k2 _ => rfl) (fun k2 _ => rfl)
                      hnd
                    rw [List.nil_append] at hser0
                    have hep : ensureParsedOf env (.iinst cls fs) = .ok () := by
                      simp [ensureParsedOf, henv, hps, bind, Except.bind]
                    have hshk : serialiseHookOf env (.iinst cls fs) = none := by
                      simp [serialiseHookOf, henv, hshn]
                    have hpc2 : parseClassOf env (.iinst cls fs) [] = .ok ps := by
                      simp [parseClassOf, henv, hps]
                    have hign3 : ignoredFieldsOf env (.iinst cls fs) = [] := by
                      simp [ignoredFieldsOf, henv, hign2]
                    simp [serialiseInstance, hep, hshk, hpc2, hign3, hser0, hekn, hincn,
                      serialiseIncludes, serialiseExpando, isPlainObj, isObjLike,
                      show defaultSOptions.errorForExtraProps = false from rfl]
                  · have hndE : (outE.map Prod.fst).Nodup := by
                      rw [houtkeys]; exact hnd
                    simp only [jEquiv, Bool.and_eq_true]
                    refine ⟨?_, ?_⟩
                    · refine jEquivEntries_of_pointwise outE kvs ?_
                      intro k2 u2 hmem
                      have hk2 : k2 ∈ ps.fields.map Prod.fst := by
                        rw [← houtkeys]
                        exact List.mem_map.mpr ⟨(k2, u2), hmem, rfl⟩
                      obtain ⟨v2, u3, hv2, hu3, hj3⟩ := hpt k2 hk2
                      have he2 : alookup outE k2 = some u2 :=
                        alookup_of_mem_nodup outE k2 u2 hmem hndE
                      rw [he2] at hu3
                      injection hu3 with hu23
                      subst hu23
                      exact ⟨v2, hv2, hj3⟩
                    · rw [List.all_eq_true]
                      intro kv hkv
                      have hk2 : kv.1 ∈ ps.fields.map Prod.fst :=
                        isSome_mem_keys ps.fields kv.1 (hcov kv.1 kv.2 hkv)
                      obtain ⟨v2, u3, hv2, hu3, hj3⟩ := hpt kv.1 hk2
                      simp [hu3]

/-- A `Date`-style value coercion for the witness: it accepts exactly the
canonical ISO rendering of epoch 0 and returns that date. -/
def dateFnC1 : JVal → Except String IVal := fun v =>
  match v with
  | .vstr s => if s = dateToISOString 0 then .ok (.idate 0) else .error "Invalid date"
  | _ => .error "Invalid date"

/-- The witness schema: a required scalar, an optional scalar, a required
date-coerced value and an optional passthrough value. -/
def envC1W : Env :=
  [("A", mkSimpleClass
    [("s", valueReq), ("o", valueOpt),
     ("d", mkTSField TSType.Value (some (.fn dateFnC1)) true none false),
     ("p", valueOpt)])]

/-- The witness data: keys out of schema order, an explicit null on the
optional field, a canonical date string and a plain-object passthrough
value. -/
def dataC1W : JVal :=
  .vobj [("p", .vobj [("a", JVal.vint 1)]), ("s", JVal.vstr "v"), ("o", JVal.vnull),
         ("d", JVal.vstr (dateToISOString 0))]

/-- C1: the round-trip law, corrected.  As stated the law fails:
`c1_roundtrip_counterexample` hydrates `{}` against an optional field
validly under default options, yet serialisation returns `{x: null}`,
not a value deep-equal to `{}`.  The law does hold on the conformance
domain `conformsClass`: hook-free constructor-bypassed classes without
expando, `@Include` or ignored fields, and plain-object data with
distinct keys, all schema keys (in any order, each schema key covered),
where each field holds a passthrough value (scalar, plain object or
array) on an instantiator-free `Value` field, an explicit null on an
optional field without an `ifEmpty` factory, a canonically rendered
coercible scalar on an instantiated `Value` field (a date string in
ISO-8601 normal form round-trips through a `Date` field unchanged, which
is the date-normalisation content of the claim on already-normal
inputs), or recursively conforming data on a class-instantiated
`Object` / `Array` field.  Such data hydrates with no errors, and
serialising the resulting instance under default options returns a value
deep-equal to the input in the JavaScript sense (`jEquiv`: key-order
insensitive object comparison). -/
theorem c1_roundtrip_amended (n : Nat) (env : Env) (data : JVal) (cls : String)
    (h : conformsClass env n data cls = true) :
    ∃ inst u,
      (∀ outer, createInstance env n (some data) (some (.cls cls)) none outer
          defaultHOptions = .ok (inst, [])) ∧
      (∀ f outer, serialiseInstance env n inst f outer defaultSOptions = .ok u) ∧
      jEquiv u data = true :=
  conformsRoundtrip n env data cls h

/-- C1 witness: data with scrambled key order, a null optional, a
canonical date string and an object passthrough value round-trips. -/
theorem c1_roundtrip_amended_witness :
    conformsClass envC1W 1 dataC1W "A" = true ∧
    ∃ inst u,
      (∀ outer, createInstance envC1W 1 (some dataC1W) (some (.cls "A")) none outer
          defaultHOptions = .ok (inst, [])) ∧
      (∀ f outer, serialiseInstance envC1W 1 inst f outer defaultSOptions = .ok u) ∧
      jEquiv u dataC1W = true :=
  have hc : conformsClass envC1W 1 dataC1W "A" = true := by
    simp [conformsClass, conformsFields, conformsField, conformsElems, envFind,
      envC1W, dataC1W, mkSimpleClass, valueReq, valueOpt, mkTSField, parseClass,
      parseWalkDeco, parseStepDeco, parseWalkLegacy, parseStepLegacy, ignoredOf,
      alookup, objSet, setInsertAll, setInsert, Except.bind, bind, pure, Except.pure,
      nodupKeysB, wfJ, wfJEntries, jAtom, isValueAtom, atomToJ, dateFnC1]
  ⟨hc, c1_roundtrip_amended 1 envC1W dataC1W "A" hc⟩

end RIFT
